import Mathlib

/-! gofile client: a shallow embedding of `client.go` and `dto.go`.

The Go code is translated function by function.  Go strings are Lean strings
(their bytes are the UTF-8 encoding), byte slices are `List UInt8`, an `error`
is its message, and a nil-able value is an `Option`.  Everything the client
reaches outside the repository (the HTTP transport, URL validation, the JSON
text syntax, the filesystem, the random source of `mime/multipart`) is a field
of `Env`; the library functions whose behaviour decides a property
(`strings.Join`, `url.Values.Encode`, `mime/multipart.Writer`, `bytes.Buffer`,
`os.File`, struct decoding of `encoding/json`) are modelled after their Go
implementations.

Byte counts (`int`, `int64`) are unbounded integers here: they are lengths of
buffers and files, which fit the machine types.
-/

namespace Gofile

/-! ## Strings and bytes -/

/-- Conversion `[]byte(s)`: the UTF-8 bytes of a string. -/
def bytesOf (s : String) : List UInt8 :=
  s.toList.flatMap String.utf8EncodeChar

/-- Byte-wise lexicographic order, the order of Go's `<` on strings. -/
def bytesLess : List UInt8 → List UInt8 → Bool
  | [], [] => false
  | [], _ :: _ => true
  | _ :: _, [] => false
  | a :: as, b :: bs => if a < b then true else if b < a then false else bytesLess as bs

/-- Go's `a < b` on strings. -/
def strLess (a b : String) : Bool := bytesLess (bytesOf a) (bytesOf b)

/-- Insertion of a keyed entry into a list kept in ascending key order. -/
def insertByKey {α : Type} (e : String × α) : List (String × α) → List (String × α)
  | [] => [e]
  | x :: xs => if strLess e.1 x.1 then e :: x :: xs else x :: insertByKey e xs

/-- The entries of a map in ascending key order (`sort.Strings` on the keys). -/
def sortByKey {α : Type} (m : List (String × α)) : List (String × α) :=
  m.foldr insertByKey []

/-- `strings.Join(elems, sep)`: the empty string for no element, the element
itself for one, otherwise the first element followed, for each further
element, by the separator and that element. -/
def Join : List String → String → String
  | [], _ => ""
  | [a], _ => a
  | a :: rest, sep => rest.foldl (fun b s => b ++ sep ++ s) a

/-! ## `net/url` -/

/-- `shouldEscape(c, encodeQueryComponent)`: everything but ASCII letters,
digits and `-_.~` is escaped in a query component. -/
def shouldEscape (c : Char) : Bool :=
  !(c.isAlphanum || c == '-' || c == '_' || c == '.' || c == '~')

/-- The digit `"0123456789ABCDEF"[n]`. -/
def upperhex (n : Nat) : Char :=
  if n < 10 then Char.ofNat (48 + n) else Char.ofNat (55 + n)

/-- One escaped byte: `%` and two upper-case hexadecimal digits. -/
def escapeByte (b : UInt8) : List Char :=
  ['%', upperhex (b.toNat / 16), upperhex (b.toNat % 16)]

/-- The escaping of one character: an unreserved character stays, a space
becomes `+`, every other byte of the character becomes `%XX`. -/
def escapeChar (c : Char) : List Char :=
  if !shouldEscape c then [c]
  else if c == ' ' then ['+']
  else (String.utf8EncodeChar c).flatMap escapeByte

/-- Function `url.QueryEscape`. -/
def QueryEscape (s : String) : String :=
  String.mk (s.toList.flatMap escapeChar)

/-- Function `ishex`. -/
def ishex (c : Char) : Bool :=
  ('0' ≤ c && c ≤ '9') || ('a' ≤ c && c ≤ 'f') || ('A' ≤ c && c ≤ 'F')

/-- Function `unhex`. -/
def unhex (c : Char) : Nat :=
  if '0' ≤ c ∧ c ≤ '9' then c.toNat - 48
  else if 'a' ≤ c ∧ c ≤ 'f' then c.toNat - 97 + 10
  else if 'A' ≤ c ∧ c ≤ 'F' then c.toNat - 65 + 10
  else 0

/-- Function `url.QueryUnescape`, giving the bytes of the result: `%XX` is the
byte with those hexadecimal digits, `+` is a space, any other character is
itself; `none` for a `%` not followed by two hexadecimal digits. -/
def QueryUnescape : List Char → Option (List UInt8)
  | [] => some []
  | c :: rest =>
    if c = '%' then
      match rest with
      | h :: l :: rest1 =>
        if ishex h && ishex l then
          (QueryUnescape rest1).map fun bs => UInt8.ofNat (unhex h * 16 + unhex l) :: bs
        else none
      | _ => none
    else if c = '+' then (QueryUnescape rest).map fun bs => 32 :: bs
    else (QueryUnescape rest).map fun bs => String.utf8EncodeChar c ++ bs

/-- `url.Values`, a `map[string][]string`. -/
abbrev Values := List (String × List String)

/-- `Values.Add`: appends the value to the key's list. -/
def Values.Add : Values → String → String → Values
  | [], key, value => [(key, [value])]
  | (k, vs) :: rest, key, value =>
    if k = key then (k, vs ++ [value]) :: rest else (k, vs) :: Values.Add rest key value

/-- `Values.Encode`: `key=value` pairs, both escaped, keys in ascending order,
joined by `&` (every pair contains `=`, so "the builder is non-empty" is "this
is not the first pair"). -/
def Values.Encode (v : Values) : String :=
  "&".intercalate ((sortByKey v).flatMap fun kv =>
    kv.2.map fun value => QueryEscape kv.1 ++ "=" ++ QueryEscape value)

/-- The raw query of a URL string: what follows the first `?`, the fragment
(from the first `#`) removed. -/
def rawQueryOf (u : String) : String :=
  String.mk (((u.toList.takeWhile (· != '#')).dropWhile (· != '?')).drop 1)

/-! ## `dto.go` -/

/-- The envelope `Response[T]`. -/
structure Response (T : Type) where
  Status : String
  Data : T

/-- The payload of `getServer`. -/
structure ServerResult where
  Server : String

/-- The integer type `TempBufferType`. -/
abbrev TempBufferType := Int

/-- Constant `Ram = iota`. -/
def Ram : TempBufferType := 0

/-- Constant `FileInTempDir`. -/
def FileInTempDir : TempBufferType := 1

/-- The staging strategy chosen by the caller. -/
structure TempBuffer where
  TempBufferType : TempBufferType
  SpecifyTmpFolder : String

/-! ## Backing stores, the multipart writer and the `tmp` struct -/

/-- A `bytes.Buffer`: its bytes and the read offset. -/
structure Buffer where
  buf : List UInt8
  off : Nat

/-- An open `os.File` owned by this process alone: its name, the bytes of the
file on disk, the offset of the handle and the number of `Write` calls it has
received. -/
structure File where
  name : String
  data : List UInt8
  pos : Nat
  writes : Nat

/-- The object an `io.Writer` or `io.Reader` interface value of `tmp` points
to: `t.ramBuffer` or `t.file`. -/
inductive Store where
  | ram
  | file
deriving DecidableEq

/-- A part of `mime/multipart`: whether it is closed, and the last error that
occurred writing to it. -/
structure Part where
  closed : Bool
  we : Option String

/-- The writer `multipart.Writer`: the store it writes to, its boundary, and
the part handed out last. -/
structure Writer where
  w : Store
  boundary : String
  lastpart : Option Part

/-- The struct `tmp`.  `onSend` records whether a callback was supplied; its
invocations are returned by `Read` as events. -/
structure tmp where
  tempBuffer : TempBuffer
  ramBuffer : Option Buffer
  file : Option File
  reader : Option Store
  w : Option Writer
  onSend : Bool
  total : Int
  readOver : Int

/-! ## Requests and the environment -/

/-- The body handed to `http.NewRequest`: nil, a `bytes.Buffer` of form data,
or the staging buffer `tmp` itself. -/
inductive Body where
  | none
  | bytes (b : List UInt8)
  | staged (t : tmp)

/-- An `http.Request` as the client builds it. -/
structure Request where
  method : String
  url : String
  rawQuery : String
  header : List (String × String)
  body : Body

/-- An `http.Response`: the status code and what reading the body to its end
gives. -/
structure HttpResponse where
  StatusCode : Nat
  Body : Except String (List UInt8)

/-- A JSON value. -/
inductive Json where
  | null
  | bool (b : Bool)
  | number (literal : String)
  | string (s : String)
  | array (items : List Json)
  | object (members : List (String × Json))

/-- Everything outside the repository. -/
structure Env where
  /-- The transport `c.Do`. -/
  Do : Request → Except String HttpResponse
  /-- The error of `http.NewRequest` for a method and URL, if any. -/
  urlError : String → String → Option String
  /-- The function `url.ParseQuery` on a non-empty raw query. -/
  parseQuery : String → Values
  /-- The JSON text syntax: bytes to a JSON value. -/
  parseJSON : List UInt8 → Except String Json
  /-- The bytes `randomBoundary` reads from `crypto/rand`. -/
  random : List UInt8
  /-- The outcome of `os.CreateTemp(dir, pattern)`: the name of the new file. -/
  CreateTemp : String → String → Except String String
  /-- The outcome of the n-th `Write` on the temp file: `none` writes the
  whole slice, `some (k, e)` writes at most `k` bytes and fails with `e`. -/
  writeFault : Nat → Option (Nat × String)
  /-- The error of `File.Sync`, if any. -/
  syncErr : Option String
  /-- The error of `File.Seek`, if any. -/
  seekErr : Option String
  /-- The error of `File.Stat`, if any. -/
  statErr : Option String
  /-- The error of `File.Close`, if any. -/
  closeErr : Option String
  /-- The error of `os.Remove`, if any. -/
  removeErr : Option String

/-- What the calls change outside the process: the names of the files that
exist, and the requests handed to the transport, oldest first. -/
structure World where
  files : List String
  sent : List Request

/-- The struct `Client`; the embedded `http.Client` is `Env.Do`. -/
structure Client where
  Token : String

/-- Constant `ApiUri`. -/
def ApiUri : String := "https://api.gofile.io"

/-! ## The envelope executor -/

/-- Function `RequestResponse[T]`, `json.Unmarshal` into `Response[T]` given
as `unmarshal`. -/
def RequestResponse {T : Type} (unmarshal : List UInt8 → Except String (Response T))
    (env : Env) (req : Request) (w : World) : Except String T × World :=
  let w1 : World := { w with sent := w.sent ++ [req] }
  match env.Do req with
  | .error err => (.error err, w1)
  | .ok rsp =>
    match rsp.Body with
    | .error err => (.error err, w1)
    | .ok buff =>
      match unmarshal buff with
      | .error err => (.error err, w1)
      | .ok resp =>
        if resp.Status ≠ "ok" then (.error resp.Status, w1)
        else (.ok resp.Data, w1)

/-- Function `http.NewRequest(method, url, body)`. -/
def NewRequest (env : Env) (method url : String) (body : Body) : Except String Request :=
  match env.urlError method url with
  | some err => .error err
  | none => .ok { method := method, url := url, rawQuery := rawQueryOf url, header := [], body := body }

/-- Method `req.URL.Query()`: the parsed raw query. -/
def Request.Query (env : Env) (req : Request) : Values :=
  if req.rawQuery = "" then [] else env.parseQuery req.rawQuery

/-- The loop `for k := range m { v.Add(k, m[k]) }`. -/
def addAll (v : Values) (m : List (String × String)) : Values :=
  m.foldl (fun acc kv => Values.Add acc kv.1 kv.2) v

/-- Function `ReqResponse[T]`; a nil map is `none`. -/
def ReqResponse {T : Type} (unmarshal : List UInt8 → Except String (Response T))
    (env : Env) (method path : String)
    (query params : Option (List (String × String))) (w : World) : Except String T × World :=
  let body : Body :=
    match params with
    | some ps => Body.bytes (bytesOf (Values.Encode (addAll [] ps)))
    | none => Body.none
  match NewRequest env method (ApiUri ++ "/" ++ path) body with
  | .error err => (.error err, w)
  | .ok req =>
    let req1 : Request :=
      match query with
      | some q => { req with rawQuery := Values.Encode (addAll (req.Query env) q) }
      | none => req
    let req2 : Request :=
      match params with
      | some _ => { req1 with header := req1.header ++ [("Content-Type", "application/x-www-form-urlencoded")] }
      | none => req1
    RequestResponse unmarshal env req2 w

/-! ## Decoding of `encoding/json` into the structs of `dto.go` -/

/-- The scan of a quoted tag value after its opening quote: the characters up
to the closing quote and what follows it; `none` when the quote never closes. -/
def scanQuoted : List Char → Option (List Char × List Char)
  | [] => none
  | '"' :: rest => some ([], rest)
  | '\\' :: c :: rest => (scanQuoted rest).map fun r => ('\\' :: c :: r.1, r.2)
  | c :: rest => (scanQuoted rest).map fun r => (c :: r.1, r.2)

/-- The loop of `reflect.StructTag.Lookup`, one iteration per unit of fuel: a
tag is a list of `name:"value"` pairs, and the scan stops without a result at
the first piece that is not of that form.  A value with a backslash escape is
not unquoted here. -/
def lookupLoop : Nat → List Char → String → Option String
  | 0, _, _ => none
  | fuel + 1, tag, key =>
    let tag1 := tag.dropWhile (· == ' ')
    let name := tag1.takeWhile fun c => decide (' ' < c) && c != ':' && c != '"' && c != Char.ofNat 127
    match name, tag1.drop name.length with
    | [], _ => none
    | _ :: _, ':' :: '"' :: rest =>
      match scanQuoted rest with
      | none => none
      | some (value, rest1) =>
        if String.mk name = key then
          (if value.contains '\\' then none else some (String.mk value))
        else lookupLoop fuel rest1 key
    | _ :: _, _ => none

/-- Method `StructTag.Lookup`. -/
def StructTag.Lookup (tag key : String) : Option String :=
  lookupLoop (tag.length + 1) tag.toList key

/-- Function `isValidTag` of `encoding/json`. -/
def isValidTag (s : String) : Bool :=
  s != "" && s.toList.all fun c =>
    "!#$%&()*+-./:;<=>?@[]^_\x7b|\x7d~ ".toList.contains c || c.isAlphanum

/-- The JSON key of a struct field, from its Go name and its tag
(`typeFields`): the tag's name up to the first comma when that is a valid
name, the Go name otherwise; `none` for the tag `-`, which hides the field. -/
def jsonFieldName (goName tag : String) : Option String :=
  let t := (StructTag.Lookup tag "json").getD ""
  if t = "-" then none
  else
    let name := String.mk (t.toList.takeWhile (· != ','))
    some (if isValidTag name then name else goName)

/-- Case folding of a key for the match against field names.  The field names
of `dto.go` are ASCII; the characters that Unicode simple folding puts with
an ASCII letter are the letter's other case, the Kelvin sign (with `k`) and
the long s (with `s`). -/
def foldName (s : String) : String :=
  String.mk (s.toList.map fun c =>
    if c = Char.ofNat 0x212A then 'k' else if c = Char.ofNat 0x17F then 's' else c.toLower)

/-- The field an object key decodes into: the field with exactly that JSON
name, or else the first whose name equals it up to case. -/
def matchField {α : Type} (fields : List (Option String × α)) (key : String) : Option α :=
  match fields.find? (fun f => f.1 == some key) with
  | some f => some f.2
  | none => (fields.find? (fun f => f.1.map foldName == some (foldName key))).map (·.2)

/-- Decoding of a JSON value into a Go `string`: a string is stored, `null`
leaves the value as it is, anything else is a type error. -/
def decodeString (cur : String) : Json → Except String String
  | .string s => .ok s
  | .null => .ok cur
  | _ => .error "json: cannot unmarshal into Go value of type string"

/-- Decoding of a JSON value into a `ServerResult` (one field, `Server`, with
the tag written in `dto.go`). -/
def decodeServerResult (cur : ServerResult) : Json → Except String ServerResult
  | .object members =>
    members.foldlM (fun (r : ServerResult) (kv : String × Json) =>
      match matchField [(jsonFieldName "Server" "json:server", ())] kv.1 with
      | some () => (decodeString r.Server kv.2).map fun s => { r with Server := s }
      | none => .ok r) cur
  | .null => .ok cur
  | _ => .error "json: cannot unmarshal into Go value of type gofile.ServerResult"

/-- The two fields of `Response[T]`. -/
inductive ResponseField where
  | Status
  | Data

/-- Decoding of a JSON value into a `Response[T]`, the payload decoded by
`decodeData`. -/
def decodeResponse {T : Type} (decodeData : T → Json → Except String T)
    (cur : Response T) : Json → Except String (Response T)
  | .object members =>
    members.foldlM (fun (r : Response T) (kv : String × Json) =>
      match matchField [(jsonFieldName "Status" "json:\"status\"", ResponseField.Status),
                        (jsonFieldName "Data" "json:\"data\"", ResponseField.Data)] kv.1 with
      | some .Status => (decodeString r.Status kv.2).map fun s => { r with Status := s }
      | some .Data => (decodeData r.Data kv.2).map fun d => { r with Data := d }
      | none => .ok r) cur
  | .null => .ok cur
  | _ => .error "json: cannot unmarshal into Go value of type gofile.Response"

/-- Call `json.Unmarshal(buff, &resp)` for a zero-valued `Response[T]`. -/
def Unmarshal {T : Type} (env : Env) (decodeData : T → Json → Except String T) (zero : T)
    (buff : List UInt8) : Except String (Response T) :=
  match env.parseJSON buff with
  | .error err => .error err
  | .ok j => decodeResponse decodeData { Status := "", Data := zero } j

/-- Decoding into an `interface{}`: every JSON value is accepted. -/
def decodeAny (_ : Json) (j : Json) : Except String Json := .ok j

/-! ## Endpoint methods -/

/-- Method `Client.GetServer`. -/
def Client.GetServer (env : Env) (_c : Client) (w : World) : Except String String × World :=
  match ReqResponse (Unmarshal env decodeServerResult { Server := "" }) env "GET" "getServer" none none w with
  | (.error err, w1) => (.error err, w1)
  | (.ok serverResult, w1) => (.ok serverResult.Server, w1)

/-- Method `Client.GetAccountDetails`; `decode` and `zero` are the JSON decoding
and the zero value of `AccountDetails`. -/
def Client.GetAccountDetails {AccountDetails : Type}
    (decode : AccountDetails → Json → Except String AccountDetails) (zero : AccountDetails)
    (env : Env) (c : Client) (w : World) : Except String AccountDetails × World :=
  ReqResponse (Unmarshal env decode zero) env "GET" "getAccountDetails"
    (some [("allDetails", "true"), ("token", c.Token)]) none w

/-- Method `Client.CreateFolder`; `decode` and `zero` are the JSON decoding and
the zero value of `FolderCreated`, a type declared outside the given files. -/
def Client.CreateFolder {FolderCreated : Type}
    (decode : FolderCreated → Json → Except String FolderCreated) (zero : FolderCreated)
    (env : Env) (c : Client) (parentFolderId folderName : String) (w : World) :
    Except String FolderCreated × World :=
  ReqResponse (Unmarshal env decode zero) env "PUT" "createFolder" none
    (some [("parentFolderId", parentFolderId), ("folderName", folderName), ("token", c.Token)]) w

/-- The error of a call, `nil` being `none`. -/
def errorOf {T : Type} : Except String T → Option String
  | .error err => some err
  | .ok _ => none

/-- Method `Client.CopyContent`. -/
def Client.CopyContent (env : Env) (c : Client) (folderIdDest : String) (contentsId : List String)
    (w : World) : Option String × World :=
  let r := ReqResponse (Unmarshal env decodeAny Json.null) env "PUT" "copyContent" none
    (some [("folderIdDest", folderIdDest), ("contentsId", Join contentsId ","), ("token", c.Token)]) w
  (errorOf r.1, r.2)

/-- Method `Client.DeleteContent`. -/
def Client.DeleteContent (env : Env) (c : Client) (contentsId : List String) (w : World) :
    Option String × World :=
  let r := ReqResponse (Unmarshal env decodeAny Json.null) env "DELETE" "deleteContent" none
    (some [("contentsId", Join contentsId ","), ("token", c.Token)]) w
  (errorOf r.1, r.2)

/-- Method `Client.GetContent`; `decode` and `zero` are the JSON decoding and
the zero value of `ContentResult`. -/
def Client.GetContent {ContentResult : Type}
    (decode : ContentResult → Json → Except String ContentResult) (zero : ContentResult)
    (env : Env) (c : Client) (contentId : String) (w : World) : Except String ContentResult × World :=
  ReqResponse (Unmarshal env decode zero) env "GET" "deleteContent"
    (some [("contentId", contentId), ("token", c.Token)]) none w

/-- Method `Client.SetFolderOption`. -/
def Client.SetFolderOption (env : Env) (c : Client) (folderId option value : String) (w : World) :
    Option String × World :=
  let r := ReqResponse (Unmarshal env decodeAny Json.null) env "PUT" "setFolderOption" none
    (some [("folderId", folderId), ("option", option), ("value", value), ("token", c.Token)]) w
  (errorOf r.1, r.2)

/-! ## `mime/multipart` over the stores of `tmp` -/

/-- The digit `"0123456789abcdef"[n]`. -/
def lowerhex (n : Nat) : Char :=
  if n < 10 then Char.ofNat (48 + n) else Char.ofNat (87 + n)

/-- Function `randomBoundary`: the random bytes printed with `%x`. -/
def randomBoundary (env : Env) : String :=
  String.mk (env.random.flatMap fun b => [lowerhex (b.toNat / 16), lowerhex (b.toNat % 16)])

/-- Function `multipart.NewWriter`. -/
def NewWriter (env : Env) (w : Store) : Writer :=
  { w := w, boundary := randomBoundary env, lastpart := none }

/-- The message of a call through a nil pointer. -/
def nilPointer : String := "invalid memory address or nil pointer dereference"

/-- Method `File.Write` (success, or a short write) at the offset of the handle. -/
def File.put (f : File) (d : List UInt8) : File :=
  { f with data := f.data.take f.pos ++ d ++ f.data.drop (f.pos + d.length),
           pos := f.pos + d.length, writes := f.writes + 1 }

/-- One `Write(d)` on the store behind an `io.Writer`: the new state, the
number of bytes written and the error.  `bytes.Buffer.Write` appends and
never fails; `os.File.Write` follows the environment. -/
def tmp.storeWrite (env : Env) (t : tmp) (s : Store) (d : List UInt8) : tmp × Nat × Option String :=
  match s with
  | .ram =>
    match t.ramBuffer with
    | some b => ({ t with ramBuffer := some { b with buf := b.buf ++ d } }, d.length, none)
    | none => (t, 0, some nilPointer)
  | .file =>
    match t.file with
    | some f =>
      match env.writeFault f.writes with
      | none => ({ t with file := some (f.put d) }, d.length, none)
      | some (k, err) => ({ t with file := some (f.put (d.take k)) }, (d.take k).length, some err)
    | none => (t, 0, some "invalid argument")

/-- The bytes `CreatePart` writes before a part's content: the boundary line
(preceded by a line break unless this is the first part), the header lines in
ascending key order, and an empty line. -/
def partHeader (boundary : String) (first : Bool) (header : List (String × String)) : List UInt8 :=
  bytesOf ((if first then "--" else "\r\n--") ++ boundary ++ "\r\n"
    ++ String.join ((sortByKey header).map fun kv => kv.1 ++ ": " ++ kv.2 ++ "\r\n")
    ++ "\r\n")

/-- Method `Writer.CreatePart`: closes the last part and returns its write
error if it has one; otherwise writes the header with one `Write` and hands
out a new part, which becomes `lastpart`. -/
def tmp.CreatePart (env : Env) (t : tmp) (header : List (String × String)) : tmp × Option String :=
  match t.w with
  | none => (t, some nilPointer)
  | some mw =>
    let mw1 : Writer := { mw with lastpart := mw.lastpart.map fun p => { p with closed := true } }
    match mw.lastpart.bind (·.we) with
    | some err => ({ t with w := some mw1 }, some err)
    | none =>
      match tmp.storeWrite env { t with w := some mw1 } mw.w
          (partHeader mw.boundary mw.lastpart.isNone header) with
      | (t1, _, some err) => (t1, some err)
      | (t1, _, none) =>
        ({ t1 with w := some { mw1 with lastpart := some { closed := false, we := none } } }, none)

/-- The replacer `quoteEscaper` of `mime/multipart`: a backslash before a
backslash and before a quote, and a carriage return and a line feed
percent-encoded. -/
def quoteEscaper : List (Char × String) :=
  [('\\', "\\\\"), ('"', "\\\""), ('\r', "%0D"), ('\n', "%0A")]

/-- Method `strings.Replacer.Replace` for a replacer whose old strings are
single bytes: every byte with an entry is replaced by the entry's string. -/
def Replace (r : List (Char × String)) (s : String) : String :=
  String.mk (s.toList.flatMap fun c =>
    match r.lookup c with
    | some t => t.toList
    | none => [c])

/-- Function `escapeQuotes`: `quoteEscaper.Replace(s)`. -/
def escapeQuotes (s : String) : String := Replace quoteEscaper s

/-- Method `Writer.CreateFormFile`. -/
def tmp.CreateFormFile (env : Env) (t : tmp) (fieldname filename : String) : tmp × Option String :=
  t.CreatePart env
    [("Content-Disposition",
        "form-data; name=\"" ++ escapeQuotes fieldname ++ "\"; filename=\"" ++ escapeQuotes filename ++ "\""),
     ("Content-Type", "application/octet-stream")]

/-- Method `Writer.CreateFormField`. -/
def tmp.CreateFormField (env : Env) (t : tmp) (fieldname : String) : tmp × Option String :=
  t.CreatePart env [("Content-Disposition", "form-data; name=\"" ++ escapeQuotes fieldname ++ "\"")]

/-- Method `part.Write` on the part handed out last (the `fw` of
`UploadFile`): one `Write` on the store; an error is returned and kept in the
part's `we`. -/
def tmp.partWrite (env : Env) (t : tmp) (d : List UInt8) : tmp × Nat × Option String :=
  match t.w with
  | none => (t, 0, some nilPointer)
  | some mw =>
    match mw.lastpart with
    | none => (t, 0, some nilPointer)
    | some p =>
      if p.closed then (t, 0, some "multipart: can\x27t write to finished part")
      else
        match tmp.storeWrite env t mw.w d with
        | (t1, n, some err) =>
          ({ t1 with w := some { mw with lastpart := some { p with we := some err } } }, n, some err)
        | (t1, n, none) => (t1, n, none)

/-- An `io.Reader` given to `UploadFile`: the slices its successive `Read`
calls deliver, and how it ends: `none` for `io.EOF`, or an error. -/
structure Reader where
  chunks : List (List UInt8)
  err : Option String

/-- Function `io.Copy(fw, src)`: each non-empty slice read is written with one
`Write`; a write error or a short write ends the copy, and so does the end of
the source, with its error unless that is `io.EOF`. -/
def tmp.ioCopy (env : Env) (t : tmp) : List (List UInt8) → Option String → tmp × Option String
  | [], final => (t, final)
  | c :: rest, final =>
    if c.isEmpty then tmp.ioCopy env t rest final
    else
      match t.partWrite env c with
      | (t1, _, some err) => (t1, some err)
      | (t1, n, none) =>
        if n ≠ c.length then (t1, some "short write") else tmp.ioCopy env t1 rest final

/-- Method `Writer.Close`: closes the last part and returns its write error if
it has one; otherwise writes the closing boundary line. -/
def tmp.writerClose (env : Env) (t : tmp) : tmp × Option String :=
  match t.w with
  | none => (t, some nilPointer)
  | some mw =>
    match mw.lastpart.bind (·.we) with
    | some err =>
      ({ t with w := some { mw with lastpart := mw.lastpart.map fun p => { p with closed := true } } },
        some err)
    | none =>
      match tmp.storeWrite env { t with w := some { mw with lastpart := none } } mw.w
          (bytesOf ("\r\n--" ++ mw.boundary ++ "--\r\n")) with
      | (t1, _, err) => (t1, err)

/-- Method `Writer.FormDataContentType`. -/
def Writer.FormDataContentType (mw : Writer) : String :=
  "multipart/form-data; boundary=" ++
    (if mw.boundary.toList.any (fun c => "()<>@,;:\\\"/[]?= ".toList.contains c)
     then "\"" ++ mw.boundary ++ "\"" else mw.boundary)

/-! ## The methods of `tmp` -/

/-- Method `tmp.init`. -/
def tmp.init (env : Env) (t : tmp) (w : World) : tmp × Option String × World :=
  if t.tempBuffer.TempBufferType = Ram then
    ({ t with ramBuffer := some { buf := [], off := 0 }, w := some (NewWriter env .ram) }, none, w)
  else if t.tempBuffer.TempBufferType = FileInTempDir then
    match env.CreateTemp t.tempBuffer.SpecifyTmpFolder "GO_FILE_TMP_" with
    | .error err => ({ t with file := none }, some err, w)
    | .ok name =>
      ({ t with file := some { name := name, data := [], pos := 0, writes := 0 },
                w := some (NewWriter env .file) },
        none, { w with files := w.files ++ [name] })
  else (t, some "error tmp buffer type", w)

/-- Method `Buffer.Len`: the number of unread bytes. -/
def Buffer.Len (b : Buffer) : Nat := b.buf.length - b.off

/-- Method `tmp.flip`. -/
def tmp.flip (env : Env) (t : tmp) : tmp × Option String :=
  match t.writerClose env with
  | (t1, some err) => (t1, some err)
  | (t1, none) =>
    if t1.tempBuffer.TempBufferType = Ram then
      match t1.ramBuffer with
      | some b => ({ t1 with total := (b.Len : Int), reader := some .ram }, none)
      | none => (t1, some nilPointer)
    else if t1.tempBuffer.TempBufferType = FileInTempDir then
      match t1.file with
      | none => (t1, some "invalid argument")
      | some f =>
        match env.syncErr with
        | some err => (t1, some err)
        | none =>
          match env.seekErr with
          | some err => (t1, some err)
          | none =>
            let f1 : File := { f with pos := 0 }
            match env.statErr with
            | some err => ({ t1 with file := some f1 }, some err)
            | none =>
              ({ t1 with file := some f1, total := (f1.data.length : Int), reader := some .file }, none)
    else (t1, some "error tmp buffer type")

/-- Method `tmp.close`: the error and the filesystem afterwards. -/
def tmp.close (env : Env) (t : tmp) (w : World) : Option String × World :=
  if t.tempBuffer.TempBufferType = Ram then (none, w)
  else if t.tempBuffer.TempBufferType = FileInTempDir then
    match t.file with
    | some f =>
      match env.closeErr with
      | some err => (some err, w)
      | none =>
        match env.removeErr with
        | some err => (some err, w)
        | none => (none, { w with files := w.files.filter (· != f.name) })
    | none => (none, w)
  else (some "error tmp buffer type", w)

/-- Method `Buffer.Read` into a slice of length `k`. -/
def Buffer.Read (b : Buffer) (k : Nat) : Buffer × List UInt8 × Option String :=
  if b.buf.length ≤ b.off then
    ({ buf := [], off := 0 }, [], if k = 0 then none else some "EOF")
  else
    let d := (b.buf.drop b.off).take k
    ({ b with off := b.off + d.length }, d, none)

/-- Method `File.Read` into a slice of length `k`, for a regular file read
without I/O errors. -/
def File.Read (f : File) (k : Nat) : File × List UInt8 × Option String :=
  if k = 0 then (f, [], none)
  else
    let d := (f.data.drop f.pos).take k
    if d.isEmpty then (f, [], some "EOF") else ({ f with pos := f.pos + d.length }, d, none)

/-- What one `tmp.Read` gives: the bytes `p[:n]`, the error, and the call
`onSend(total, readOver)` it made, if any. -/
structure ReadResult where
  data : List UInt8
  err : Option String
  event : Option (Int × Int)

/-- The read `t.reader.Read(p)` for a slice of length `k`. -/
def tmp.readerRead (t : tmp) (k : Nat) : tmp × List UInt8 × Option String :=
  match t.reader with
  | none => (t, [], some nilPointer)
  | some .ram =>
    match t.ramBuffer with
    | none => (t, [], some nilPointer)
    | some b => ({ t with ramBuffer := some (b.Read k).1 }, (b.Read k).2.1, (b.Read k).2.2)
  | some .file =>
    match t.file with
    | none => (t, [], some "invalid argument")
    | some f => ({ t with file := some (f.Read k).1 }, (f.Read k).2.1, (f.Read k).2.2)

/-- Method `tmp.Read` for a slice of length `k`. -/
def tmp.Read (t : tmp) (k : Nat) : tmp × ReadResult :=
  let r := t.readerRead k
  if r.1.onSend then
    let t1 : tmp := { r.1 with readOver := r.1.readOver + (r.2.1.length : Int) }
    (t1, { data := r.2.1, err := r.2.2, event := some (t1.total, t1.readOver) })
  else (r.1, { data := r.2.1, err := r.2.2, event := none })

/-! ## `UploadFile` -/

/-- The function literal of `UploadFile` that writes the three parts.  The
results of the two `fw.Write` calls are dropped, as in the source. -/
def uploadParts (env : Env) (c : Client) (t : tmp) (folderId fileName : String)
    (fileReader : Reader) : tmp × Option String :=
  match t.CreateFormFile env "file" fileName with
  | (t1, some err) => (t1, some err)
  | (t1, none) =>
    match t1.ioCopy env fileReader.chunks fileReader.err with
    | (t2, some err) => (t2, some err)
    | (t2, none) =>
      match t2.CreateFormField env "folderId" with
      | (t3, some err) => (t3, some err)
      | (t3, none) =>
        match (t3.partWrite env (bytesOf folderId)).1.CreateFormField env "token" with
        | (t5, some err) => (t5, some err)
        | (t5, none) => ((t5.partWrite env (bytesOf c.Token)).1, none)

/-- Method `Header.Set`. -/
def headerSet (h : List (String × String)) (key value : String) : List (String × String) :=
  h.filter (fun kv => kv.1 != key) ++ [(key, value)]

/-- The literal `&tmp{tempBuffer: tempBuffer, onSend: onSend}`: every other
field has its zero value. -/
def tmp.new (tempBuffer : TempBuffer) (onSend : Bool) : tmp :=
  { tempBuffer := tempBuffer, ramBuffer := none, file := none, reader := none, w := none,
    onSend := onSend, total := 0, readOver := 0 }

/-- Method `Client.UploadFile`; `decode` and `zero` are the JSON decoding and
the zero value of `FileUpload`.  The deferred
`tmp.close()` runs at every return after a successful `init` (it reads the
strategy and the file name only, which no later step changes). -/
def Client.UploadFile {FileUpload : Type}
    (decode : FileUpload → Json → Except String FileUpload) (zero : FileUpload)
    (env : Env) (c : Client) (server folderId fileName : String) (fileReader : Reader)
    (tempBuffer : TempBuffer) (onSend : Bool) (w : World) : Except String FileUpload × World :=
  match (tmp.new tempBuffer onSend).init env w with
  | (_, some err, w1) => (.error err, w1)
  | (t1, none, w1) =>
    match uploadParts env c t1 folderId fileName fileReader with
    | (t2, some err) => (.error err, (t2.close env w1).2)
    | (t2, none) =>
      match t2.flip env with
      | (t3, some err) => (.error err, (t3.close env w1).2)
      | (t3, none) =>
        match NewRequest env "POST" ("https://" ++ server ++ ".gofile.io/uploadFile") (Body.staged t3) with
        | .error err => (.error err, (t3.close env w1).2)
        | .ok req =>
          let ctype := (t3.w.map Writer.FormDataContentType).getD ""
          let r := RequestResponse (Unmarshal env decode zero) env
            { req with header := headerSet req.header "Content-Type" ctype } w1
          (r.1, (t3.close env r.2).2)

/-! ## Reading a sealed buffer -/

/-- A sequence of `Read` calls with slices of the given lengths, ended by the
first call that reports `io.EOF`: the results of the calls made, in order. -/
def tmp.reads (t : tmp) : List Nat → List ReadResult
  | [] => []
  | k :: ks =>
    let r := t.Read k
    if r.2.err = some "EOF" then [r.2] else r.2 :: tmp.reads r.1 ks

/-- Whether the last call of a sequence reported `io.EOF`. -/
def reachedEOF (rs : List ReadResult) : Bool :=
  rs.getLast?.map (·.err) == some (some "EOF")

/-- The bytes a sequence of calls returned, in order. -/
def bytesRead (rs : List ReadResult) : List UInt8 := rs.flatMap (·.data)

/-! ## Specification-side definitions -/

/-- The ids joined by single commas, as the specification words it: nothing
for no id, the id itself for one, otherwise the first id, a comma, and the
rest joined the same way. -/
def commaJoined : List String → String
  | [] => ""
  | [a] => a
  | a :: b :: rest => a ++ "," ++ commaJoined (b :: rest)

/-- The request `ReqResponse` hands to `RequestResponse` when `http.NewRequest`
accepts the method and URL. -/
def builtRequest (env : Env) (method path : String)
    (query params : Option (List (String × String))) : Request :=
  { method := method
    url := ApiUri ++ "/" ++ path
    rawQuery :=
      match query with
      | some q =>
        Values.Encode (addAll
          (if rawQueryOf (ApiUri ++ "/" ++ path) = "" then []
           else env.parseQuery (rawQueryOf (ApiUri ++ "/" ++ path))) q)
      | none => rawQueryOf (ApiUri ++ "/" ++ path)
    header :=
      match params with
      | some _ => [("Content-Type", "application/x-www-form-urlencoded")]
      | none => []
    body :=
      match params with
      | some ps => Body.bytes (bytesOf (Values.Encode (addAll [] ps)))
      | none => Body.none }

/-- The bytes in one of the two stores of `tmp`. -/
def tmp.storeBytes (t : tmp) : Store → List UInt8
  | .ram => (t.ramBuffer.map Buffer.buf).getD []
  | .file => (t.file.map File.data).getD []

/-- The bytes in the store of `tmp` that its writer writes to. -/
def tmp.stored (t : tmp) : List UInt8 :=
  match t.w with
  | some mw => t.storeBytes mw.w
  | none => []

/-- The bytes the reader of `tmp` has still to deliver: the buffer from its
read offset, or the file from the offset of the handle. -/
def tmp.pending (t : tmp) : List UInt8 :=
  match t.reader with
  | some .ram => (t.ramBuffer.map fun b => b.buf.drop b.off).getD []
  | some .file => (t.file.map fun f => f.data.drop f.pos).getD []
  | none => []

/-- What no write through the multipart writer changes: the strategy, the
reader, the callback, the counters, the store and boundary of the writer, and
the name of the file. -/
def tmp.frame (t : tmp) :
    TempBuffer × Option Store × Bool × Int × Int × Option (Store × String) × Option String :=
  (t.tempBuffer, t.reader, t.onSend, t.total, t.readOver,
    t.w.map (fun mw => (mw.w, mw.boundary)), t.file.map File.name)

/-- The store is there and every write appends to it: the buffer has not been
read, the handle of the file is at its end. -/
def tmp.Ready (t : tmp) : Store → Prop
  | .ram => ∃ b, t.ramBuffer = some b ∧ b.off = 0
  | .file => ∃ f, t.file = some f ∧ f.pos = f.data.length

/-- The store of the writer is the one the strategy names. -/
def tmp.Matches (t : tmp) (s : Store) : Prop :=
  (s = .ram ∧ t.tempBuffer.TempBufferType = Ram)
  ∨ (s = .file ∧ t.tempBuffer.TempBufferType = FileInTempDir)

/-- One use of the multipart writer between `init` and `flip`. -/
inductive WriterOp where
  | createFormFile (fieldname filename : String)
  | createFormField (fieldname : String)
  | write (d : List UInt8)
  | copy (src : Reader)

/-- The state after one use of the writer, whatever it returned. -/
def tmp.apply (env : Env) (t : tmp) : WriterOp → tmp
  | .createFormFile fieldname filename => (t.CreateFormFile env fieldname filename).1
  | .createFormField fieldname => (t.CreateFormField env fieldname).1
  | .write d => (t.partWrite env d).1
  | .copy src => (t.ioCopy env src.chunks src.err).1

/-- The state after a sequence of uses of the writer. -/
def tmp.run (env : Env) (t : tmp) (ops : List WriterOp) : tmp :=
  ops.foldl (tmp.apply env) t

/-- A part of a multipart message: its header fields and its content. -/
structure FormPart where
  header : List (String × String)
  content : List UInt8

/-- The bytes of one part: a line `name: value` for each header field, an
empty line, the content. -/
def FormPart.bytes (p : FormPart) : List UInt8 :=
  bytesOf (String.join (p.header.map fun kv => kv.1 ++ ": " ++ kv.2 ++ "\r\n") ++ "\r\n")
    ++ p.content

/-- The parts after the first, each after a boundary line, and the closing
boundary line. -/
def delimited (boundary : String) : List FormPart → List UInt8
  | [] => bytesOf ("\r\n--" ++ boundary ++ "--\r\n")
  | p :: ps => bytesOf ("\r\n--" ++ boundary ++ "\r\n") ++ p.bytes ++ delimited boundary ps

/-- A multipart message of the given parts, in order, as the specification
words it: each part after a boundary line, then the closing boundary. -/
def multipartMessage (boundary : String) : List FormPart → List UInt8
  | [] => delimited boundary []
  | p :: ps => bytesOf ("--" ++ boundary ++ "\r\n") ++ p.bytes ++ delimited boundary ps

/-- A name as it stands between the quotes of a content disposition:
a backslash and a quote are preceded by a backslash, a carriage return is
written `%0D` and a line feed `%0A`, and every other character is itself. -/
def quotedName (s : String) : String :=
  String.mk (s.toList.flatMap fun c =>
    if c = '\\' then ['\\', '\\']
    else if c = '"' then ['\\', '"']
    else if c = '\r' then ['%', '0', 'D']
    else if c = '\n' then ['%', '0', 'A']
    else [c])

/-- The file part: the field name and the file name in the content
disposition, the octet-stream content type, and the content. -/
def filePart (fieldname filename : String) (content : List UInt8) : FormPart :=
  { header := [("Content-Disposition",
                  "form-data; name=\"" ++ quotedName fieldname ++ "\"; filename=\""
                    ++ quotedName filename ++ "\""),
               ("Content-Type", "application/octet-stream")]
    content := content }

/-- A form field: its name in the content disposition, and its value. -/
def fieldPart (fieldname : String) (value : List UInt8) : FormPart :=
  { header := [("Content-Disposition", "form-data; name=\"" ++ quotedName fieldname ++ "\"")]
    content := value }

/-- The bytes of the source of an upload. -/
def Reader.bytes (r : Reader) : List UInt8 := r.chunks.flatMap id

/-- The store the strategy names. -/
def storeOf (tempBuffer : TempBuffer) : Store :=
  if tempBuffer.TempBufferType = Ram then .ram else .file

/-- What a store takes of the `n`-th `Write` made on it, and the error of that
`Write`: a buffer in memory takes every byte; the temp file takes what the
environment lets through. -/
def Env.takes (env : Env) (s : Store) (n : Nat) (d : List UInt8) : List UInt8 × Option String :=
  match s with
  | .ram => (d, none)
  | .file =>
    match env.writeFault n with
    | none => (d, none)
    | some (k, err) => (d.take k, some err)

/-- What the calls of the multipart writer have passed on so far, seen from
outside the staging buffer: the bytes that reached the store, in order, the
number of writes made, and the part handed out last. -/
structure Written where
  bytes : List UInt8
  writes : Nat
  part : Option Part

/-- One write passed on: the bytes the store takes are added at the end. -/
def Written.put (env : Env) (s : Store) (x : Written) (d : List UInt8) :
    Written × Option String :=
  ({ x with bytes := x.bytes ++ (env.takes s x.writes d).1, writes := x.writes + 1 },
    (env.takes s x.writes d).2)

/-- The creation of a part: nothing is written when the last part has a write
error; otherwise the boundary line and the header are written, and a new part
is open when that write succeeded. -/
def Written.createPart (env : Env) (s : Store) (boundary : String) (x : Written)
    (header : List (String × String)) : Written × Option String :=
  match x.part.bind (·.we) with
  | some err => ({ x with part := x.part.map fun p => { p with closed := true } }, some err)
  | none =>
    match x.put env s (partHeader boundary x.part.isNone header) with
    | (y, some err) => ({ y with part := x.part.map fun p => { p with closed := true } }, some err)
    | (y, none) => ({ y with part := some { closed := false, we := none } }, none)

/-- A write to the part handed out last: the bytes are written when that part
is open, and an error of the write is kept in the part. -/
def Written.write (env : Env) (s : Store) (x : Written) (d : List UInt8) :
    Written × Option String :=
  match x.part with
  | none => (x, some nilPointer)
  | some p =>
    if p.closed then (x, some "multipart: can\x27t write to finished part")
    else
      match x.put env s d with
      | (y, some err) => ({ y with part := some { p with we := some err } }, some err)
      | (y, none) => (y, none)

/-- A copy of a source into the part handed out last: its non-empty slices are
written in order up to the first write that fails. -/
def Written.copy (env : Env) (s : Store) (x : Written) :
    List (List UInt8) → Option String → Written × Option String
  | [], final => (x, final)
  | c :: rest, final =>
    if c.isEmpty then Written.copy env s x rest final
    else
      match x.write env s c with
      | (y, some err) => (y, some err)
      | (y, none) => Written.copy env s y rest final

/-- One use of the writer, seen from outside. -/
def Written.apply (env : Env) (s : Store) (boundary : String) (x : Written) : WriterOp → Written
  | .createFormFile fieldname filename =>
    (x.createPart env s boundary (filePart fieldname filename []).header).1
  | .createFormField fieldname => (x.createPart env s boundary (fieldPart fieldname []).header).1
  | .write d => (x.write env s d).1
  | .copy src => (x.copy env s src.chunks src.err).1

/-- A sequence of uses of the writer, seen from outside. -/
def Written.run (env : Env) (s : Store) (boundary : String) (x : Written)
    (ops : List WriterOp) : Written :=
  ops.foldl (Written.apply env s boundary) x

/-- The start of a part in a message: the boundary line (after a line break
unless the part is the first), the header lines and an empty line. -/
def partStart (boundary : String) (first : Bool) (p : FormPart) : List UInt8 :=
  bytesOf ((if first then "--" else "\r\n--") ++ boundary ++ "\r\n")
    ++ bytesOf (String.join (p.header.map fun kv => kv.1 ++ ": " ++ kv.2 ++ "\r\n") ++ "\r\n")

/-- The bytes a sequence of uses of the writer writes when the store takes
every write: the start of each part created, the bytes of each write and of
each source copied into the part that is open.  `hasPart` tells whether a
part has been created before. -/
def writtenParts (boundary : String) : Bool → List WriterOp → List UInt8
  | _, [] => []
  | hasPart, .createFormFile fieldname filename :: rest =>
    partStart boundary (!hasPart) (filePart fieldname filename [])
      ++ writtenParts boundary true rest
  | hasPart, .createFormField fieldname :: rest =>
    partStart boundary (!hasPart) (fieldPart fieldname []) ++ writtenParts boundary true rest
  | hasPart, .write d :: rest =>
    (if hasPart then d else []) ++ writtenParts boundary hasPart rest
  | hasPart, .copy src :: rest =>
    (if hasPart then src.bytes else []) ++ writtenParts boundary hasPart rest

/-- The store holds exactly what has been passed on to it, and every further
write appends. -/
def tmp.Stores (t : tmp) (s : Store) (x : Written) : Prop :=
  match s with
  | .ram => ∃ b, t.ramBuffer = some b ∧ b.off = 0 ∧ b.buf = x.bytes
  | .file =>
    ∃ f, t.file = some f ∧ f.pos = f.data.length ∧ f.data = x.bytes ∧ f.writes = x.writes

/-- The staging buffer agrees with what has been passed on: its writer has
that store, boundary and last part, and its store holds those bytes. -/
def tmp.Holds (t : tmp) (s : Store) (boundary : String) (x : Written) : Prop :=
  t.w = some { w := s, boundary := boundary, lastpart := x.part } ∧ t.Stores s x

/-- The staging steps of `UploadFile` after `init`, every step's own error
looked at, the two value writes included: the state and the first error. -/
def stagingSteps (env : Env) (c : Client) (folderId fileName : String) (fileReader : Reader)
    (t1 : tmp) : tmp × Option String :=
  match t1.CreateFormFile env "file" fileName with
  | (t2, some err) => (t2, some err)
  | (t2, none) =>
    match t2.ioCopy env fileReader.chunks fileReader.err with
    | (t3, some err) => (t3, some err)
    | (t3, none) =>
      match t3.CreateFormField env "folderId" with
      | (t4, some err) => (t4, some err)
      | (t4, none) =>
        match t4.partWrite env (bytesOf folderId) with
        | (t5, _, some err) => (t5, some err)
        | (t5, _, none) =>
          match t5.CreateFormField env "token" with
          | (t6, some err) => (t6, some err)
          | (t6, none) =>
            match t6.partWrite env (bytesOf c.Token) with
            | (t7, _, some err) => (t7, some err)
            | (t7, _, none) => t7.flip env

/-- The first error among the staging steps of `UploadFile`: `init`, creating
the file part, copying the content, creating the `folderId` field, writing
its value, creating the `token` field, writing its value, `flip`. -/
def firstStagingError (env : Env) (c : Client) (folderId fileName : String)
    (fileReader : Reader) (tempBuffer : TempBuffer) (onSend : Bool) (w : World) : Option String :=
  match (tmp.new tempBuffer onSend).init env w with
  | (_, some err, _) => some err
  | (t1, none, _) => (stagingSteps env c folderId fileName fileReader t1).2

/-- The staging of `UploadFile` as the source runs it: the function literal,
then `flip`. -/
def sealParts (env : Env) (c : Client) (folderId fileName : String) (fileReader : Reader)
    (t1 : tmp) : tmp × Option String :=
  match uploadParts env c t1 folderId fileName fileReader with
  | (t2, some err) => (t2, some err)
  | (t2, none) => t2.flip env

/-- The body of a request as a reader delivers it: the bytes of a form body,
or what the staging buffer has to deliver. -/
def Request.bodyBytes (r : Request) : List UInt8 :=
  match r.body with
  | .none => []
  | .bytes b => b
  | .staged t => t.pending

/-- The request carries the client's token: its query, or its form body, is
the encoding of a parameter map with `token` set to the token, or its body is
a multipart message with a form field `token` whose value is the token. -/
def carriesToken (c : Client) (r : Request) : Prop :=
  (∃ v : Values, r.rawQuery = v.Encode ∧ ("token", [c.Token]) ∈ v)
  ∨ (∃ v : Values, r.body = Body.bytes (bytesOf v.Encode) ∧ ("token", [c.Token]) ∈ v)
  ∨ (∃ (t : tmp) (boundary : String) (parts : List FormPart),
      r.body = Body.staged t ∧ t.pending = multipartMessage boundary parts
      ∧ fieldPart "token" (bytesOf c.Token) ∈ parts)

/-- The reader of `tmp` is set and the store behind it is there. -/
def tmp.Sealed (t : tmp) : Prop :=
  match t.reader with
  | some .ram => ∃ b, t.ramBuffer = some b
  | some .file => ∃ f, t.file = some f
  | none => False

/-- The byte counts the calls of a sequence returned, in order. -/
def counts (rs : List ReadResult) : List Int := rs.map fun r => (r.data.length : Int)

/-- The request `UploadFile` hands to the transport for a sealed buffer. -/
def uploadRequest (server : String) (t3 : tmp) : Request :=
  { method := "POST"
    url := "https://" ++ server ++ ".gofile.io/uploadFile"
    rawQuery := rawQueryOf ("https://" ++ server ++ ".gofile.io/uploadFile")
    header := [("Content-Type", (t3.w.map Writer.FormDataContentType).getD "")]
    body := Body.staged t3 }

/-- The three parts `UploadFile` stages: the file, the folder id, the token. -/
def uploadPartsSpec (c : Client) (folderId fileName : String) (fileReader : Reader) :
    List FormPart :=
  [filePart "file" fileName fileReader.bytes,
   fieldPart "folderId" (bytesOf folderId),
   fieldPart "token" (bytesOf c.Token)]

/-- A test double of the environment: the transport answers every request
with the given status code and body, the JSON reader knows that one body, and
nothing fails. -/
def mockEnv (code : Nat) (body : List UInt8) (json : Json) : Env :=
  { Do := fun _ => .ok { StatusCode := code, Body := .ok body }
    urlError := fun _ _ => none
    parseQuery := fun _ => []
    parseJSON := fun b => if b = body then .ok json else .error "invalid character"
    random := [31, 160, 7]
    CreateTemp := fun dir pattern => .ok (dir ++ "/" ++ pattern ++ "1")
    writeFault := fun _ => none
    syncErr := none
    seekErr := none
    statErr := none
    closeErr := none
    removeErr := none }

/-- A sample use of the writer: a file part of two bytes and a field of one. -/
def sampleOps : List WriterOp :=
  [.createFormFile "file" "a.txt", .write [104, 105], .createFormField "token", .write [116]]

/-- The environment of the samples: the service answers `null` and nothing
fails. -/
def sampleEnv : Env := mockEnv 200 (bytesOf "null") .null

/-- An environment in which the service answers with the status `ok` and
nothing fails. -/
def okEnv : Env :=
  mockEnv 200 (bytesOf "\x7b\"status\":\"ok\"\x7d") (.object [("status", .string "ok")])

/-- An environment in which the fourth `Write` on the temp file, the one of
the `folderId` value when the source delivers one slice, writes nothing and
fails. -/
def fullDiskEnv : Env :=
  { sampleEnv with
    writeFault := fun n => if n = 3 then some (0, "no space left on device") else none }

/-- An environment in which the service answers `ok` and closing the temp
file fails. -/
def closeFailsEnv : Env :=
  { okEnv with closeErr := some "input/output error" }

/-- A source of three bytes delivered in one slice. -/
def sampleReader : Reader := { chunks := [[1, 2, 3]], err := none }

/-- A source of ten bytes delivered in two slices. -/
def tenBytes : Reader := { chunks := [[1, 2, 3, 4, 5, 6], [7, 8, 9, 10]], err := none }

/-- The world before a call: no file, no request. -/
def emptyWorld : World := { files := [], sent := [] }

/-- The sample written after `init` under a strategy. -/
def sampleWritten (strategy : TempBufferType) (onSend : Bool) : tmp :=
  (((tmp.new { TempBufferType := strategy, SpecifyTmpFolder := "/tmp" } onSend).init sampleEnv
      emptyWorld).1.run sampleEnv sampleOps)

/-- The sample sealed by `flip`. -/
def sampleSealed (strategy : TempBufferType) (onSend : Bool) : tmp :=
  ((sampleWritten strategy onSend).flip sampleEnv).1

/-- The bytes of a form body; nothing for another kind of body. -/
def formBody (r : Request) : List UInt8 :=
  match r.body with
  | .bytes b => b
  | _ => []

set_option maxRecDepth 8000

/-! ## Lemmas on the envelope executor -/

theorem jsonFieldName_Status : jsonFieldName "Status" "json:\"status\"" = some "status" := by
  decide

theorem jsonFieldName_Data : jsonFieldName "Data" "json:\"data\"" = some "data" := by
  decide

theorem jsonFieldName_Server : jsonFieldName "Server" "json:server" = some "Server" := by
  decide

theorem RequestResponse_world {T : Type} (unmarshal : List UInt8 → Except String (Response T))
    (env : Env) (req : Request) (w : World) :
    (RequestResponse unmarshal env req w).2 = { w with sent := w.sent ++ [req] } := by
  unfold RequestResponse
  cases env.Do req with
  | error e => rfl
  | ok rsp =>
    cases hb : rsp.Body with
    | error e => simp [hb]
    | ok buff =>
      cases hu : unmarshal buff with
      | error e => simp [hb, hu]
      | ok resp => by_cases hs : resp.Status = "ok" <;> simp [hb, hu, hs]

theorem RequestResponse_result {T : Type} (unmarshal : List UInt8 → Except String (Response T))
    (env : Env) (req : Request) (w : World) (code : Nat) (buff : List UInt8)
    (status : String) (data : T)
    (hdo : env.Do req = .ok { StatusCode := code, Body := .ok buff })
    (hdec : unmarshal buff = .ok { Status := status, Data := data }) :
    (RequestResponse unmarshal env req w).1
      = if status = "ok" then .ok data else .error status := by
  unfold RequestResponse
  by_cases hs : status = "ok" <;> simp [hdo, hdec, hs]

theorem ReqResponse_built {T : Type} (unmarshal : List UInt8 → Except String (Response T))
    (env : Env) (method path : String) (query params : Option (List (String × String)))
    (w : World) (h : env.urlError method (ApiUri ++ "/" ++ path) = none) :
    ReqResponse unmarshal env method path query params w
      = RequestResponse unmarshal env (builtRequest env method path query params) w := by
  unfold ReqResponse NewRequest builtRequest Request.Query
  cases query <;> cases params <;> simp [h]

theorem ReqResponse_refused {T : Type} (unmarshal : List UInt8 → Except String (Response T))
    (env : Env) (method path : String) (query params : Option (List (String × String)))
    (w : World) (e : String) (h : env.urlError method (ApiUri ++ "/" ++ path) = some e) :
    ReqResponse unmarshal env method path query params w = (.error e, w) := by
  unfold ReqResponse NewRequest
  simp [h]

/-- Decoding of the envelope whose only member is `status`. -/
theorem Unmarshal_status_only {T : Type} (env : Env) (decode : T → Json → Except String T)
    (zero : T) (buff : List UInt8) (s : String)
    (h : env.parseJSON buff = .ok (.object [("status", .string s)])) :
    Unmarshal env decode zero buff = .ok { Status := s, Data := zero } := by
  unfold Unmarshal
  rw [h]
  rfl

/-- A call of `ReqResponse` answered by an envelope with a status other than
`ok` fails with that status, or with the error of `http.NewRequest`. -/
theorem ReqResponse_status {T : Type} (unmarshal : List UInt8 → Except String (Response T))
    (env : Env) (method path : String) (query params : Option (List (String × String)))
    (w : World) (code : Nat) (buff : List UInt8) (s : String) (d : T)
    (hurl : env.urlError method (ApiUri ++ "/" ++ path) = none)
    (hdo : ∀ r, env.Do r = .ok { StatusCode := code, Body := .ok buff })
    (hdec : unmarshal buff = .ok { Status := s, Data := d }) (hs : s ≠ "ok") :
    (ReqResponse unmarshal env method path query params w).1 = .error s := by
  rw [ReqResponse_built unmarshal env method path query params w hurl,
    RequestResponse_result unmarshal env _ w code buff s d (hdo _) hdec]
  simp [hs]

theorem init_sent (env : Env) (t : tmp) (w : World) : (t.init env w).2.2.sent = w.sent := by
  unfold tmp.init
  split
  · rfl
  · split
    · split <;> rfl
    · rfl

theorem close_sent (env : Env) (t : tmp) (w : World) : (t.close env w).2.sent = w.sent := by
  unfold tmp.close
  split
  · rfl
  · split
    · split
      · split
        · rfl
        · split <;> rfl
      · rfl
    · rfl

theorem apiPath_getServer : ApiUri ++ "/" ++ "getServer" = "https://api.gofile.io/getServer" := by
  decide

theorem apiPath_getAccountDetails :
    ApiUri ++ "/" ++ "getAccountDetails" = "https://api.gofile.io/getAccountDetails" := by
  decide

theorem apiPath_createFolder :
    ApiUri ++ "/" ++ "createFolder" = "https://api.gofile.io/createFolder" := by
  decide

theorem apiPath_copyContent :
    ApiUri ++ "/" ++ "copyContent" = "https://api.gofile.io/copyContent" := by
  decide

theorem apiPath_deleteContent :
    ApiUri ++ "/" ++ "deleteContent" = "https://api.gofile.io/deleteContent" := by
  decide

theorem apiPath_setFolderOption :
    ApiUri ++ "/" ++ "setFolderOption" = "https://api.gofile.io/setFolderOption" := by
  decide

/-- The upload either fails with the status of the envelope, or fails before
any request is sent. -/
theorem UploadFile_status {U : Type} (decode : U → Json → Except String U) (zero : U)
    (env : Env) (c : Client) (server folderId fileName : String) (fileReader : Reader)
    (tempBuffer : TempBuffer) (onSend : Bool) (w : World) (code : Nat) (buff : List UInt8)
    (s : String)
    (hurl : ∀ m u, env.urlError m u = none)
    (hdo : ∀ r, env.Do r = .ok { StatusCode := code, Body := .ok buff })
    (hjson : env.parseJSON buff = .ok (.object [("status", .string s)])) (hs : s ≠ "ok") :
    (Client.UploadFile decode zero env c server folderId fileName fileReader tempBuffer onSend w).1
        = .error s
    ∨ ((Client.UploadFile decode zero env c server folderId fileName fileReader tempBuffer onSend w).2.sent
          = w.sent
       ∧ ∃ e, (Client.UploadFile decode zero env c server folderId fileName fileReader tempBuffer
                onSend w).1 = .error e) := by
  unfold Client.UploadFile
  simp only []
  split
  · next t1 err w1 hinit =>
    right
    have := init_sent env (tmp.new tempBuffer onSend) w
    rw [hinit] at this
    exact ⟨this, err, rfl⟩
  · next t1 w1 hinit =>
    have hw1 := init_sent env (tmp.new tempBuffer onSend) w
    rw [hinit] at hw1
    simp only [] at hw1
    split
    · next t2 err _ =>
      right
      exact ⟨by rw [close_sent]; exact hw1, err, rfl⟩
    · next t2 _ =>
      split
      · next t3 err _ =>
        right
        exact ⟨by rw [close_sent]; exact hw1, err, rfl⟩
      · next t3 _ =>
        unfold NewRequest
        simp only [hurl]
        left
        rw [RequestResponse_result _ env _ w1 code buff s zero (hdo _)
          (Unmarshal_status_only env decode zero buff s hjson)]
        simp [hs]

theorem fst_eq_of_match {T : Type} (x : Except String T × World) (e : String)
    (h : x.1 = .error e) : errorOf x.1 = some e := by
  rw [h]
  rfl

/-! ## C1: the status of the envelope decides the result -/

/-- C1: when the transport answers a request (with any HTTP status code) and
the body decodes to an envelope with status `status` and payload `data`,
`RequestResponse` returns `data` without error if `status` is `ok`, and
otherwise no payload and the error `status`; and when every request is
answered by a body that is the envelope with the only member `status`, of a
value `s` other than `ok`, each endpoint method fails with the error `s`
(`UploadFile` with `s`, or earlier with a staging error and no request
sent). -/
theorem status_decides_result :
    (∀ (T : Type) (unmarshal : List UInt8 → Except String (Response T)) (env : Env)
        (req : Request) (w : World) (code : Nat) (buff : List UInt8) (status : String) (data : T),
        env.Do req = .ok { StatusCode := code, Body := .ok buff } →
        unmarshal buff = .ok { Status := status, Data := data } →
        (RequestResponse unmarshal env req w).1
          = if status = "ok" then .ok data else .error status)
    ∧ (∀ (A F C U : Type) (decA : A → Json → Except String A) (zeroA : A)
        (decF : F → Json → Except String F) (zeroF : F)
        (decC : C → Json → Except String C) (zeroC : C)
        (decU : U → Json → Except String U) (zeroU : U)
        (env : Env) (c : Client) (w : World) (code : Nat) (buff : List UInt8) (s : String)
        (a b d : String) (ids : List String) (fileReader : Reader) (tempBuffer : TempBuffer)
        (onSend : Bool),
        (∀ m u, env.urlError m u = none) →
        (∀ r, env.Do r = .ok { StatusCode := code, Body := .ok buff }) →
        env.parseJSON buff = .ok (.object [("status", .string s)]) →
        s ≠ "ok" →
        (Client.GetServer env c w).1 = .error s
        ∧ (Client.GetAccountDetails decA zeroA env c w).1 = .error s
        ∧ (Client.CreateFolder decF zeroF env c a b w).1 = .error s
        ∧ (Client.CopyContent env c a ids w).1 = some s
        ∧ (Client.DeleteContent env c ids w).1 = some s
        ∧ (Client.SetFolderOption env c a b d w).1 = some s
        ∧ (Client.GetContent decC zeroC env c a w).1 = .error s
        ∧ ((Client.UploadFile decU zeroU env c a b d fileReader tempBuffer onSend w).1 = .error s
           ∨ ((Client.UploadFile decU zeroU env c a b d fileReader tempBuffer onSend w).2.sent
                = w.sent
              ∧ ∃ e, (Client.UploadFile decU zeroU env c a b d fileReader tempBuffer onSend w).1
                      = .error e))) := by
  refine ⟨?_, ?_⟩
  · intro T unmarshal env req w code buff status data hdo hdec
    exact RequestResponse_result unmarshal env req w code buff status data hdo hdec
  · intro A F C U decA zeroA decF zeroF decC zeroC decU zeroU env c w code buff s a b d ids
      fileReader tempBuffer onSend hurl hdo hjson hs
    have key : ∀ (T : Type) (dec : T → Json → Except String T) (zero : T) (method path : String)
        (query params : Option (List (String × String))),
        (ReqResponse (Unmarshal env dec zero) env method path query params w).1 = .error s :=
      fun T dec zero method path query params =>
        ReqResponse_status _ env method path query params w code buff s zero (hurl _ _) hdo
          (Unmarshal_status_only env dec zero buff s hjson) hs
    refine ⟨?_, key _ _ _ _ _ _ _, key _ _ _ _ _ _ _, ?_, ?_, ?_, key _ _ _ _ _ _ _, ?_⟩
    · have h := key ServerResult decodeServerResult { Server := "" } "GET" "getServer" none none
      unfold Client.GetServer
      split
      · next err w1 heq =>
        rw [heq] at h
        simp only [Except.error.injEq] at h
        simp [h]
      · next sr w1 heq =>
        rw [heq] at h
        cases h
    · exact fst_eq_of_match _ s (key _ _ _ _ _ _ _)
    · exact fst_eq_of_match _ s (key _ _ _ _ _ _ _)
    · exact fst_eq_of_match _ s (key _ _ _ _ _ _ _)
    · exact UploadFile_status decU zeroU env c a b d fileReader tempBuffer onSend w code buff s
        hurl hdo hjson hs

/-- C1, at a concrete input: a 200 response whose body is the envelope with
status `error-auth`. -/
theorem status_decides_result_witness :
    (RequestResponse (Unmarshal (mockEnv 200 (bytesOf "\x7b\"status\":\"error-auth\"\x7d")
          (.object [("status", .string "error-auth")])) decodeServerResult { Server := "" })
        (mockEnv 200 (bytesOf "\x7b\"status\":\"error-auth\"\x7d")
          (.object [("status", .string "error-auth")]))
        (builtRequest (mockEnv 200 (bytesOf "\x7b\"status\":\"error-auth\"\x7d")
          (.object [("status", .string "error-auth")])) "GET" "getServer" none none)
        emptyWorld).1 = .error "error-auth"
    ∧ (Client.DeleteContent (mockEnv 200 (bytesOf "\x7b\"status\":\"error-auth\"\x7d")
          (.object [("status", .string "error-auth")])) { Token := "t" } ["a"] emptyWorld).1
        = some "error-auth" := by
  constructor
  · have h := status_decides_result.1 ServerResult
      (Unmarshal (mockEnv 200 (bytesOf "\x7b\"status\":\"error-auth\"\x7d")
          (.object [("status", .string "error-auth")])) decodeServerResult { Server := "" })
      (mockEnv 200 (bytesOf "\x7b\"status\":\"error-auth\"\x7d")
          (.object [("status", .string "error-auth")]))
      (builtRequest (mockEnv 200 (bytesOf "\x7b\"status\":\"error-auth\"\x7d")
          (.object [("status", .string "error-auth")])) "GET" "getServer" none none)
      emptyWorld 200 (bytesOf "\x7b\"status\":\"error-auth\"\x7d") "error-auth" { Server := "" }
      rfl (Unmarshal_status_only _ _ _ _ _ (by simp [mockEnv]))
    rw [h]
    simp
  · exact (status_decides_result.2 Unit Unit Unit Unit (fun _ _ => .ok ()) () (fun _ _ => .ok ()) ()
      (fun _ _ => .ok ()) () (fun _ _ => .ok ()) ()
      (mockEnv 200 (bytesOf "\x7b\"status\":\"error-auth\"\x7d")
          (.object [("status", .string "error-auth")])) { Token := "t" } emptyWorld 200
      (bytesOf "\x7b\"status\":\"error-auth\"\x7d") "error-auth" "" "" "" ["a"]
      { chunks := [], err := none } { TempBufferType := Ram, SpecifyTmpFolder := "" } false
      (fun _ _ => rfl) (fun _ => rfl) (by simp [mockEnv]) (by decide)).2.2.2.2.1

/-! ## C7: `GetServer` -/

/-- C7: when every request is answered by a body that is the JSON envelope
with status `ok` and data `{"server": s}`, `GetServer` returns `s` without
error. -/
theorem GetServer_returns_server (env : Env) (c : Client) (w : World) (code : Nat)
    (buff : List UInt8) (s : String)
    (hurl : env.urlError "GET" "https://api.gofile.io/getServer" = none)
    (hdo : ∀ r, env.Do r = .ok { StatusCode := code, Body := .ok buff })
    (hjson : env.parseJSON buff
      = .ok (.object [("status", .string "ok"), ("data", .object [("server", .string s)])])) :
    (Client.GetServer env c w).1 = .ok s := by
  have hdec : Unmarshal env decodeServerResult { Server := "" } buff
      = .ok { Status := "ok", Data := { Server := s } } := by
    unfold Unmarshal
    rw [hjson]
    rfl
  have h : (ReqResponse (Unmarshal env decodeServerResult { Server := "" }) env "GET" "getServer"
      none none w).1 = .ok { Server := s } := by
    rw [ReqResponse_built _ env "GET" "getServer" none none w (by rw [apiPath_getServer]; exact hurl),
      RequestResponse_result _ env _ w code buff "ok" { Server := s } (hdo _) hdec]
    simp
  unfold Client.GetServer
  split
  · next err w1 heq =>
    rw [heq] at h
    cases h
  · next sr w1 heq =>
    rw [heq] at h
    simp only [Except.ok.injEq] at h
    simp [h]

/-- C7, at the body of the specification: the server is `store3`. -/
theorem GetServer_returns_server_witness :
    (Client.GetServer
        (mockEnv 200 (bytesOf "\x7b\"status\":\"ok\",\"data\":\x7b\"server\":\"store3\"\x7d\x7d")
          (.object [("status", .string "ok"), ("data", .object [("server", .string "store3")])]))
        { Token := "t" } emptyWorld).1 = .ok "store3" :=
  GetServer_returns_server _ _ _ 200
    (bytesOf "\x7b\"status\":\"ok\",\"data\":\x7b\"server\":\"store3\"\x7d\x7d") "store3"
    rfl (fun _ => rfl) (by simp [mockEnv])

/-! ## C6: the `contentsId` parameter -/

theorem commaJoined_append (x y : String) (rest : List String) :
    commaJoined ((x ++ y) :: rest) = x ++ commaJoined (y :: rest) := by
  cases rest with
  | nil => rfl
  | cons z zs => simp [commaJoined, String.append_assoc]

theorem foldl_commaJoined (rest : List String) (a : String) :
    rest.foldl (fun b s => b ++ "," ++ s) a = commaJoined (a :: rest) := by
  induction rest generalizing a with
  | nil => rfl
  | cons b bs ih =>
    rw [List.foldl_cons, ih, String.append_assoc, commaJoined_append, commaJoined_append]
    simp [commaJoined, String.append_assoc]

/-- The model of `strings.Join` with a comma agrees with the specification's
wording. -/
theorem Join_comma (ids : List String) : Join ids "," = commaJoined ids := by
  match ids with
  | [] => rfl
  | [a] => rfl
  | a :: b :: rest => exact foldl_commaJoined (b :: rest) a

theorem Encode_two (k1 k2 v1 v2 : String)
    (h : sortByKey [(k1, [v1]), (k2, [v2])] = [(k1, [v1]), (k2, [v2])]) :
    Values.Encode [(k1, [v1]), (k2, [v2])]
      = QueryEscape k1 ++ "=" ++ QueryEscape v1 ++ "&" ++ QueryEscape k2 ++ "=" ++ QueryEscape v2 := by
  simp only [Values.Encode, h, List.flatMap_cons, List.flatMap_nil, List.map, List.append_nil,
    List.singleton_append, String.intercalate, String.intercalate.go, String.append_assoc]

theorem Encode_three (k1 k2 k3 v1 v2 v3 : String)
    (h : sortByKey [(k1, [v1]), (k2, [v2]), (k3, [v3])] = [(k1, [v1]), (k2, [v2]), (k3, [v3])]) :
    Values.Encode [(k1, [v1]), (k2, [v2]), (k3, [v3])]
      = QueryEscape k1 ++ "=" ++ QueryEscape v1 ++ "&" ++ QueryEscape k2 ++ "=" ++ QueryEscape v2
          ++ "&" ++ QueryEscape k3 ++ "=" ++ QueryEscape v3 := by
  simp only [Values.Encode, h, List.flatMap_cons, List.flatMap_nil, List.map, List.append_nil,
    List.singleton_append, String.intercalate, String.intercalate.go, String.append_assoc]

theorem upperhex_spec (n : Nat) (h : n < 16) : ishex (upperhex n) = true ∧ unhex (upperhex n) = n := by
  interval_cases n <;> decide

theorem byte_split (b : UInt8) : UInt8.ofNat (b.toNat / 16 * 16 + b.toNat % 16) = b := by
  rw [Nat.div_add_mod']
  cases b with
  | mk v =>
    apply UInt8.ext
    simp [UInt8.ofNat, UInt8.toNat]

theorem unescape_bytes (bs : List UInt8) (rest : List Char) :
    QueryUnescape (bs.flatMap escapeByte ++ rest) = (QueryUnescape rest).map (bs ++ ·) := by
  induction bs with
  | nil => simp
  | cons b bs ih =>
    have h1 : b.toNat / 16 < 16 := by
      have := b.toNat_lt
      omega
    have h2 : b.toNat % 16 < 16 := Nat.mod_lt _ (by decide)
    simp only [List.flatMap_cons, escapeByte, List.cons_append, List.nil_append, List.append_assoc]
    rw [QueryUnescape.eq_def]
    simp only [if_true, (upperhex_spec _ h1).1, (upperhex_spec _ h2).1, Bool.and_self,
      (upperhex_spec _ h1).2, (upperhex_spec _ h2).2, byte_split, ih]
    cases QueryUnescape rest <;> simp

theorem unescape_escapeChar (c : Char) (rest : List Char) :
    QueryUnescape (escapeChar c ++ rest)
      = (QueryUnescape rest).map (String.utf8EncodeChar c ++ ·) := by
  unfold escapeChar
  by_cases h : shouldEscape c = true
  · by_cases hs : c = ' '
    · subst hs
      have e : (if (!shouldEscape ' ') = true then [' '] else if (' ' == ' ') = true then ['+']
          else (String.utf8EncodeChar ' ').flatMap escapeByte) = ['+'] := by decide
      have e2 : String.utf8EncodeChar ' ' = [32] := by decide
      rw [e, List.singleton_append, QueryUnescape.eq_def, e2]
      simp
    · have e : (if (!shouldEscape c) = true then [c] else if (c == ' ') = true then ['+']
          else (String.utf8EncodeChar c).flatMap escapeByte)
            = (String.utf8EncodeChar c).flatMap escapeByte := by
        simp [h, hs]
      rw [e, unescape_bytes]
  · have hp : c ≠ '%' := by
      rintro rfl
      exact h (by decide)
    have hq : c ≠ '+' := by
      rintro rfl
      exact h (by decide)
    have e : (if (!shouldEscape c) = true then [c] else if (c == ' ') = true then ['+']
        else (String.utf8EncodeChar c).flatMap escapeByte) = [c] := by
      simp [h]
    rw [e, List.singleton_append, QueryUnescape.eq_def]
    simp [hp, hq]

theorem unescape_escape_chars (cs : List Char) :
    QueryUnescape (cs.flatMap escapeChar) = some (cs.flatMap String.utf8EncodeChar) := by
  induction cs with
  | nil => rfl
  | cons c cs ih =>
    rw [List.flatMap_cons, unescape_escapeChar, ih]
    rfl

theorem QueryUnescape_QueryEscape (s : String) :
    QueryUnescape (QueryEscape s).toList = some (bytesOf s) := by
  unfold QueryEscape bytesOf
  exact unescape_escape_chars s.toList

theorem upperhex_plain (n : Nat) (h : n < 16) : upperhex n ≠ '&' ∧ upperhex n ≠ '=' := by
  interval_cases n <;> decide

theorem escapeChar_plain (c x : Char) (hx : x ∈ escapeChar c) : x ≠ '&' ∧ x ≠ '=' := by
  unfold escapeChar at hx
  by_cases h : shouldEscape c = true
  · by_cases hs : c = ' '
    · subst hs
      have e : (if (!shouldEscape ' ') = true then [' '] else if (' ' == ' ') = true then ['+']
          else (String.utf8EncodeChar ' ').flatMap escapeByte) = ['+'] := by decide
      rw [e, List.mem_singleton] at hx
      subst hx
      decide
    · have e : (if (!shouldEscape c) = true then [c] else if (c == ' ') = true then ['+']
          else (String.utf8EncodeChar c).flatMap escapeByte)
            = (String.utf8EncodeChar c).flatMap escapeByte := by
        simp [h, hs]
      rw [e, List.mem_flatMap] at hx
      obtain ⟨b, _, hb⟩ := hx
      have h1 : b.toNat / 16 < 16 := by
        have := b.toNat_lt
        omega
      have h2 : b.toNat % 16 < 16 := Nat.mod_lt _ (by decide)
      simp only [escapeByte, List.mem_cons, List.mem_singleton, List.not_mem_nil, or_false] at hb
      rcases hb with rfl | rfl | rfl
      · decide
      · exact upperhex_plain _ h1
      · exact upperhex_plain _ h2
  · have e : (if (!shouldEscape c) = true then [c] else if (c == ' ') = true then ['+']
        else (String.utf8EncodeChar c).flatMap escapeByte) = [c] := by
      simp [h]
    rw [e, List.mem_singleton] at hx
    subst hx
    constructor
    · rintro rfl
      exact h (by decide)
    · rintro rfl
      exact h (by decide)

theorem QueryEscape_plain (s : String) :
    '&' ∉ (QueryEscape s).toList ∧ '=' ∉ (QueryEscape s).toList := by
  unfold QueryEscape
  simp only [String.toList, List.mem_flatMap, not_exists, not_and]
  exact ⟨fun c _ hx => (escapeChar_plain c _ hx).1 rfl, fun c _ hx => (escapeChar_plain c _ hx).2 rfl⟩
/-- C6: the form body of `CopyContent` and of `DeleteContent` is the URL
encoding of a parameter map whose `contentsId` is the ids in their order
joined by single commas (nothing for no id, the id itself for one), next to
`folderIdDest` and `token`; written out, the body is `contentsId=`, the escaped
joined ids, and the other parameters; the escaped value contains no `&` and
no `=`, and unescaping it gives back exactly the bytes of the joined ids. -/
theorem contentsId_comma_joined (env : Env) (c : Client) (folderIdDest : String)
    (contentsId : List String) (w : World)
    (hput : env.urlError "PUT" "https://api.gofile.io/copyContent" = none)
    (hdel : env.urlError "DELETE" "https://api.gofile.io/deleteContent" = none) :
    (Client.CopyContent env c folderIdDest contentsId w).2.sent
        = w.sent ++ [{ method := "PUT", url := "https://api.gofile.io/copyContent", rawQuery := "",
                       header := [("Content-Type", "application/x-www-form-urlencoded")],
                       body := Body.bytes (bytesOf (Values.Encode
                         [("contentsId", [commaJoined contentsId]),
                          ("folderIdDest", [folderIdDest]), ("token", [c.Token])])) }]
    ∧ (Client.DeleteContent env c contentsId w).2.sent
        = w.sent ++ [{ method := "DELETE", url := "https://api.gofile.io/deleteContent",
                       rawQuery := "",
                       header := [("Content-Type", "application/x-www-form-urlencoded")],
                       body := Body.bytes (bytesOf (Values.Encode
                         [("contentsId", [commaJoined contentsId]), ("token", [c.Token])])) }]
    ∧ Values.Encode [("contentsId", [commaJoined contentsId]),
                     ("folderIdDest", [folderIdDest]), ("token", [c.Token])]
        = "contentsId" ++ "=" ++ QueryEscape (commaJoined contentsId) ++ "&" ++ "folderIdDest" ++ "="
            ++ QueryEscape folderIdDest ++ "&" ++ "token" ++ "=" ++ QueryEscape c.Token
    ∧ Values.Encode [("contentsId", [commaJoined contentsId]), ("token", [c.Token])]
        = "contentsId" ++ "=" ++ QueryEscape (commaJoined contentsId) ++ "&" ++ "token" ++ "="
            ++ QueryEscape c.Token
    ∧ QueryUnescape (QueryEscape (commaJoined contentsId)).toList
        = some (bytesOf (commaJoined contentsId))
    ∧ '&' ∉ (QueryEscape (commaJoined contentsId)).toList
    ∧ '=' ∉ (QueryEscape (commaJoined contentsId)).toList
    ∧ commaJoined [] = ""
    ∧ (∀ a, commaJoined [a] = a)
    ∧ commaJoined ["a", "b", "c"] = "a,b,c" := by
  refine ⟨?_, ?_, ?_, ?_, QueryUnescape_QueryEscape _, (QueryEscape_plain _).1,
    (QueryEscape_plain _).2, rfl, fun _ => rfl, by decide⟩
  · unfold Client.CopyContent
    simp only []
    rw [ReqResponse_built _ env "PUT" "copyContent" none _ w (by rw [apiPath_copyContent]; exact hput),
      RequestResponse_world, Join_comma]
    rfl
  · unfold Client.DeleteContent
    simp only []
    rw [ReqResponse_built _ env "DELETE" "deleteContent" none _ w
        (by rw [apiPath_deleteContent]; exact hdel),
      RequestResponse_world, Join_comma]
    rfl
  · exact Encode_three _ _ _ _ _ _ rfl
  · exact Encode_two _ _ _ _ rfl

/-- C6, at the ids `a`, `b`, `c`. -/
theorem contentsId_comma_joined_witness :
    (Client.CopyContent (mockEnv 200 [] .null) { Token := "t" } "dest" ["a", "b", "c"]
        emptyWorld).2.sent
      = [{ method := "PUT", url := "https://api.gofile.io/copyContent", rawQuery := "",
           header := [("Content-Type", "application/x-www-form-urlencoded")],
           body := Body.bytes (bytesOf (Values.Encode
             [("contentsId", [commaJoined ["a", "b", "c"]]),
              ("folderIdDest", ["dest"]), ("token", ["t"])])) }] :=
  (contentsId_comma_joined (mockEnv 200 [] .null) { Token := "t" } "dest" ["a", "b", "c"]
    emptyWorld rfl rfl).1

/-! ## C10: the request of `GetContent` -/

/-- C10, as amended: `GetContent` sends one GET request to
`https://api.gofile.io/deleteContent`, the URL `DeleteContent` uses, whose
query is the encoding of exactly `contentId` and `token`, with no body and no
header; `DeleteContent` sends a DELETE request with no query, the form
content type and a form body encoding `contentsId` and `token`.  The two
differ in the method, in where the parameters go, and in the name of the id
parameter. -/
theorem GetContent_request {C : Type} (decode : C → Json → Except String C) (zero : C)
    (env : Env) (c : Client) (contentId : String) (contentsId : List String) (w : World)
    (hget : env.urlError "GET" "https://api.gofile.io/deleteContent" = none)
    (hdel : env.urlError "DELETE" "https://api.gofile.io/deleteContent" = none) :
    (Client.GetContent decode zero env c contentId w).2.sent
        = w.sent ++ [{ method := "GET", url := "https://api.gofile.io/deleteContent",
                       rawQuery := Values.Encode [("contentId", [contentId]), ("token", [c.Token])],
                       header := [], body := Body.none }]
    ∧ Values.Encode [("contentId", [contentId]), ("token", [c.Token])]
        = "contentId" ++ "=" ++ QueryEscape contentId ++ "&" ++ "token" ++ "=" ++ QueryEscape c.Token
    ∧ (Client.DeleteContent env c contentsId w).2.sent
        = w.sent ++ [{ method := "DELETE", url := "https://api.gofile.io/deleteContent",
                       rawQuery := "",
                       header := [("Content-Type", "application/x-www-form-urlencoded")],
                       body := Body.bytes (bytesOf (Values.Encode
                         [("contentsId", [Join contentsId ","]), ("token", [c.Token])])) }]
    ∧ "contentId" ≠ "contentsId" := by
  refine ⟨?_, Encode_two _ _ _ _ rfl, ?_, by decide⟩
  · unfold Client.GetContent
    rw [ReqResponse_built _ env "GET" "deleteContent" _ none w
        (by rw [apiPath_deleteContent]; exact hget),
      RequestResponse_world]
    rfl
  · unfold Client.DeleteContent
    simp only []
    rw [ReqResponse_built _ env "DELETE" "deleteContent" none _ w
        (by rw [apiPath_deleteContent]; exact hdel),
      RequestResponse_world]
    rfl

/-- C10 as amended, at the content id `a` and the token `t`. -/
theorem GetContent_request_witness :
    (Client.GetContent (fun (_ : Unit) _ => .ok ()) () (mockEnv 200 [] .null) { Token := "t" } "a"
        emptyWorld).2.sent
      = [{ method := "GET", url := "https://api.gofile.io/deleteContent",
           rawQuery := Values.Encode [("contentId", ["a"]), ("token", ["t"])],
           header := [], body := Body.none }] :=
  (GetContent_request (fun (_ : Unit) _ => .ok ()) () (mockEnv 200 [] .null) { Token := "t" } "a"
    ["a"] emptyWorld rfl rfl).1

/-- C10 as stated fails: for the id `a` and the token `t`, `GetContent` puts
`contentId=a&token=t` in the query and `DeleteContent` of the same id puts
`contentsId=a&token=t` in the body, so the two requests differ in the
parameter name as well, not only in the method and the place of the
parameters. -/
theorem GetContent_parameter_differs :
    (Client.GetContent (fun (_ : Unit) _ => .ok ()) () (mockEnv 200 [] .null) { Token := "t" } "a"
        emptyWorld).2.sent.map (fun r => (r.method, r.url, bytesOf r.rawQuery))
      = [("GET", "https://api.gofile.io/deleteContent", bytesOf "contentId=a&token=t")]
    ∧ (Client.DeleteContent (mockEnv 200 [] .null) { Token := "t" } ["a"] emptyWorld).2.sent.map
        (fun r => (r.method, r.url, formBody r))
      = [("DELETE", "https://api.gofile.io/deleteContent", bytesOf "contentsId=a&token=t")]
    ∧ bytesOf "contentId=a&token=t" ≠ bytesOf "contentsId=a&token=t" := by
  refine ⟨by decide, by decide, by decide⟩

/-! ## Lemmas on the stores and the multipart writer -/

theorem bytesOf_append (a b : String) : bytesOf (a ++ b) = bytesOf a ++ bytesOf b := by
  simp [bytesOf, String.toList]

/-- The escaper of `mime/multipart` writes a name as the specification side
describes it. -/
theorem escapeQuotes_eq (s : String) : escapeQuotes s = quotedName s := by
  unfold escapeQuotes Replace quotedName
  congr 1
  apply List.flatMap_congr
  intro c _
  by_cases h1 : c = '\\'
  · subst h1
    rfl
  · by_cases h2 : c = '"'
    · subst h2
      rfl
    · by_cases h3 : c = '\r'
      · subst h3
        rfl
      · by_cases h4 : c = '\n'
        · subst h4
          rfl
        · have e1 : ('\\' == c) = false := by simpa using fun h => h1 h.symm
          have e2 : ('"' == c) = false := by simpa using fun h => h2 h.symm
          have e3 : ('\r' == c) = false := by simpa using fun h => h3 h.symm
          have e4 : ('\n' == c) = false := by simpa using fun h => h4 h.symm
          simp only [quoteEscaper, List.lookup, h1, h2, h3, h4, if_false]
          have l1 : (c == '\\') = false := by simpa using h1
          have l2 : (c == '"') = false := by simpa using h2
          have l3 : (c == '\r') = false := by simpa using h3
          have l4 : (c == '\n') = false := by simpa using h4
          simp [l1, l2, l3, l4, e1, e2, e3, e4]

/-- A name without backslash, quote, carriage return and line feed is written
as it is. -/
theorem quotedName_plain (s : String)
    (h : ∀ c ∈ s.toList, c ≠ '\\' ∧ c ≠ '"' ∧ c ≠ '\r' ∧ c ≠ '\n') : quotedName s = s := by
  unfold quotedName
  have : (s.toList.flatMap fun c =>
      if c = '\\' then ['\\', '\\']
      else if c = '"' then ['\\', '"']
      else if c = '\r' then ['%', '0', 'D']
      else if c = '\n' then ['%', '0', 'A']
      else [c]) = s.toList := by
    have hh : ∀ l : List Char, (∀ c ∈ l, c ≠ '\\' ∧ c ≠ '"' ∧ c ≠ '\r' ∧ c ≠ '\n') →
        (l.flatMap fun c =>
          if c = '\\' then ['\\', '\\']
          else if c = '"' then ['\\', '"']
          else if c = '\r' then ['%', '0', 'D']
          else if c = '\n' then ['%', '0', 'A']
          else [c]) = l := by
      intro l
      induction l with
      | nil => intro _; rfl
      | cons a as ih =>
        intro hl
        obtain ⟨a1, a2, a3, a4⟩ := hl a (List.mem_cons_self _ _)
        rw [List.flatMap_cons, ih (fun c hc => hl c (List.mem_cons_of_mem _ hc))]
        simp [a1, a2, a3, a4]
    exact hh _ h
  rw [this]
  rfl

theorem write_w (env : Env) (t : tmp) (s : Store) (d : List UInt8) :
    (t.storeWrite env s d).1.w = t.w := by
  unfold tmp.storeWrite
  cases s with
  | ram => cases t.ramBuffer <;> rfl
  | file =>
    cases t.file with
    | none => rfl
    | some f =>
      simp only []
      cases env.writeFault f.writes with
      | none => rfl
      | some ke => rfl

theorem write_frame (env : Env) (t : tmp) (s : Store) (d : List UInt8) :
    (t.storeWrite env s d).1.frame = t.frame := by
  unfold tmp.storeWrite
  cases s with
  | ram => cases t.ramBuffer <;> rfl
  | file =>
    cases h : t.file with
    | none => simp [tmp.frame, h]
    | some f =>
      simp only []
      cases env.writeFault f.writes with
      | none => simp [tmp.frame, h, File.put]
      | some ke => simp [tmp.frame, h, File.put]

theorem take_take_length (d : List UInt8) (k : Nat) : d.take (d.take k).length = d.take k := by
  rw [List.length_take]
  rcases Nat.le_total k d.length with h | h
  · rw [Nat.min_eq_left h]
  · rw [Nat.min_eq_right h, List.take_of_length_le h, List.take_of_length_le (Nat.le_refl _)]

/-- A write appends the bytes it accepts, and accepts all of them when it
reports no error. -/
theorem write_ready (env : Env) (t : tmp) (s : Store) (d : List UInt8) (h : t.Ready s) :
    (t.storeWrite env s d).1.Ready s
    ∧ (t.storeWrite env s d).1.storeBytes s = t.storeBytes s ++ d.take (t.storeWrite env s d).2.1
    ∧ ((t.storeWrite env s d).2.2 = none → (t.storeWrite env s d).2.1 = d.length) := by
  cases s with
  | ram =>
    obtain ⟨b, hb, hoff⟩ := h
    simp [tmp.storeWrite, hb, tmp.Ready, tmp.storeBytes, hoff]
  | file =>
    obtain ⟨f, hf, hpos⟩ := h
    cases hw : env.writeFault f.writes with
    | none =>
      simp [tmp.storeWrite, hf, hw, tmp.Ready, tmp.storeBytes, File.put, hpos]
    | some ke =>
      obtain ⟨k, e⟩ := ke
      simp only [tmp.storeWrite, hf, hw, tmp.Ready, tmp.storeBytes, File.put, hpos]
      refine ⟨⟨_, rfl, ?_⟩, ?_, ?_⟩
      · simp
      · have h1 : List.drop (f.data.length + (List.take k d).length) f.data = [] :=
          List.drop_eq_nil_of_le (Nat.le_add_right _ _)
        simp only [Option.map_some', Option.getD_some, List.take_length, List.drop_length,
          List.append_nil, h1, take_take_length, List.append_assoc]
      · simp

theorem ready_of_stores (t t1 : tmp) (s : Store) (hr : t1.ramBuffer = t.ramBuffer)
    (hf : t1.file = t.file) (h : t.Ready s) : t1.Ready s := by
  cases s with
  | ram => simpa [tmp.Ready, hr] using h
  | file => simpa [tmp.Ready, hf] using h

theorem write_ready_any (env : Env) (t : tmp) (s : Store) (d : List UInt8) (s1 : Store)
    (h : t.Ready s1) : (t.storeWrite env s d).1.Ready s1 := by
  cases s with
  | ram =>
    cases s1 with
    | ram => exact (write_ready env t .ram d h).1
    | file =>
      have hf : (t.storeWrite env .ram d).1.file = t.file := by
        unfold tmp.storeWrite
        cases hb : t.ramBuffer <;> simp
      obtain ⟨f, hf1, hpos⟩ := h
      exact ⟨f, by rw [hf]; exact hf1, hpos⟩
  | file =>
    cases s1 with
    | file => exact (write_ready env t .file d h).1
    | ram =>
      have hr : (t.storeWrite env .file d).1.ramBuffer = t.ramBuffer := by
        unfold tmp.storeWrite
        cases hf : t.file with
        | none => simp
        | some f =>
          simp only []
          cases env.writeFault f.writes <;> simp
      obtain ⟨b, hb, hoff⟩ := h
      exact ⟨b, by rw [hr]; exact hb, hoff⟩

theorem CreatePart_frame (env : Env) (t : tmp) (header : List (String × String)) :
    (t.CreatePart env header).1.frame = t.frame := by
  unfold tmp.CreatePart
  cases hw : t.w with
  | none => simp [hw]
  | some mw =>
    simp only []
    cases mw.lastpart.bind (·.we) with
    | some err => simp [tmp.frame, hw]
    | none =>
      simp only []
      have hfr := write_frame env { t with w := some { mw with lastpart := mw.lastpart.map fun p => { p with closed := true } } } mw.w
        (partHeader mw.boundary mw.lastpart.isNone header)
      generalize tmp.storeWrite env _ mw.w (partHeader mw.boundary mw.lastpart.isNone header) = r at hfr
      obtain ⟨t1, n, e⟩ := r
      cases e with
      | some err => simpa [tmp.frame, hw] using hfr
      | none =>
        simp only [tmp.frame, hw, Option.map_some', Prod.mk.injEq] at hfr ⊢
        exact ⟨hfr.1, hfr.2.1, hfr.2.2.1, hfr.2.2.2.1, hfr.2.2.2.2.1, trivial, hfr.2.2.2.2.2.2⟩

theorem CreatePart_ready_any (env : Env) (t : tmp) (header : List (String × String)) (s : Store)
    (h : t.Ready s) : (t.CreatePart env header).1.Ready s := by
  unfold tmp.CreatePart
  cases hw : t.w with
  | none => simpa [hw] using h
  | some mw =>
    simp only []
    cases mw.lastpart.bind (·.we) with
    | some err => exact ready_of_stores t _ s rfl rfl h
    | none =>
      simp only []
      have hr := write_ready_any env { t with w := some { mw with lastpart := mw.lastpart.map fun p => { p with closed := true } } } mw.w
        (partHeader mw.boundary mw.lastpart.isNone header) s (ready_of_stores t _ s rfl rfl h)
      generalize tmp.storeWrite env _ mw.w (partHeader mw.boundary mw.lastpart.isNone header) = r at hr
      obtain ⟨t1, n, e⟩ := r
      cases e with
      | some err => exact hr
      | none => exact ready_of_stores t1 _ s rfl rfl hr

theorem partWrite_frame (env : Env) (t : tmp) (d : List UInt8) :
    (t.partWrite env d).1.frame = t.frame := by
  unfold tmp.partWrite
  cases hw : t.w with
  | none => simp [hw]
  | some mw =>
    simp only []
    cases mw.lastpart with
    | none => simp [hw]
    | some p =>
      simp only []
      split
      · simp [hw]
      · have hfr := write_frame env t mw.w d
        generalize tmp.storeWrite env t mw.w d = r at hfr
        obtain ⟨t1, n, e⟩ := r
        cases e with
        | none => exact hfr
        | some err =>
          simp only [tmp.frame, hw, Option.map_some', Prod.mk.injEq] at hfr ⊢
          exact ⟨hfr.1, hfr.2.1, hfr.2.2.1, hfr.2.2.2.1, hfr.2.2.2.2.1, trivial, hfr.2.2.2.2.2.2⟩

theorem partWrite_ready_any (env : Env) (t : tmp) (d : List UInt8) (s : Store)
    (h : t.Ready s) : (t.partWrite env d).1.Ready s := by
  unfold tmp.partWrite
  cases hw : t.w with
  | none => simpa [hw] using h
  | some mw =>
    simp only []
    cases mw.lastpart with
    | none => simpa [hw] using h
    | some p =>
      simp only []
      split
      · simpa [hw] using h
      · have hr := write_ready_any env t mw.w d s h
        generalize tmp.storeWrite env t mw.w d = r at hr
        obtain ⟨t1, n, e⟩ := r
        cases e with
        | none => exact hr
        | some err => exact ready_of_stores t1 _ s rfl rfl hr

theorem ioCopy_frame (env : Env) (chunks : List (List UInt8)) (final : Option String) (t : tmp) :
    (t.ioCopy env chunks final).1.frame = t.frame := by
  induction chunks generalizing t with
  | nil => rfl
  | cons c rest ih =>
    unfold tmp.ioCopy
    split
    · exact ih t
    · have hfr := partWrite_frame env t c
      generalize t.partWrite env c = r at hfr
      obtain ⟨t1, n, e⟩ := r
      cases e with
      | some err => exact hfr
      | none =>
        simp only []
        split
        · exact hfr
        · rw [ih t1]
          exact hfr

theorem ioCopy_ready_any (env : Env) (chunks : List (List UInt8)) (final : Option String)
    (t : tmp) (s : Store) (h : t.Ready s) : (t.ioCopy env chunks final).1.Ready s := by
  induction chunks generalizing t with
  | nil => exact h
  | cons c rest ih =>
    unfold tmp.ioCopy
    split
    · exact ih t h
    · have hr := partWrite_ready_any env t c s h
      generalize t.partWrite env c = r at hr
      obtain ⟨t1, n, e⟩ := r
      cases e with
      | some err => exact hr
      | none =>
        simp only []
        split
        · exact hr
        · exact ih t1 hr

theorem apply_frame (env : Env) (t : tmp) (op : WriterOp) : (t.apply env op).frame = t.frame := by
  cases op with
  | createFormFile a b => exact CreatePart_frame env t _
  | createFormField a => exact CreatePart_frame env t _
  | write d => exact partWrite_frame env t d
  | copy src => exact ioCopy_frame env src.chunks src.err t

theorem apply_ready (env : Env) (t : tmp) (op : WriterOp) (s : Store) (h : t.Ready s) :
    (t.apply env op).Ready s := by
  cases op with
  | createFormFile a b => exact CreatePart_ready_any env t _ s h
  | createFormField a => exact CreatePart_ready_any env t _ s h
  | write d => exact partWrite_ready_any env t d s h
  | copy src => exact ioCopy_ready_any env src.chunks src.err t s h

theorem run_frame (env : Env) (ops : List WriterOp) (t : tmp) : (t.run env ops).frame = t.frame := by
  induction ops generalizing t with
  | nil => rfl
  | cons op rest ih =>
    show ((t.apply env op).run env rest).frame = t.frame
    rw [ih, apply_frame]

theorem run_ready (env : Env) (ops : List WriterOp) (t : tmp) (s : Store) (h : t.Ready s) :
    (t.run env ops).Ready s := by
  induction ops generalizing t with
  | nil => exact h
  | cons op rest ih => exact ih (t.apply env op) (apply_ready env t op s h)

/-- The closing boundary line. -/
theorem writerClose_ok (env : Env) (t : tmp) (mw : Writer) (t1 : tmp)
    (hw : t.w = some mw) (hr : t.Ready mw.w) (h : t.writerClose env = (t1, none)) :
    t1.Ready mw.w ∧ t1.frame = t.frame
    ∧ t1.w = some { mw with lastpart := none }
    ∧ t1.storeBytes mw.w = t.storeBytes mw.w ++ bytesOf ("\r\n--" ++ mw.boundary ++ "--\r\n") := by
  unfold tmp.writerClose at h
  simp only [hw] at h
  cases hl : mw.lastpart.bind (·.we) with
  | some err => simp [hl] at h
  | none =>
    simp only [hl] at h
    have h1 := write_ready env { t with w := some { mw with lastpart := none } } mw.w
      (bytesOf ("\r\n--" ++ mw.boundary ++ "--\r\n")) (ready_of_stores t _ _ rfl rfl hr)
    have h2 := write_frame env { t with w := some { mw with lastpart := none } } mw.w
      (bytesOf ("\r\n--" ++ mw.boundary ++ "--\r\n"))
    have h3 := write_w env { t with w := some { mw with lastpart := none } } mw.w
      (bytesOf ("\r\n--" ++ mw.boundary ++ "--\r\n"))
    generalize tmp.storeWrite env _ mw.w (bytesOf ("\r\n--" ++ mw.boundary ++ "--\r\n")) = r at h h1 h2 h3
    obtain ⟨t2, n, e⟩ := r
    simp only [Prod.mk.injEq] at h
    obtain ⟨rfl, rfl⟩ := h
    refine ⟨h1.1, ?_, h3, ?_⟩
    · rw [h2]
      simp [tmp.frame, hw]
    · rw [h1.2.1, h1.2.2 rfl, List.take_length]
      rfl

theorem writerClose_sticky (env : Env) (t : tmp) (mw : Writer) (p : Part) (err : String)
    (hw : t.w = some mw) (hl : mw.lastpart = some p) (he : p.we = some err) :
    (t.writerClose env).2 = some err := by
  unfold tmp.writerClose
  simp [hw, hl, he]

theorem writerClose_frame (env : Env) (t : tmp) : (t.writerClose env).1.frame = t.frame := by
  unfold tmp.writerClose
  cases hw : t.w with
  | none => simp [hw]
  | some mw =>
    simp only []
    cases mw.lastpart.bind (·.we) with
    | some err => simp [tmp.frame, hw]
    | none =>
      simp only []
      rw [write_frame]
      simp [tmp.frame, hw]

theorem frame_tempBuffer (t t1 : tmp) (h : t1.frame = t.frame) : t1.tempBuffer = t.tempBuffer := by
  simp only [tmp.frame, Prod.mk.injEq] at h
  exact h.1

theorem frame_onSend (t t1 : tmp) (h : t1.frame = t.frame) : t1.onSend = t.onSend := by
  simp only [tmp.frame, Prod.mk.injEq] at h
  exact h.2.2.1

theorem frame_readOver (t t1 : tmp) (h : t1.frame = t.frame) : t1.readOver = t.readOver := by
  simp only [tmp.frame, Prod.mk.injEq] at h
  exact h.2.2.2.2.1

theorem frame_name (t t1 : tmp) (h : t1.frame = t.frame) :
    t1.file.map File.name = t.file.map File.name := by
  simp only [tmp.frame, Prod.mk.injEq] at h
  exact h.2.2.2.2.2.2

theorem frame_writer (t t1 : tmp) (h : t1.frame = t.frame) :
    t1.w.map (fun mw => (mw.w, mw.boundary)) = t.w.map (fun mw => (mw.w, mw.boundary)) := by
  simp only [tmp.frame, Prod.mk.injEq] at h
  exact h.2.2.2.2.2.1

theorem fileInTempDir_ne_ram : ¬ (FileInTempDir = Ram) := by decide

/-- What a successful `flip` leaves: the closing boundary appended, the reader
on the store from offset 0, and the total equal to the number of bytes. -/
theorem flip_ok (env : Env) (t : tmp) (mw : Writer) (t3 : tmp)
    (hw : t.w = some mw) (hm : t.Matches mw.w) (hr : t.Ready mw.w)
    (h : t.flip env = (t3, none)) :
    t3.storeBytes mw.w = t.storeBytes mw.w ++ bytesOf ("\r\n--" ++ mw.boundary ++ "--\r\n")
    ∧ t3.total = ((t3.storeBytes mw.w).length : Int)
    ∧ t3.pending = t3.storeBytes mw.w
    ∧ t3.Sealed
    ∧ t3.readOver = t.readOver ∧ t3.onSend = t.onSend ∧ t3.tempBuffer = t.tempBuffer
    ∧ t3.w = some { mw with lastpart := none }
    ∧ t3.file.map File.name = t.file.map File.name := by
  unfold tmp.flip at h
  cases hc : t.writerClose env with
  | mk t1 e =>
    rw [hc] at h
    cases e with
    | some err => simp at h
    | none =>
      obtain ⟨hr1, hf1, hw1, hs1⟩ := writerClose_ok env t mw t1 hw hr hc
      have htb := frame_tempBuffer t t1 hf1
      simp only [] at h
      rcases hm with ⟨hs, hty⟩ | ⟨hs, hty⟩
      · rw [hs] at hr1 hs1
        obtain ⟨b, hb, hoff⟩ := hr1
        have hty1 : t1.tempBuffer.TempBufferType = Ram := by
          rw [htb]
          exact hty
        rw [if_pos hty1, hb] at h
        simp only [Prod.mk.injEq, and_true] at h
        subst h
        refine ⟨?_, ?_, ?_, ?_, frame_readOver t t1 hf1, frame_onSend t t1 hf1, htb, hw1,
          frame_name t t1 hf1⟩
        · rw [hs, ← hs1]
          simp [tmp.storeBytes, hb]
        · rw [hs]
          simp [tmp.storeBytes, hb, Buffer.Len, hoff]
        · rw [hs]
          simp [tmp.pending, tmp.storeBytes, hb, hoff]
        · simp [tmp.Sealed, hb]
      · rw [hs] at hr1 hs1
        obtain ⟨f, hf, hpos⟩ := hr1
        have hne : ¬ (t1.tempBuffer.TempBufferType = Ram) := by
          rw [htb, hty]
          exact fileInTempDir_ne_ram
        have hty1 : t1.tempBuffer.TempBufferType = FileInTempDir := by
          rw [htb]
          exact hty
        rw [if_neg hne, if_pos hty1, hf] at h
        simp only [] at h
        cases hsync : env.syncErr with
        | some err => simp [hsync] at h
        | none =>
          cases hseek : env.seekErr with
          | some err => simp [hsync, hseek] at h
          | none =>
            cases hstat : env.statErr with
            | some err => simp [hsync, hseek, hstat] at h
            | none =>
              simp only [hsync, hseek, hstat, Prod.mk.injEq, and_true] at h
              subst h
              have hn := frame_name t t1 hf1
              rw [hf] at hn
              refine ⟨?_, ?_, ?_, ?_, frame_readOver t t1 hf1, frame_onSend t t1 hf1, htb, hw1, ?_⟩
              · rw [hs, ← hs1]
                simp [tmp.storeBytes, hf]
              · rw [hs]
                simp [tmp.storeBytes]
              · rw [hs]
                simp [tmp.pending, tmp.storeBytes]
              · simp [tmp.Sealed]
              · rw [← hn]
                rfl

/-- What a successful `init` leaves: a writer without a part on an empty
store, the store the strategy names. -/
theorem init_ok (env : Env) (tempBuffer : TempBuffer) (onSend : Bool) (w w1 : World) (t1 : tmp)
    (h : (tmp.new tempBuffer onSend).init env w = (t1, none, w1)) :
    ∃ s, t1.w = some { w := s, boundary := randomBoundary env, lastpart := none }
      ∧ t1.Matches s ∧ t1.Ready s ∧ t1.storeBytes s = []
      ∧ t1.readOver = 0 ∧ t1.onSend = onSend ∧ t1.tempBuffer = tempBuffer
      ∧ ((s = .ram ∧ tempBuffer.TempBufferType = Ram ∧ w1 = w)
         ∨ (s = .file ∧ tempBuffer.TempBufferType = FileInTempDir
            ∧ ∃ name, env.CreateTemp tempBuffer.SpecifyTmpFolder "GO_FILE_TMP_" = .ok name
              ∧ t1.file.map File.name = some name
              ∧ w1 = { w with files := w.files ++ [name] })) := by
  unfold tmp.init at h
  by_cases hram : tempBuffer.TempBufferType = Ram
  · simp only [tmp.new, hram, if_true, Prod.mk.injEq, true_and] at h
    obtain ⟨rfl, rfl⟩ := h
    refine ⟨.ram, rfl, Or.inl ⟨rfl, hram⟩, ⟨_, rfl, rfl⟩, rfl, rfl, rfl, rfl, Or.inl ⟨rfl, hram, rfl⟩⟩
  · by_cases hfile : tempBuffer.TempBufferType = FileInTempDir
    · simp only [tmp.new, hram, hfile, if_true, if_false] at h
      rw [if_neg fileInTempDir_ne_ram] at h
      cases hc : env.CreateTemp tempBuffer.SpecifyTmpFolder "GO_FILE_TMP_" with
      | error err =>
        rw [hc] at h
        simp at h
      | ok name =>
        rw [hc] at h
        simp only [Prod.mk.injEq, true_and] at h
        obtain ⟨rfl, rfl⟩ := h
        refine ⟨.file, rfl, Or.inr ⟨rfl, hfile⟩, ⟨_, rfl, rfl⟩, rfl, rfl, rfl, rfl,
          Or.inr ⟨rfl, hfile, name, rfl, rfl, rfl⟩⟩
    · simp [tmp.new, hram, hfile] at h

/-! ## Lemmas on reading a sealed buffer -/

theorem drop_min_length (l : List UInt8) (k : Nat) : l.drop (min k l.length) = l.drop k := by
  rcases Nat.le_total k l.length with h | h
  · rw [Nat.min_eq_left h]
  · rw [Nat.min_eq_right h, List.drop_length, List.drop_eq_nil_of_le h]

theorem take_eq_nil_pos (l : List UInt8) (k : Nat) (hk : k ≠ 0) (h : l.take k = []) : l = [] := by
  cases l with
  | nil => rfl
  | cons a as =>
    cases k with
    | zero => exact absurd rfl hk
    | succ n => simp at h

/-- One read of the store behind the reader: it delivers the next `k` pending
bytes, and reports the end exactly when nothing is pending and `k` is not 0. -/
theorem readerRead_spec (t : tmp) (k : Nat) (h : t.Sealed) :
    (t.readerRead k).1.Sealed
    ∧ (t.readerRead k).2.1 = t.pending.take k
    ∧ (t.readerRead k).1.pending = t.pending.drop k
    ∧ ((t.readerRead k).2.2 = some "EOF" ↔ (t.pending = [] ∧ k ≠ 0))
    ∧ (t.readerRead k).1.onSend = t.onSend
    ∧ (t.readerRead k).1.total = t.total
    ∧ (t.readerRead k).1.readOver = t.readOver := by
  unfold tmp.Sealed at h
  cases hrd : t.reader with
  | none => simp [hrd] at h
  | some s =>
    cases s with
    | ram =>
      simp only [hrd] at h
      obtain ⟨b, hb⟩ := h
      by_cases he : b.buf.length ≤ b.off
      · have hp : List.drop b.off b.buf = [] := List.drop_eq_nil_of_le he
        by_cases hk : k = 0 <;>
          simp [tmp.readerRead, hrd, hb, Buffer.Read, he, tmp.Sealed, tmp.pending, hp, hk]
      · have hp : List.drop b.off b.buf ≠ [] := by
          intro hnil
          exact he (List.drop_eq_nil_iff.mp hnil)
        simp only [tmp.readerRead, hrd, hb, Buffer.Read, he, if_false, tmp.Sealed, tmp.pending,
          Option.map_some', Option.getD_some]
        refine ⟨⟨_, rfl⟩, trivial, ?_, ?_, trivial, trivial, trivial⟩
        · rw [List.length_take, ← List.drop_drop, drop_min_length]
        · simp [hp]
    | file =>
      simp only [hrd] at h
      obtain ⟨f, hf⟩ := h
      by_cases hk : k = 0
      · simp [tmp.readerRead, hrd, hf, File.Read, hk, tmp.Sealed, tmp.pending]
      · by_cases he : (List.take k (List.drop f.pos f.data)) = []
        · have hp := take_eq_nil_pos _ k hk he
          simp [tmp.readerRead, hrd, hf, File.Read, hk, tmp.Sealed, tmp.pending, he, hp]
        · have hp : List.drop f.pos f.data ≠ [] := by
            intro hnil
            rw [hnil] at he
            simp at he
          simp only [tmp.readerRead, hrd, hf, File.Read, hk, if_false, tmp.Sealed, tmp.pending,
            Option.map_some', Option.getD_some, List.isEmpty_eq_true, he]
          refine ⟨⟨_, rfl⟩, trivial, ?_, ?_, trivial, trivial, trivial⟩
          · rw [List.length_take, ← List.drop_drop, drop_min_length]
          · simp [hp]

/-- One `Read`: the next `k` pending bytes, the end reported exactly when
nothing is pending and `k` is not 0, and, with a callback, the counter raised
by the bytes read and then passed on with the total. -/
theorem Read_spec (t : tmp) (k : Nat) (h : t.Sealed) :
    (t.Read k).1.Sealed
    ∧ (t.Read k).2.data = t.pending.take k
    ∧ (t.Read k).1.pending = t.pending.drop k
    ∧ ((t.Read k).2.err = some "EOF" ↔ (t.pending = [] ∧ k ≠ 0))
    ∧ (t.Read k).1.onSend = t.onSend
    ∧ (t.Read k).1.total = t.total
    ∧ (t.onSend = true →
        (t.Read k).1.readOver = t.readOver + ((t.Read k).2.data.length : Int)
        ∧ (t.Read k).2.event = some (t.total, t.readOver + ((t.Read k).2.data.length : Int)))
    ∧ (t.onSend = false → (t.Read k).2.event = none) := by
  obtain ⟨h1, h2, h3, h4, h5, h6, h7⟩ := readerRead_spec t k h
  unfold tmp.Read
  simp only [h5]
  cases hon : t.onSend with
  | false =>
    simp only [Bool.false_eq_true, if_false]
    exact ⟨h1, h2, h3, h4, by rw [h5, hon], h6, by simp, by simp⟩
  | true =>
    simp only [if_true]
    refine ⟨?_, h2, ?_, h4, trivial, h6, ?_, by simp⟩
    · simpa [tmp.Sealed] using h1
    · simpa [tmp.pending] using h3
    · intro _
      simp [h6, h7]

theorem reachedEOF_cons (a : ReadResult) (l : List ReadResult)
    (h : reachedEOF (a :: l) = true) (ha : a.err ≠ some "EOF") : reachedEOF l = true := by
  cases l with
  | nil =>
    simp [reachedEOF] at h
    exact absurd h ha
  | cons b bs =>
    simpa [reachedEOF, List.getLast?_cons_cons] using h

/-- Reading until the end delivers exactly the pending bytes. -/
theorem reads_bytes (ks : List Nat) (t : tmp) (h : t.Sealed)
    (he : reachedEOF (t.reads ks) = true) : bytesRead (t.reads ks) = t.pending := by
  induction ks generalizing t with
  | nil => simp [tmp.reads, reachedEOF] at he
  | cons k ks ih =>
    obtain ⟨h1, h2, h3, h4, _⟩ := Read_spec t k h
    unfold tmp.reads at he ⊢
    simp only [] at he ⊢
    by_cases hE : (t.Read k).2.err = some "EOF"
    · rw [if_pos hE]
      have hp := (h4.mp hE).1
      simp [bytesRead, h2, hp]
    · rw [if_neg hE] at he ⊢
      have := ih (t.Read k).1 h1 (reachedEOF_cons _ _ he hE)
      simp only [bytesRead, List.flatMap_cons] at this ⊢
      rw [this, h2, h3, List.take_append_drop]

/-- A read of everything pending and one more read reach the end. -/
theorem reads_reach_end (t : tmp) (h : t.Sealed) :
    reachedEOF (t.reads [t.pending.length + 1, 1]) = true := by
  obtain ⟨h1, h2, h3, h4, _⟩ := Read_spec t (t.pending.length + 1) h
  obtain ⟨_, _, _, g4, _⟩ := Read_spec (t.Read (t.pending.length + 1)).1 1 h1
  simp only [tmp.reads]
  by_cases hE : (t.Read (t.pending.length + 1)).2.err = some "EOF"
  · rw [if_pos hE]
    simp [reachedEOF, hE]
  · rw [if_neg hE]
    have hp : (t.Read (t.pending.length + 1)).1.pending = [] := by
      rw [h3]
      exact List.drop_eq_nil_of_le (Nat.le_succ _)
    have hE2 := g4.mpr ⟨hp, by decide⟩
    simp [reachedEOF, hE2]

theorem reads_total (ks : List Nat) (t : tmp) (h : t.Sealed) (r : ReadResult)
    (hr : r ∈ t.reads ks) (hon : t.onSend = true) : ∃ sent, r.event = some (t.total, sent) := by
  induction ks generalizing t with
  | nil => simp [tmp.reads] at hr
  | cons k ks ih =>
    obtain ⟨h1, _, _, _, h5, h6, h7, _⟩ := Read_spec t k h
    unfold tmp.reads at hr
    simp only [] at hr
    by_cases hE : (t.Read k).2.err = some "EOF"
    · rw [if_pos hE] at hr
      simp only [List.mem_singleton] at hr
      exact ⟨_, by rw [hr]; exact (h7 hon).2⟩
    · rw [if_neg hE] at hr
      rcases List.mem_cons.mp hr with hr | hr
      · exact ⟨_, by rw [hr]; exact (h7 hon).2⟩
      · obtain ⟨sent, hs⟩ := ih (t.Read k).1 h1 hr (by rw [h5]; exact hon)
        exact ⟨sent, by rw [hs, h6]⟩

/-- With a callback, the call number `i` passes the total and the counter at
the start plus the bytes returned by the calls up to it. -/
theorem reads_events (ks : List Nat) (t : tmp) (h : t.Sealed) (hon : t.onSend = true)
    (i : Nat) (r : ReadResult) (hr : (t.reads ks)[i]? = some r) :
    r.event = some (t.total, t.readOver + (counts ((t.reads ks).take (i + 1))).sum) := by
  induction ks generalizing t i with
  | nil => simp [tmp.reads] at hr
  | cons k ks ih =>
    obtain ⟨h1, _, _, _, h5, h6, h7, _⟩ := Read_spec t k h
    unfold tmp.reads at hr ⊢
    simp only [] at hr ⊢
    by_cases hE : (t.Read k).2.err = some "EOF"
    · rw [if_pos hE] at hr ⊢
      cases i with
      | zero =>
        simp only [List.getElem?_cons_zero, Option.some.injEq] at hr
        subst hr
        simp [counts, (h7 hon).2]
      | succ j => simp at hr
    · rw [if_neg hE] at hr ⊢
      cases i with
      | zero =>
        simp only [List.getElem?_cons_zero, Option.some.injEq] at hr
        subst hr
        simp [counts, (h7 hon).2]
      | succ j =>
        simp only [List.getElem?_cons_succ] at hr
        have := ih (t.Read k).1 h1 (by rw [h5]; exact hon) j hr
        rw [this, h6, (h7 hon).1]
        simp [counts, Int.add_assoc]

theorem counts_sum (rs : List ReadResult) : (counts rs).sum = ((bytesRead rs).length : Int) := by
  induction rs with
  | nil => rfl
  | cons r rs ih => simp [counts, bytesRead] at ih ⊢; rw [ih]

theorem counts_take_mono (rs : List ReadResult) (i j : Nat) (hij : i ≤ j) :
    (counts (rs.take i)).sum ≤ (counts (rs.take j)).sum := by
  induction rs generalizing i j with
  | nil => simp [counts]
  | cons r rs ih =>
    cases i with
    | zero =>
      rw [counts_sum, counts_sum]
      exact Int.ofNat_le.mpr (Nat.zero_le _)
    | succ i1 =>
      cases j with
      | zero => exact absurd hij (Nat.not_succ_le_zero _)
      | succ j1 =>
        have := ih i1 j1 (Nat.le_of_succ_le_succ hij)
        simp only [List.take_succ_cons, counts, List.map_cons, List.sum_cons] at this ⊢
        omega

theorem stored_eq (t : tmp) (mw : Writer) (h : t.w = some mw) : t.stored = t.storeBytes mw.w := by
  unfold tmp.stored
  rw [h]

theorem matches_of_frame (t t1 : tmp) (s : Store) (h : t1.frame = t.frame) (hm : t.Matches s) :
    t1.Matches s := by
  unfold tmp.Matches at hm ⊢
  rw [frame_tempBuffer t t1 h]
  exact hm

/-- A buffer written through the multipart writer after `init` and sealed by
`flip`: the closing boundary has been appended to the store, the total is the
number of bytes in the store, all of them are pending, and the counter is 0. -/
theorem staged_sealed (env : Env) (tempBuffer : TempBuffer) (onSend : Bool) (w w1 : World)
    (ops : List WriterOp) (t1 t3 : tmp)
    (hinit : (tmp.new tempBuffer onSend).init env w = (t1, none, w1))
    (hflip : (t1.run env ops).flip env = (t3, none)) :
    t3.Sealed
    ∧ t3.stored = (t1.run env ops).stored ++ bytesOf ("\r\n--" ++ randomBoundary env ++ "--\r\n")
    ∧ t3.total = (t3.stored.length : Int)
    ∧ t3.pending = t3.stored
    ∧ t3.readOver = 0
    ∧ t3.onSend = onSend := by
  obtain ⟨s, hw, hm, hr, _, hro, hon, _, _⟩ := init_ok env tempBuffer onSend w w1 t1 hinit
  have hfr := run_frame env ops t1
  have hwr := frame_writer t1 _ hfr
  rw [hw] at hwr
  cases hw2 : (t1.run env ops).w with
  | none => simp [hw2] at hwr
  | some mw =>
    rw [hw2] at hwr
    simp only [Option.map_some', Option.some.injEq, Prod.mk.injEq] at hwr
    obtain ⟨hs, hb⟩ := hwr
    have hm2 : (t1.run env ops).Matches mw.w := by
      rw [hs]
      exact matches_of_frame t1 _ s hfr hm
    have hr2 : (t1.run env ops).Ready mw.w := by
      rw [hs]
      exact run_ready env ops t1 s hr
    obtain ⟨f1, f2, f3, f4, f5, f6, _, f8, _⟩ := flip_ok env _ mw t3 hw2 hm2 hr2 hflip
    have e3 : t3.stored = t3.storeBytes mw.w := stored_eq t3 { mw with lastpart := none } f8
    have e2 : (t1.run env ops).stored = (t1.run env ops).storeBytes mw.w := stored_eq _ mw hw2
    refine ⟨f4, ?_, ?_, ?_, ?_, ?_⟩
    · rw [e3, e2, f1, hb]
    · rw [e3, f2]
    · rw [e3, f3]
    · rw [f5, frame_readOver t1 _ hfr, hro]
    · rw [f6, frame_onSend t1 _ hfr, hon]

theorem writer_store_of_frame (t t1 : tmp) (s : Store) (h : t1.frame = t.frame)
    (hs : t.w.map Writer.w = some s) : t1.w.map Writer.w = some s := by
  have hfw := frame_writer t t1 h
  cases hw : t.w with
  | none => simp [hw] at hs
  | some mw =>
    rw [hw] at hs hfw
    cases hw1 : t1.w with
    | none => simp [hw1] at hfw
    | some mw1 =>
      rw [hw1] at hfw
      simp only [Option.map_some', Option.some.injEq, Prod.mk.injEq] at hfw hs ⊢
      rw [hfw.1]
      exact hs

theorem storeWrite_appends (env : Env) (t : tmp) (s : Store) (d : List UInt8) (hr : t.Ready s) :
    ∃ x, (t.storeWrite env s d).1.storeBytes s = t.storeBytes s ++ x :=
  ⟨_, (write_ready env t s d hr).2.1⟩

theorem CreatePart_appends (env : Env) (t : tmp) (header : List (String × String)) (s : Store)
    (hs : t.w.map Writer.w = some s) (hr : t.Ready s) :
    ∃ x, (t.CreatePart env header).1.storeBytes s = t.storeBytes s ++ x := by
  unfold tmp.CreatePart
  cases hw : t.w with
  | none => simp [hw] at hs
  | some mw =>
    rw [hw] at hs
    simp only [Option.map_some', Option.some.injEq] at hs
    subst hs
    simp only []
    cases mw.lastpart.bind (·.we) with
    | some err => exact ⟨[], by simp [tmp.storeBytes]⟩
    | none =>
      simp only []
      obtain ⟨x, hx⟩ := storeWrite_appends env { t with w := some { mw with lastpart := mw.lastpart.map fun p => { p with closed := true } } } mw.w
        (partHeader mw.boundary mw.lastpart.isNone header) (ready_of_stores t _ _ rfl rfl hr)
      generalize tmp.storeWrite env _ mw.w (partHeader mw.boundary mw.lastpart.isNone header) = r
        at hx
      obtain ⟨t1, n, e⟩ := r
      cases e with
      | some err => exact ⟨x, hx⟩
      | none => exact ⟨x, hx⟩

theorem partWrite_appends (env : Env) (t : tmp) (d : List UInt8) (s : Store)
    (hs : t.w.map Writer.w = some s) (hr : t.Ready s) :
    ∃ x, (t.partWrite env d).1.storeBytes s = t.storeBytes s ++ x := by
  unfold tmp.partWrite
  cases hw : t.w with
  | none => simp [hw] at hs
  | some mw =>
    rw [hw] at hs
    simp only [Option.map_some', Option.some.injEq] at hs
    subst hs
    simp only []
    cases mw.lastpart with
    | none => exact ⟨[], by simp⟩
    | some p =>
      simp only []
      split
      · exact ⟨[], by simp⟩
      · obtain ⟨x, hx⟩ := storeWrite_appends env t mw.w d hr
        generalize tmp.storeWrite env t mw.w d = r at hx
        obtain ⟨t1, n, e⟩ := r
        cases e with
        | some err => exact ⟨x, hx⟩
        | none => exact ⟨x, hx⟩

theorem ioCopy_appends (env : Env) (chunks : List (List UInt8)) (final : Option String)
    (t : tmp) (s : Store) (hs : t.w.map Writer.w = some s) (hr : t.Ready s) :
    ∃ x, (t.ioCopy env chunks final).1.storeBytes s = t.storeBytes s ++ x := by
  induction chunks generalizing t with
  | nil => exact ⟨[], by simp [tmp.ioCopy]⟩
  | cons c rest ih =>
    unfold tmp.ioCopy
    split
    · exact ih t hs hr
    · obtain ⟨x, hx⟩ := partWrite_appends env t c s hs hr
      have hs1 := writer_store_of_frame t _ s (partWrite_frame env t c) hs
      have hr1 := partWrite_ready_any env t c s hr
      generalize t.partWrite env c = r at hx hs1 hr1
      obtain ⟨t1, n, e⟩ := r
      cases e with
      | some err => exact ⟨x, hx⟩
      | none =>
        simp only []
        split
        · exact ⟨x, hx⟩
        · obtain ⟨y, hy⟩ := ih t1 hs1 hr1
          exact ⟨x ++ y, by rw [hy, hx, List.append_assoc]⟩

theorem apply_appends (env : Env) (t : tmp) (op : WriterOp) (s : Store)
    (hs : t.w.map Writer.w = some s) (hr : t.Ready s) :
    ∃ x, (t.apply env op).storeBytes s = t.storeBytes s ++ x := by
  cases op with
  | createFormFile a b => exact CreatePart_appends env t _ s hs hr
  | createFormField a => exact CreatePart_appends env t _ s hs hr
  | write d => exact partWrite_appends env t d s hs hr
  | copy src => exact ioCopy_appends env src.chunks src.err t s hs hr

/-- The uses of the writer only append to its store. -/
theorem run_appends (env : Env) (ops : List WriterOp) (t : tmp) (s : Store)
    (hs : t.w.map Writer.w = some s) (hr : t.Ready s) :
    ∃ x, (t.run env ops).storeBytes s = t.storeBytes s ++ x := by
  induction ops generalizing t with
  | nil => exact ⟨[], by simp [tmp.run]⟩
  | cons op rest ih =>
    obtain ⟨x, hx⟩ := apply_appends env t op s hs hr
    obtain ⟨y, hy⟩ := ih (t.apply env op)
      (writer_store_of_frame t _ s (apply_frame env t op) hs) (apply_ready env t op s hr)
    exact ⟨x ++ y, by
      show ((t.apply env op).run env rest).storeBytes s = _
      rw [hy, hx, List.append_assoc]⟩

theorem stored_of_store (t : tmp) (s : Store) (hs : t.w.map Writer.w = some s) :
    t.stored = t.storeBytes s := by
  cases hw : t.w with
  | none => simp [hw] at hs
  | some mw =>
    rw [hw] at hs
    simp only [Option.map_some', Option.some.injEq] at hs
    rw [stored_eq t mw hw, hs]

theorem run_append (env : Env) (ops1 ops2 : List WriterOp) (t : tmp) :
    t.run env (ops1 ++ ops2) = (t.run env ops1).run env ops2 := by
  simp [tmp.run, List.foldl_append]

/-- After `init` the store is empty, and what it holds after some uses of the
writer stays in front of what later uses add. -/
theorem staged_in_order (env : Env) (tempBuffer : TempBuffer) (onSend : Bool) (w w1 : World)
    (t1 : tmp) (hinit : (tmp.new tempBuffer onSend).init env w = (t1, none, w1)) :
    t1.stored = []
    ∧ ∀ ops1 ops2, ∃ x, (t1.run env (ops1 ++ ops2)).stored = (t1.run env ops1).stored ++ x := by
  obtain ⟨s, hw, _, hr, hb, _⟩ := init_ok env tempBuffer onSend w w1 t1 hinit
  have hs : t1.w.map Writer.w = some s := by rw [hw]; rfl
  refine ⟨by rw [stored_of_store t1 s hs, hb], ?_⟩
  intro ops1 ops2
  have hs1 := writer_store_of_frame t1 _ s (run_frame env ops1 t1) hs
  have hr1 := run_ready env ops1 t1 s hr
  obtain ⟨x, hx⟩ := run_appends env ops2 (t1.run env ops1) s hs1 hr1
  have hs2 := writer_store_of_frame t1 _ s (run_frame env (ops1 ++ ops2) t1) hs
  refine ⟨x, ?_⟩
  rw [stored_of_store _ s hs2, stored_of_store _ s hs1, run_append, hx]

/-! ## The store holds what the writer passed on -/

theorem stores_congr (t t1 : tmp) (s : Store) (x : Written) (hr : t1.ramBuffer = t.ramBuffer)
    (hf : t1.file = t.file) (h : t.Stores s x) : t1.Stores s x := by
  cases s with
  | ram => simpa [tmp.Stores, hr] using h
  | file => simpa [tmp.Stores, hf] using h

/-- One write on the store: the store takes what the environment lets
through, at its end, and reports the environment's error. -/
theorem storeWrite_stores (env : Env) (t : tmp) (s : Store) (x : Written) (d : List UInt8)
    (h : t.Stores s x) :
    (t.storeWrite env s d).1.Stores s (x.put env s d).1
    ∧ (t.storeWrite env s d).2.2 = (x.put env s d).2
    ∧ (t.storeWrite env s d).1.w = t.w
    ∧ ((t.storeWrite env s d).2.2 = none → (t.storeWrite env s d).2.1 = d.length) := by
  refine ⟨?_, ?_, write_w env t s d, ?_⟩
  · cases s with
    | ram =>
      obtain ⟨b, hb, hoff, hbuf⟩ := h
      simp [tmp.storeWrite, hb, tmp.Stores, Written.put, Env.takes, hoff, hbuf]
    | file =>
      obtain ⟨f, hf, hpos, hdata, hwr⟩ := h
      cases hw : env.writeFault f.writes with
      | none =>
        simp [tmp.storeWrite, hf, hw, tmp.Stores, Written.put, Env.takes, File.put, hpos, ← hwr,
          ← hdata]
      | some ke =>
        obtain ⟨k, e⟩ := ke
        have h1 : List.drop (f.data.length + (List.take k d).length) f.data = [] :=
          List.drop_eq_nil_of_le (Nat.le_add_right _ _)
        simp only [tmp.storeWrite, hf, hw, tmp.Stores, Written.put, Env.takes, File.put, hpos,
          ← hwr, ← hdata]
        refine ⟨_, rfl, ?_, ?_, rfl⟩
        · simp [h1]
        · simp [h1]
  · cases s with
    | ram =>
      obtain ⟨b, hb, _⟩ := h
      simp [tmp.storeWrite, hb, Written.put, Env.takes]
    | file =>
      obtain ⟨f, hf, _, _, hwr⟩ := h
      cases hw : env.writeFault f.writes with
      | none => simp [tmp.storeWrite, hf, hw, Written.put, Env.takes, ← hwr]
      | some ke => simp [tmp.storeWrite, hf, hw, Written.put, Env.takes, ← hwr]
  · cases s with
    | ram =>
      obtain ⟨b, hb, _⟩ := h
      simp [tmp.storeWrite, hb]
    | file =>
      obtain ⟨f, hf, _⟩ := h
      cases hw : env.writeFault f.writes with
      | none => simp [tmp.storeWrite, hf, hw]
      | some ke => simp [tmp.storeWrite, hf, hw]

theorem CreatePart_holds (env : Env) (t : tmp) (s : Store) (boundary : String) (x : Written)
    (header : List (String × String)) (h : t.Holds s boundary x) :
    (t.CreatePart env header).1.Holds s boundary (x.createPart env s boundary header).1
    ∧ (t.CreatePart env header).2 = (x.createPart env s boundary header).2 := by
  obtain ⟨hw, hst⟩ := h
  unfold tmp.CreatePart Written.createPart
  simp only [hw]
  cases hl : x.part.bind (·.we) with
  | some err => exact ⟨⟨rfl, stores_congr t _ s x rfl rfl hst⟩, rfl⟩
  | none =>
    simp only []
    obtain ⟨g1, g2, g3, _⟩ := storeWrite_stores env
      { t with w := some { w := s, boundary := boundary,
                           lastpart := x.part.map fun p => { p with closed := true } } }
      s x (partHeader boundary x.part.isNone header) (stores_congr t _ s x rfl rfl hst)
    generalize tmp.storeWrite env _ s (partHeader boundary x.part.isNone header) = r at g1 g2 g3
    obtain ⟨t1, n, e⟩ := r
    simp only [] at g1 g2 g3
    generalize x.put env s (partHeader boundary x.part.isNone header) = q at g1 g2
    obtain ⟨y, e1⟩ := q
    simp only [] at g1 g2
    subst g2
    cases e with
    | some err => exact ⟨⟨g3, stores_congr t1 _ s _ rfl rfl g1⟩, rfl⟩
    | none => exact ⟨⟨rfl, stores_congr t1 _ s _ rfl rfl g1⟩, rfl⟩

theorem partWrite_holds (env : Env) (t : tmp) (s : Store) (boundary : String) (x : Written)
    (d : List UInt8) (h : t.Holds s boundary x) :
    (t.partWrite env d).1.Holds s boundary (x.write env s d).1
    ∧ (t.partWrite env d).2.2 = (x.write env s d).2
    ∧ ((t.partWrite env d).2.2 = none → (t.partWrite env d).2.1 = d.length) := by
  obtain ⟨hw, hst⟩ := h
  unfold tmp.partWrite Written.write
  simp only [hw]
  cases hp : x.part with
  | none => exact ⟨⟨by rw [hw, hp], hst⟩, rfl, by simp⟩
  | some p =>
    simp only []
    by_cases hc : p.closed = true
    · rw [if_pos hc, if_pos hc]
      exact ⟨⟨by rw [hw, hp], hst⟩, rfl, fun h => by simp at h⟩
    · rw [if_neg hc, if_neg hc]
      obtain ⟨g1, g2, g3, g4⟩ := storeWrite_stores env t s x d hst
      have g5 : (x.put env s d).1.part = x.part := rfl
      generalize tmp.storeWrite env t s d = r at g1 g2 g3 g4
      obtain ⟨t1, n, e⟩ := r
      simp only [] at g1 g2 g3 g4
      generalize x.put env s d = q at g1 g2 g5
      obtain ⟨y, e1⟩ := q
      simp only [] at g1 g2 g5
      subst g2
      cases e with
      | some err =>
        exact ⟨⟨rfl, stores_congr t1 _ s _ rfl rfl g1⟩, rfl, fun h => by simp at h⟩
      | none =>
        refine ⟨⟨?_, g1⟩, rfl, fun _ => g4 rfl⟩
        show t1.w = _
        rw [g3, hw, g5, hp]

theorem ioCopy_holds (env : Env) (s : Store) (boundary : String) (chunks : List (List UInt8))
    (final : Option String) (t : tmp) (x : Written) (h : t.Holds s boundary x) :
    (t.ioCopy env chunks final).1.Holds s boundary (x.copy env s chunks final).1
    ∧ (t.ioCopy env chunks final).2 = (x.copy env s chunks final).2 := by
  induction chunks generalizing t x with
  | nil => exact ⟨h, rfl⟩
  | cons c rest ih =>
    unfold tmp.ioCopy Written.copy
    by_cases hc : c.isEmpty = true
    · simp only [hc, if_true]
      exact ih t x h
    · simp only [hc, if_false]
      obtain ⟨g1, g2, g3⟩ := partWrite_holds env t s boundary x c h
      generalize t.partWrite env c = r at g1 g2 g3
      obtain ⟨t1, n, e⟩ := r
      simp only [] at g1 g2 g3
      generalize x.write env s c = q at g1 g2
      obtain ⟨y, e1⟩ := q
      simp only [] at g1 g2
      subst g2
      cases e with
      | some err => exact ⟨g1, rfl⟩
      | none =>
        simp only [g3 rfl, ne_eq, not_true_eq_false, if_false]
        exact ih t1 y g1

theorem apply_holds (env : Env) (t : tmp) (s : Store) (boundary : String) (x : Written)
    (op : WriterOp) (h : t.Holds s boundary x) :
    (t.apply env op).Holds s boundary (x.apply env s boundary op) := by
  cases op with
  | createFormFile a b =>
    have := (CreatePart_holds env t s boundary x (filePart a b []).header h).1
    simpa [tmp.apply, Written.apply, tmp.CreateFormFile, filePart, escapeQuotes_eq] using this
  | createFormField a =>
    have := (CreatePart_holds env t s boundary x (fieldPart a []).header h).1
    simpa [tmp.apply, Written.apply, tmp.CreateFormField, fieldPart, escapeQuotes_eq] using this
  | write d => exact (partWrite_holds env t s boundary x d h).1
  | copy src => exact (ioCopy_holds env s boundary src.chunks src.err t x h).1

theorem run_holds (env : Env) (s : Store) (boundary : String) (ops : List WriterOp) (t : tmp)
    (x : Written) (h : t.Holds s boundary x) :
    (t.run env ops).Holds s boundary (x.run env s boundary ops) := by
  induction ops generalizing t x with
  | nil => exact h
  | cons op rest ih => exact ih _ _ (apply_holds env t s boundary x op h)

theorem stored_of_holds (t : tmp) (s : Store) (boundary : String) (x : Written)
    (h : t.Holds s boundary x) : t.stored = x.bytes := by
  obtain ⟨hw, hst⟩ := h
  rw [stored_eq t _ hw]
  cases s with
  | ram =>
    obtain ⟨b, hb, _, hbuf⟩ := hst
    simp [tmp.storeBytes, hb, hbuf]
  | file =>
    obtain ⟨f, hf, _, hdata, _⟩ := hst
    simp [tmp.storeBytes, hf, hdata]

theorem init_holds (env : Env) (tempBuffer : TempBuffer) (onSend : Bool) (w w1 : World)
    (t1 : tmp) (hinit : (tmp.new tempBuffer onSend).init env w = (t1, none, w1)) :
    t1.Holds (storeOf tempBuffer) (randomBoundary env) { bytes := [], writes := 0, part := none } := by
  unfold tmp.init at hinit
  by_cases hram : tempBuffer.TempBufferType = Ram
  · simp only [tmp.new, hram, if_true, Prod.mk.injEq, true_and] at hinit
    obtain ⟨rfl, _⟩ := hinit
    simp only [storeOf, hram, if_true]
    exact ⟨rfl, _, rfl, rfl, rfl⟩
  · by_cases hfile : tempBuffer.TempBufferType = FileInTempDir
    · simp only [tmp.new, hram, hfile, if_true, if_false] at hinit
      rw [if_neg fileInTempDir_ne_ram] at hinit
      cases hc : env.CreateTemp tempBuffer.SpecifyTmpFolder "GO_FILE_TMP_" with
      | error err =>
        rw [hc] at hinit
        simp at hinit
      | ok name =>
        rw [hc] at hinit
        simp only [Prod.mk.injEq, true_and] at hinit
        obtain ⟨rfl, _⟩ := hinit
        simp only [storeOf, hram, if_false]
        exact ⟨rfl, _, rfl, rfl, rfl, rfl⟩
    · simp [tmp.new, hram, hfile] at hinit

/-- The store after any uses of the writer holds exactly the bytes those uses
passed on and the store took, in order. -/
theorem run_stored (env : Env) (tempBuffer : TempBuffer) (onSend : Bool) (w w1 : World)
    (ops : List WriterOp) (t1 : tmp)
    (hinit : (tmp.new tempBuffer onSend).init env w = (t1, none, w1)) :
    (t1.run env ops).stored
      = (Written.run env (storeOf tempBuffer) (randomBoundary env)
          { bytes := [], writes := 0, part := none } ops).bytes :=
  stored_of_holds _ _ _ _
    (run_holds env _ _ ops t1 _ (init_holds env tempBuffer onSend w w1 t1 hinit))

/-! ## What is written when the store takes every write -/

theorem takes_all (env : Env) (s : Store) (n : Nat) (d : List UInt8)
    (h : s = .ram ∨ ∀ n, env.writeFault n = none) : env.takes s n d = (d, none) := by
  cases s with
  | ram => rfl
  | file =>
    rcases h with h | h
    · cases h
    · simp [Env.takes, h n]

theorem partHeader_filePart (boundary : String) (first : Bool) (fieldname filename : String) :
    partHeader boundary first (filePart fieldname filename []).header
      = partStart boundary first (filePart fieldname filename []) := by
  simp only [partHeader, partStart, filePart, bytesOf_append, List.append_assoc]
  rfl

theorem partHeader_fieldPart (boundary : String) (first : Bool) (fieldname : String) :
    partHeader boundary first (fieldPart fieldname []).header
      = partStart boundary first (fieldPart fieldname []) := by
  simp only [partHeader, partStart, fieldPart, bytesOf_append, List.append_assoc]
  rfl

theorem createPart_all (env : Env) (s : Store) (boundary : String) (x : Written)
    (header : List (String × String)) (h : s = .ram ∨ ∀ n, env.writeFault n = none)
    (hp : x.part = none ∨ x.part = some { closed := false, we := none }) :
    (x.createPart env s boundary header).1
      = { bytes := x.bytes ++ partHeader boundary (!x.part.isSome) header,
          writes := x.writes + 1, part := some { closed := false, we := none } } := by
  unfold Written.createPart Written.put
  rw [takes_all env s _ _ h]
  rcases hp with hp | hp <;> simp [hp]

theorem write_all (env : Env) (s : Store) (x : Written) (d : List UInt8)
    (h : s = .ram ∨ ∀ n, env.writeFault n = none)
    (hp : x.part = none ∨ x.part = some { closed := false, we := none }) :
    (x.write env s d).1.bytes = x.bytes ++ (if x.part.isSome then d else [])
    ∧ (x.write env s d).1.part = x.part
    ∧ (x.part.isSome = true → (x.write env s d).2 = none) := by
  unfold Written.write Written.put
  rw [takes_all env s _ _ h]
  rcases hp with hp | hp <;> simp [hp]

theorem copy_all (env : Env) (s : Store) (chunks : List (List UInt8)) (final : Option String)
    (x : Written) (h : s = .ram ∨ ∀ n, env.writeFault n = none)
    (hp : x.part = none ∨ x.part = some { closed := false, we := none }) :
    (x.copy env s chunks final).1.bytes
        = x.bytes ++ (if x.part.isSome then chunks.flatMap id else [])
    ∧ (x.copy env s chunks final).1.part = x.part := by
  induction chunks generalizing x with
  | nil => simp [Written.copy]
  | cons c rest ih =>
    unfold Written.copy
    by_cases hc : c.isEmpty = true
    · rw [if_pos hc]
      have hnil : c = [] := List.isEmpty_iff.mp hc
      obtain ⟨i1, i2⟩ := ih x hp
      refine ⟨?_, i2⟩
      rw [i1, hnil]
      simp
    · rw [if_neg hc]
      obtain ⟨g1, g2, g3⟩ := write_all env s x c h hp
      generalize x.write env s c = q at g1 g2 g3
      obtain ⟨y, e⟩ := q
      simp only [] at g1 g2 g3
      cases e with
      | some err =>
        simp only []
        cases hx : x.part with
        | none =>
          rw [hx] at g1
          refine ⟨?_, by rw [g2, hx]⟩
          simpa using g1
        | some p =>
          rw [hx] at g3
          simp at g3
      | none =>
        simp only []
        obtain ⟨i1, i2⟩ := ih y (by rw [g2]; exact hp)
        refine ⟨?_, by rw [i2, g2]⟩
        rw [i1, g1, g2]
        cases hx : x.part <;> simp

/-- When the store takes every write, a sequence of uses of the writer writes
exactly the starts of the parts created and the bytes written and copied into
them, in order. -/
theorem run_all (env : Env) (s : Store) (boundary : String) (ops : List WriterOp) (x : Written)
    (h : s = .ram ∨ ∀ n, env.writeFault n = none)
    (hp : x.part = none ∨ x.part = some { closed := false, we := none }) :
    (Written.run env s boundary x ops).bytes
      = x.bytes ++ writtenParts boundary x.part.isSome ops := by
  induction ops generalizing x with
  | nil => simp [Written.run, writtenParts]
  | cons op rest ih =>
    have hrun : Written.run env s boundary x (op :: rest)
        = Written.run env s boundary (x.apply env s boundary op) rest := rfl
    rw [hrun]
    cases op with
    | createFormFile a b =>
      have e := createPart_all env s boundary x (filePart a b []).header h hp
      simp only [Written.apply]
      rw [e, ih _ (Or.inr rfl), partHeader_filePart]
      simp [writtenParts]
    | createFormField a =>
      have e := createPart_all env s boundary x (fieldPart a []).header h hp
      simp only [Written.apply]
      rw [e, ih _ (Or.inr rfl), partHeader_fieldPart]
      simp [writtenParts]
    | write d =>
      obtain ⟨g1, g2, _⟩ := write_all env s x d h hp
      simp only [Written.apply]
      rw [ih _ (by rw [g2]; exact hp), g1, g2]
      simp [writtenParts]
    | copy src =>
      obtain ⟨g1, g2⟩ := copy_all env s src.chunks src.err x h hp
      simp only [Written.apply]
      rw [ih _ (by rw [g2]; exact hp), g1, g2]
      simp [writtenParts, Reader.bytes]

/-! ## C2: write, seal, read back -/

/-- C2: after a successful `init` (either strategy) the store is empty and the
uses of the multipart writer only append to it; after any sequence of such
uses and a successful `flip`, the store holds what it held before `flip`
followed by the closing boundary; the total recorded equals the
number of those bytes; every sequence of `Read` calls that reaches the end of
file has returned exactly those bytes, in order from offset 0; and such a
sequence exists.  The bytes are those the uses of the writer passed on: before
`flip` the store holds exactly the bytes of the writes it took, in order; a
sequence of reads that reaches the end returns them followed by the closing
boundary; and when the store takes every write (a buffer in memory, or a
file none of whose writes fails) they are the starts of the parts created and
the bytes written and copied into them. -/
theorem write_seal_read (env : Env) (tempBuffer : TempBuffer) (onSend : Bool) (w w1 : World)
    (ops : List WriterOp) (t1 t3 : tmp)
    (hinit : (tmp.new tempBuffer onSend).init env w = (t1, none, w1))
    (hflip : (t1.run env ops).flip env = (t3, none)) :
    t1.stored = []
    ∧ (∀ ops1 ops2, ∃ x, (t1.run env (ops1 ++ ops2)).stored = (t1.run env ops1).stored ++ x)
    ∧ t3.stored = (t1.run env ops).stored ++ bytesOf ("\r\n--" ++ randomBoundary env ++ "--\r\n")
    ∧ t3.total = (t3.stored.length : Int)
    ∧ (∀ ks, reachedEOF (t3.reads ks) = true → bytesRead (t3.reads ks) = t3.stored)
    ∧ reachedEOF (t3.reads [t3.stored.length + 1, 1]) = true
    ∧ (t1.run env ops).stored
        = (Written.run env (storeOf tempBuffer) (randomBoundary env)
            { bytes := [], writes := 0, part := none } ops).bytes
    ∧ (∀ ks, reachedEOF (t3.reads ks) = true →
        bytesRead (t3.reads ks)
          = (Written.run env (storeOf tempBuffer) (randomBoundary env)
              { bytes := [], writes := 0, part := none } ops).bytes
            ++ bytesOf ("\r\n--" ++ randomBoundary env ++ "--\r\n"))
    ∧ (tempBuffer.TempBufferType = Ram ∨ (∀ n, env.writeFault n = none) →
        ∀ ks, reachedEOF (t3.reads ks) = true →
          bytesRead (t3.reads ks)
            = writtenParts (randomBoundary env) false ops
              ++ bytesOf ("\r\n--" ++ randomBoundary env ++ "--\r\n")) := by
  obtain ⟨hs, h1, h2, h3, _, _⟩ := staged_sealed env tempBuffer onSend w w1 ops t1 t3 hinit hflip
  obtain ⟨o1, o2⟩ := staged_in_order env tempBuffer onSend w w1 t1 hinit
  have hst := run_stored env tempBuffer onSend w w1 ops t1 hinit
  have hrd : ∀ ks, reachedEOF (t3.reads ks) = true → bytesRead (t3.reads ks) = t3.stored := by
    intro ks he
    rw [reads_bytes ks t3 hs he, h3]
  refine ⟨o1, o2, h1, h2, hrd, ?_, hst, ?_, ?_⟩
  · rw [← h3]
    exact reads_reach_end t3 hs
  · intro ks he
    rw [hrd ks he, h1, hst]
  · intro htake ks he
    have htake1 : storeOf tempBuffer = .ram ∨ ∀ n, env.writeFault n = none := by
      rcases htake with h | h
      · exact Or.inl (by simp [storeOf, h])
      · exact Or.inr h
    rw [hrd ks he, h1, hst, run_all env _ _ ops _ htake1 (Or.inl rfl)]
    rfl

/-- C2, at a sample of two parts under each strategy: the reads `[1000, 1]`
reach the end of file and return the two parts written and the closing
boundary, byte for byte, and the total is their number, 192. -/
theorem write_seal_read_witness :
    (reachedEOF ((sampleSealed Ram false).reads [1000, 1]) = true
      ∧ bytesRead ((sampleSealed Ram false).reads [1000, 1])
          = writtenParts (randomBoundary sampleEnv) false sampleOps
            ++ bytesOf ("\r\n--" ++ randomBoundary sampleEnv ++ "--\r\n")
      ∧ bytesRead ((sampleSealed Ram false).reads [1000, 1])
          = bytesOf ("--1fa007\r\nContent-Disposition: form-data; name=\"file\"; filename=\"a.txt\"\r\n"
            ++ "Content-Type: application/octet-stream\r\n\r\nhi"
            ++ "\r\n--1fa007\r\nContent-Disposition: form-data; name=\"token\"\r\n\r\nt"
            ++ "\r\n--1fa007--\r\n")
      ∧ (sampleSealed Ram false).total = 192)
    ∧ (reachedEOF ((sampleSealed FileInTempDir false).reads [1000, 1]) = true
      ∧ bytesRead ((sampleSealed FileInTempDir false).reads [1000, 1])
          = writtenParts (randomBoundary sampleEnv) false sampleOps
            ++ bytesOf ("\r\n--" ++ randomBoundary sampleEnv ++ "--\r\n")
      ∧ bytesRead ((sampleSealed FileInTempDir false).reads [1000, 1])
          = bytesOf ("--1fa007\r\nContent-Disposition: form-data; name=\"file\"; filename=\"a.txt\"\r\n"
            ++ "Content-Type: application/octet-stream\r\n\r\nhi"
            ++ "\r\n--1fa007\r\nContent-Disposition: form-data; name=\"token\"\r\n\r\nt"
            ++ "\r\n--1fa007--\r\n")
      ∧ (sampleSealed FileInTempDir false).total = 192) :=
  ⟨⟨by decide,
    (write_seal_read sampleEnv { TempBufferType := Ram, SpecifyTmpFolder := "/tmp" } false
        emptyWorld emptyWorld sampleOps _ (sampleSealed Ram false) rfl rfl).2.2.2.2.2.2.2.2
      (Or.inl rfl) [1000, 1] (by decide),
    by decide, by decide⟩,
   ⟨by decide,
    (write_seal_read sampleEnv { TempBufferType := FileInTempDir, SpecifyTmpFolder := "/tmp" } false
        emptyWorld _ sampleOps _ (sampleSealed FileInTempDir false) rfl rfl).2.2.2.2.2.2.2.2
      (Or.inr fun _ => rfl) [1000, 1] (by decide),
    by decide, by decide⟩⟩

/-! ## C3: the progress callback -/

/-- C3: for a buffer sealed with a callback and any sequence of `Read` calls,
every call invokes the callback once with the total recorded by `flip` and
with the sum of the byte counts returned so far (so the values sent do not
decrease); when the sequence reaches the end of file, the last invocation
has `sent` equal to the total and the byte counts sum to the total; and a
sequence reaching the end exists. -/
theorem progress_callback (env : Env) (tempBuffer : TempBuffer) (w w1 : World)
    (ops : List WriterOp) (t1 t3 : tmp) (ks : List Nat)
    (hinit : (tmp.new tempBuffer true).init env w = (t1, none, w1))
    (hflip : (t1.run env ops).flip env = (t3, none)) :
    (∀ i r, (t3.reads ks)[i]? = some r →
        r.event = some (t3.total, (counts ((t3.reads ks).take (i + 1))).sum))
    ∧ (∀ (i j : Nat) (ri rj : ReadResult) (si sj : Int × Int), i ≤ j →
        (t3.reads ks)[i]? = some ri → (t3.reads ks)[j]? = some rj →
        ri.event = some si → rj.event = some sj → si.2 ≤ sj.2)
    ∧ (reachedEOF (t3.reads ks) = true →
        (∃ r, (t3.reads ks).getLast? = some r ∧ r.event = some (t3.total, t3.total))
        ∧ (counts (t3.reads ks)).sum = t3.total)
    ∧ reachedEOF (t3.reads [t3.stored.length + 1, 1]) = true := by
  obtain ⟨hs, _, h2, h3, h4, h5⟩ := staged_sealed env tempBuffer true w w1 ops t1 t3 hinit hflip
  have hev : ∀ i r, (t3.reads ks)[i]? = some r →
      r.event = some (t3.total, (counts ((t3.reads ks).take (i + 1))).sum) := by
    intro i r hr
    have := reads_events ks t3 hs h5 i r hr
    rw [h4, Int.zero_add] at this
    exact this
  have hsum : reachedEOF (t3.reads ks) = true → (counts (t3.reads ks)).sum = t3.total := by
    intro he
    rw [counts_sum, reads_bytes ks t3 hs he, h3, h2]
  refine ⟨hev, ?_, ?_, ?_⟩
  · intro i j ri rj si sj hij hi hj hsi hsj
    rw [hev i ri hi] at hsi
    rw [hev j rj hj] at hsj
    simp only [Option.some.injEq] at hsi hsj
    rw [← hsi, ← hsj]
    exact counts_take_mono _ _ _ (Nat.succ_le_succ hij)
  · intro he
    refine ⟨?_, hsum he⟩
    cases hl : (t3.reads ks).getLast? with
    | none => simp [reachedEOF, hl] at he
    | some r =>
      refine ⟨r, rfl, ?_⟩
      have hidx : (t3.reads ks)[(t3.reads ks).length - 1]? = some r := by
        rw [← List.getLast?_eq_getElem?]
        exact hl
      rw [hev _ r hidx]
      have hne : (t3.reads ks).length ≠ 0 := by
        intro h0
        rw [List.length_eq_zero] at h0
        rw [h0] at hl
        simp at hl
      have : (t3.reads ks).length - 1 + 1 = (t3.reads ks).length := by omega
      rw [this, List.take_length, hsum he]
  · rw [← h3]
    exact reads_reach_end t3 hs

/-- C3, at the sample under the temp-file strategy read with slices of 100,
1000 and 7 bytes: the calls return 100, 92 and 0 bytes, the callback receives
100, 192 and 192 of 192. -/
theorem progress_callback_witness :
    ((sampleSealed FileInTempDir true).reads [100, 1000, 7]).map (fun r => r.event)
      = [some (192, 100), some (192, 192), some (192, 192)]
    ∧ (counts ((sampleSealed FileInTempDir true).reads [100, 1000, 7])).sum
        = (sampleSealed FileInTempDir true).total :=
  ⟨by decide,
   ((progress_callback sampleEnv { TempBufferType := FileInTempDir, SpecifyTmpFolder := "/tmp" }
      emptyWorld _ sampleOps _ (sampleSealed FileInTempDir true) [100, 1000, 7] rfl rfl).2.2.1
        (by decide)).2⟩

/-! ## Lemmas on the staging of `UploadFile` -/

/-- A part handed out by `CreatePart` is open and has no write error. -/
theorem CreatePart_fresh (env : Env) (t t1 : tmp) (header : List (String × String))
    (h : t.CreatePart env header = (t1, none)) :
    ∃ mw, t1.w = some mw ∧ mw.lastpart = some { closed := false, we := none } := by
  unfold tmp.CreatePart at h
  cases hw : t.w with
  | none => simp [hw] at h
  | some mw =>
    simp only [hw] at h
    cases hl : mw.lastpart.bind (·.we) with
    | some err => simp [hl] at h
    | none =>
      simp only [hl] at h
      generalize tmp.storeWrite env _ mw.w (partHeader mw.boundary mw.lastpart.isNone header) = r at h
      obtain ⟨t2, n, e⟩ := r
      cases e with
      | some err => simp at h
      | none =>
        simp only [Prod.mk.injEq, and_true] at h
        subst h
        exact ⟨_, rfl, rfl⟩

/-- The bytes a successful `CreatePart` appends. -/
theorem CreatePart_ok (env : Env) (t t1 : tmp) (mw : Writer) (header : List (String × String))
    (hw : t.w = some mw) (hr : t.Ready mw.w) (h : t.CreatePart env header = (t1, none)) :
    t1.w = some { mw with lastpart := some { closed := false, we := none } }
    ∧ t1.storeBytes mw.w
        = t.storeBytes mw.w ++ partHeader mw.boundary mw.lastpart.isNone header
    ∧ t1.Ready mw.w := by
  have hrd := CreatePart_ready_any env t header mw.w hr
  rw [h] at hrd
  unfold tmp.CreatePart at h
  simp only [hw] at h
  cases hl : mw.lastpart.bind (·.we) with
  | some err => simp [hl] at h
  | none =>
    simp only [hl] at h
    have h1 := write_ready env { t with w := some { mw with lastpart := mw.lastpart.map fun p => { p with closed := true } } } mw.w
      (partHeader mw.boundary mw.lastpart.isNone header) (ready_of_stores t _ _ rfl rfl hr)
    generalize tmp.storeWrite env _ mw.w (partHeader mw.boundary mw.lastpart.isNone header) = r at h h1
    obtain ⟨t2, n, e⟩ := r
    cases e with
    | some err => simp at h
    | none =>
      simp only [Prod.mk.injEq, and_true] at h
      subst h
      refine ⟨rfl, ?_, hrd⟩
      have := h1.2.1
      rw [h1.2.2 rfl, List.take_length] at this
      exact this

/-- A write error kept in the last part is what the next `CreatePart`
returns. -/
theorem CreatePart_sticky (env : Env) (t : tmp) (mw : Writer) (p : Part) (err : String)
    (header : List (String × String))
    (hw : t.w = some mw) (hl : mw.lastpart = some p) (he : p.we = some err) :
    (t.CreatePart env header).2 = some err := by
  unfold tmp.CreatePart
  simp [hw, hl, he]

/-- A failed write to an open part is kept in the part. -/
theorem partWrite_err (env : Env) (t t1 : tmp) (mw : Writer) (d : List UInt8) (n : Nat)
    (err : String) (hw : t.w = some mw) (hl : mw.lastpart = some { closed := false, we := none })
    (h : t.partWrite env d = (t1, n, some err)) :
    ∃ mw1 p, t1.w = some mw1 ∧ mw1.lastpart = some p ∧ p.we = some err := by
  unfold tmp.partWrite at h
  simp only [hw, hl, Bool.false_eq_true, if_false] at h
  generalize tmp.storeWrite env t mw.w d = r at h
  obtain ⟨t2, m, e⟩ := r
  cases e with
  | none => simp at h
  | some err1 =>
    simp only [Prod.mk.injEq, Option.some.injEq] at h
    obtain ⟨rfl, _, rfl⟩ := h
    exact ⟨_, _, rfl, rfl, rfl⟩

/-- A successful write to an open part appends the bytes and leaves the
writer as it is. -/
theorem partWrite_ok (env : Env) (t t1 : tmp) (mw : Writer) (d : List UInt8) (n : Nat)
    (hw : t.w = some mw) (hl : mw.lastpart = some { closed := false, we := none })
    (hr : t.Ready mw.w) (h : t.partWrite env d = (t1, n, none)) :
    t1.w = some mw ∧ t1.storeBytes mw.w = t.storeBytes mw.w ++ d ∧ t1.Ready mw.w
    ∧ n = d.length := by
  unfold tmp.partWrite at h
  simp only [hw, hl, Bool.false_eq_true, if_false] at h
  have h1 := write_ready env t mw.w d hr
  have h2 := write_w env t mw.w d
  generalize tmp.storeWrite env t mw.w d = r at h h1 h2
  obtain ⟨t2, m, e⟩ := r
  cases e with
  | some err1 => simp at h
  | none =>
    simp only [Prod.mk.injEq, and_true] at h
    obtain ⟨rfl, rfl⟩ := h
    have := h1.2.1
    rw [h1.2.2 rfl, List.take_length] at this
    exact ⟨by rw [h2, hw], this, h1.1, h1.2.2 rfl⟩

/-- A successful `io.Copy` appends the bytes of the source, which ended
without error. -/
theorem ioCopy_ok (env : Env) (chunks : List (List UInt8)) (final : Option String)
    (t t1 : tmp) (mw : Writer)
    (hw : t.w = some mw) (hl : mw.lastpart = some { closed := false, we := none })
    (hr : t.Ready mw.w) (h : t.ioCopy env chunks final = (t1, none)) :
    t1.w = some mw ∧ t1.storeBytes mw.w = t.storeBytes mw.w ++ chunks.flatMap id
    ∧ t1.Ready mw.w ∧ final = none := by
  induction chunks generalizing t with
  | nil =>
    simp only [tmp.ioCopy, Prod.mk.injEq] at h
    obtain ⟨rfl, rfl⟩ := h
    exact ⟨hw, by simp, hr, rfl⟩
  | cons c rest ih =>
    unfold tmp.ioCopy at h
    by_cases hc : c.isEmpty = true
    · rw [if_pos hc] at h
      have := ih t hw hr h
      have hnil : c = [] := List.isEmpty_iff.mp hc
      simpa [hnil] using this
    · rw [if_neg hc] at h
      cases hp : t.partWrite env c with
      | mk t2 ne =>
        obtain ⟨n, e⟩ := ne
        rw [hp] at h
        cases e with
        | some err => simp at h
        | none =>
          obtain ⟨g1, g2, g3, g4⟩ := partWrite_ok env t t2 mw c n hw hl hr hp
          simp only [g4, ne_eq, not_true_eq_false, if_false] at h
          obtain ⟨k1, k2, k3, k4⟩ := ih t2 g1 g3 h
          exact ⟨k1, by rw [k2, g2]; simp, k3, k4⟩

/-- A write error kept in the last part is what `flip` returns. -/
theorem flip_sticky (env : Env) (t : tmp) (mw : Writer) (p : Part) (err : String)
    (hw : t.w = some mw) (hl : mw.lastpart = some p) (he : p.we = some err) :
    (t.flip env).2 = some err := by
  have := writerClose_sticky env t mw p err hw hl he
  unfold tmp.flip
  generalize t.writerClose env = r at this
  obtain ⟨t1, e⟩ := r
  simp only [] at this
  subst this
  rfl

/-- The staging as the source runs it returns the first error of the staging
steps, and the same state when there is none: an error of a value write,
which the source does not look at, comes back from the next call of the
writer. -/
theorem sealParts_agrees (env : Env) (c : Client) (folderId fileName : String)
    (fileReader : Reader) (t1 : tmp) :
    (sealParts env c folderId fileName fileReader t1).2
        = (stagingSteps env c folderId fileName fileReader t1).2
    ∧ ((stagingSteps env c folderId fileName fileReader t1).2 = none →
        sealParts env c folderId fileName fileReader t1
          = stagingSteps env c folderId fileName fileReader t1) := by
  unfold sealParts stagingSteps uploadParts
  cases h2 : t1.CreateFormFile env "file" fileName with
  | mk t2 e2 =>
    cases e2 with
    | some err => simp
    | none =>
      simp only []
      cases h3 : t2.ioCopy env fileReader.chunks fileReader.err with
      | mk t3 e3 =>
        cases e3 with
        | some err => simp
        | none =>
          simp only []
          cases h4 : t3.CreateFormField env "folderId" with
          | mk t4 e4 =>
            cases e4 with
            | some err => simp
            | none =>
              simp only []
              obtain ⟨mw4, hw4, hl4⟩ := CreatePart_fresh env t3 t4 _ h4
              cases h5 : t4.partWrite env (bytesOf folderId) with
              | mk t5 ne5 =>
                obtain ⟨n5, e5⟩ := ne5
                cases e5 with
                | some err =>
                  obtain ⟨mw5, p5, hw5, hl5, he5⟩ := partWrite_err env t4 t5 mw4 _ n5 err hw4 hl4 h5
                  have hs := CreatePart_sticky env t5 mw5 p5 err
                    [("Content-Disposition", "form-data; name=\"" ++ escapeQuotes "token" ++ "\"")]
                    hw5 hl5 he5
                  simp only []
                  unfold tmp.CreateFormField
                  generalize tmp.CreatePart env t5 _ = r at hs
                  obtain ⟨t6, e6⟩ := r
                  simp only [] at hs
                  subst hs
                  simp
                | none =>
                  simp only []
                  cases h6 : t5.CreateFormField env "token" with
                  | mk t6 e6 =>
                    cases e6 with
                    | some err => simp
                    | none =>
                      simp only []
                      obtain ⟨mw6, hw6, hl6⟩ := CreatePart_fresh env t5 t6 _ h6
                      cases h7 : t6.partWrite env (bytesOf c.Token) with
                      | mk t7 ne7 =>
                        obtain ⟨n7, e7⟩ := ne7
                        cases e7 with
                        | some err =>
                          obtain ⟨mw7, p7, hw7, hl7, he7⟩ :=
                            partWrite_err env t6 t7 mw6 _ n7 err hw6 hl6 h7
                          have hs := flip_sticky env t7 mw7 p7 err hw7 hl7 he7
                          simp [hs]
                        | none => simp

theorem close_congr (env : Env) (t t1 : tmp) (w : World)
    (h1 : t1.tempBuffer = t.tempBuffer) (h2 : t1.file.map File.name = t.file.map File.name) :
    t1.close env w = t.close env w := by
  unfold tmp.close
  rw [h1]
  cases hf : t.file with
  | none =>
    rw [hf] at h2
    simp only [Option.map_none', Option.map_eq_none'] at h2
    rw [h2]
  | some f =>
    rw [hf] at h2
    cases hf1 : t1.file with
    | none => simp [hf1] at h2
    | some g =>
      simp only [hf1, Option.map_some', Option.some.injEq] at h2
      simp only [h2]

theorem flip_close (env : Env) (t : tmp) (w : World) :
    (t.flip env).1.close env w = t.close env w := by
  have hfr := writerClose_frame env t
  have h1 := frame_tempBuffer t _ hfr
  have h2 := frame_name t _ hfr
  unfold tmp.flip
  generalize t.writerClose env = r at h1 h2
  obtain ⟨t1, e⟩ := r
  simp only [] at h1 h2
  cases e with
  | some err => exact close_congr env t t1 w h1 h2
  | none =>
    simp only []
    split
    · cases t1.ramBuffer with
      | none => exact close_congr env t t1 w h1 h2
      | some b => exact close_congr env t _ w h1 h2
    · split
      · cases hf : t1.file with
        | none =>
          rw [hf] at h2
          exact close_congr env t t1 w h1 (by rw [hf]; exact h2)
        | some f =>
          rw [hf] at h2
          simp only []
          cases env.syncErr with
          | some err => exact close_congr env t t1 w h1 (by rw [hf]; exact h2)
          | none =>
            cases env.seekErr with
            | some err => exact close_congr env t t1 w h1 (by rw [hf]; exact h2)
            | none =>
              cases env.statErr with
              | some err => exact close_congr env t _ w h1 h2
              | none => exact close_congr env t _ w h1 h2
      · exact close_congr env t t1 w h1 h2

theorem uploadParts_frame (env : Env) (c : Client) (t : tmp) (folderId fileName : String)
    (fileReader : Reader) :
    (uploadParts env c t folderId fileName fileReader).1.frame = t.frame := by
  unfold uploadParts
  have f2 := CreatePart_frame env t
    [("Content-Disposition",
        "form-data; name=\"" ++ escapeQuotes "file" ++ "\"; filename=\"" ++ escapeQuotes fileName ++ "\""),
     ("Content-Type", "application/octet-stream")]
  unfold tmp.CreateFormFile
  generalize tmp.CreatePart env t _ = r2 at f2
  obtain ⟨t2, e2⟩ := r2
  cases e2 with
  | some err => exact f2
  | none =>
    simp only []
    have f3 := ioCopy_frame env fileReader.chunks fileReader.err t2
    generalize tmp.ioCopy env t2 fileReader.chunks fileReader.err = r3 at f3
    obtain ⟨t3, e3⟩ := r3
    cases e3 with
    | some err => exact f3.trans f2
    | none =>
      simp only []
      have f4 := CreatePart_frame env t3
        [("Content-Disposition", "form-data; name=\"" ++ escapeQuotes "folderId" ++ "\"")]
      unfold tmp.CreateFormField
      generalize tmp.CreatePart env t3 _ = r4 at f4
      obtain ⟨t4, e4⟩ := r4
      cases e4 with
      | some err => exact f4.trans (f3.trans f2)
      | none =>
        simp only []
        have f5 := partWrite_frame env t4 (bytesOf folderId)
        have f6 := CreatePart_frame env (t4.partWrite env (bytesOf folderId)).1
          [("Content-Disposition", "form-data; name=\"" ++ escapeQuotes "token" ++ "\"")]
        generalize tmp.CreatePart env (t4.partWrite env (bytesOf folderId)).1 _ = r6 at f6
        obtain ⟨t6, e6⟩ := r6
        cases e6 with
        | some err => exact f6.trans (f5.trans (f4.trans (f3.trans f2)))
        | none =>
          simp only []
          exact (partWrite_frame env t6 _).trans (f6.trans (f5.trans (f4.trans (f3.trans f2))))

/-- The deferred `close` sees the strategy and the file name `init` left. -/
theorem sealParts_close (env : Env) (c : Client) (folderId fileName : String)
    (fileReader : Reader) (t1 : tmp) (w : World) :
    (sealParts env c folderId fileName fileReader t1).1.close env w = t1.close env w := by
  have hfr := uploadParts_frame env c t1 folderId fileName fileReader
  have hc := close_congr env t1 _ w (frame_tempBuffer t1 _ hfr) (frame_name t1 _ hfr)
  unfold sealParts
  generalize uploadParts env c t1 folderId fileName fileReader = r at hc
  obtain ⟨t2, e⟩ := r
  cases e with
  | some err => exact hc
  | none =>
    simp only [] at hc ⊢
    rw [flip_close]
    exact hc

/-- The method `UploadFile` in terms of its staging. -/
theorem UploadFile_eq {U : Type} (decode : U → Json → Except String U) (zero : U)
    (env : Env) (c : Client) (server folderId fileName : String) (fileReader : Reader)
    (tempBuffer : TempBuffer) (onSend : Bool) (w : World) :
    Client.UploadFile decode zero env c server folderId fileName fileReader tempBuffer onSend w
      = match (tmp.new tempBuffer onSend).init env w with
        | (_, some err, w1) => (.error err, w1)
        | (t1, none, w1) =>
          match sealParts env c folderId fileName fileReader t1 with
          | (_, some err) => (.error err, (t1.close env w1).2)
          | (t3, none) =>
            match env.urlError "POST" ("https://" ++ server ++ ".gofile.io/uploadFile") with
            | some err => (.error err, (t1.close env w1).2)
            | none =>
              ((RequestResponse (Unmarshal env decode zero) env (uploadRequest server t3) w1).1,
               (t1.close env { w1 with sent := w1.sent ++ [uploadRequest server t3] }).2) := by
  unfold Client.UploadFile
  cases hi : (tmp.new tempBuffer onSend).init env w with
  | mk t1 ew =>
    obtain ⟨e, w1⟩ := ew
    cases e with
    | some err => rfl
    | none =>
      simp only []
      have hc := fun w2 => sealParts_close env c folderId fileName fileReader t1 w2
      unfold sealParts at hc ⊢
      cases hu : uploadParts env c t1 folderId fileName fileReader with
      | mk t2 e2 =>
        rw [hu] at hc
        cases e2 with
        | some err =>
          simp only [] at hc ⊢
          rw [hc]
        | none =>
          simp only [] at hc ⊢
          cases hf : t2.flip env with
          | mk t3 e3 =>
            rw [hf] at hc
            simp only [] at hc
            cases e3 with
            | some err =>
              simp only []
              rw [hc]
            | none =>
              simp only [NewRequest]
              cases env.urlError "POST" ("https://" ++ server ++ ".gofile.io/uploadFile") with
              | some err =>
                simp only []
                rw [hc]
              | none =>
                simp only [headerSet, List.filter_nil, List.nil_append]
                rw [hc, RequestResponse_world]
                rfl

/-! ## C9: the first staging error is returned -/

/-- C9: when a staging step of `UploadFile` fails (`init`, creating the file
part, copying the content, creating the `folderId` or `token` field, writing
either value, or `flip`), `UploadFile` returns the error of the first such
step and hands no request to the transport. -/
theorem staging_error_returned {U : Type} (decode : U → Json → Except String U) (zero : U)
    (env : Env) (c : Client) (server folderId fileName : String) (fileReader : Reader)
    (tempBuffer : TempBuffer) (onSend : Bool) (w : World) (e : String)
    (h : firstStagingError env c folderId fileName fileReader tempBuffer onSend w = some e) :
    (Client.UploadFile decode zero env c server folderId fileName fileReader tempBuffer onSend w).1
        = .error e
    ∧ (Client.UploadFile decode zero env c server folderId fileName fileReader tempBuffer onSend
        w).2.sent = w.sent := by
  rw [UploadFile_eq]
  unfold firstStagingError at h
  have hs := init_sent env (tmp.new tempBuffer onSend) w
  cases hi : (tmp.new tempBuffer onSend).init env w with
  | mk t1 ew =>
    obtain ⟨e1, w1⟩ := ew
    rw [hi] at h hs
    simp only [] at hs
    cases e1 with
    | some err =>
      simp only [Option.some.injEq] at h
      subst h
      exact ⟨rfl, hs⟩
    | none =>
      simp only [] at h ⊢
      have ha := (sealParts_agrees env c folderId fileName fileReader t1).1
      rw [h] at ha
      cases hsp : sealParts env c folderId fileName fileReader t1 with
      | mk t2 e2 =>
        rw [hsp] at ha
        simp only [] at ha
        subst ha
        simp only []
        exact ⟨trivial, by rw [close_sent]; exact hs⟩

/-- C9, where the write of the `folderId` value to the temp file fails: the
source drops that error, the creation of the `token` field returns it, and
`UploadFile` fails with it before any request. -/
theorem staging_error_returned_witness :
    (Client.UploadFile (fun (_ : Unit) _ => .ok ()) () fullDiskEnv { Token := "t" } "store3" "f"
        "a.txt" sampleReader { TempBufferType := FileInTempDir, SpecifyTmpFolder := "/tmp" } false
        emptyWorld).1 = .error "no space left on device"
    ∧ (Client.UploadFile (fun (_ : Unit) _ => .ok ()) () fullDiskEnv { Token := "t" } "store3" "f"
        "a.txt" sampleReader { TempBufferType := FileInTempDir, SpecifyTmpFolder := "/tmp" } false
        emptyWorld).2.sent = [] :=
  staging_error_returned (fun (_ : Unit) _ => .ok ()) () fullDiskEnv { Token := "t" } "store3" "f"
    "a.txt" sampleReader { TempBufferType := FileInTempDir, SpecifyTmpFolder := "/tmp" } false
    emptyWorld "no space left on device" (by decide)

/-! ## C4: the body of the upload -/

theorem lowerhex_plain (n : Nat) (h : n < 16) :
    "()<>@,;:\\\"/[]?= ".toList.contains (lowerhex n) = false := by
  interval_cases n <;> decide

theorem randomBoundary_plain (env : Env) :
    (randomBoundary env).toList.any (fun c => "()<>@,;:\\\"/[]?= ".toList.contains c) = false := by
  unfold randomBoundary
  simp only [String.toList, List.any_eq_false, List.mem_flatMap, forall_exists_index, and_imp]
  intro ch b _ hch
  have h1 : b.toNat / 16 < 16 := by
    have := b.toNat_lt
    omega
  have h2 : b.toNat % 16 < 16 := Nat.mod_lt _ (by decide)
  simp only [List.mem_cons, List.mem_singleton, List.not_mem_nil, or_false] at hch
  rcases hch with rfl | rfl
  · have := lowerhex_plain _ h1
    simp only [String.toList] at this
    rw [this]
    exact Bool.false_ne_true
  · have := lowerhex_plain _ h2
    simp only [String.toList] at this
    rw [this]
    exact Bool.false_ne_true

/-- The content type of a writer with a boundary drawn by `randomBoundary`
names that boundary, unquoted. -/
theorem FormDataContentType_random (env : Env) (s : Store) (lp : Option Part) :
    Writer.FormDataContentType { w := s, boundary := randomBoundary env, lastpart := lp }
      = "multipart/form-data; boundary=" ++ randomBoundary env := by
  unfold Writer.FormDataContentType
  simp only [randomBoundary_plain env, Bool.false_eq_true, if_false]

/-- What the staging steps leave when none fails: the three parts and the
closing boundary, pending from offset 0, the total their number of bytes. -/
theorem stagingSteps_content (env : Env) (c : Client) (folderId fileName : String)
    (fileReader : Reader) (t1 t3 : tmp) (s : Store)
    (hw : t1.w = some { w := s, boundary := randomBoundary env, lastpart := none })
    (hm : t1.Matches s) (hr : t1.Ready s) (hb : t1.storeBytes s = [])
    (h : stagingSteps env c folderId fileName fileReader t1 = (t3, none)) :
    t3.pending
        = multipartMessage (randomBoundary env) (uploadPartsSpec c folderId fileName fileReader)
    ∧ t3.total = (t3.pending.length : Int)
    ∧ t3.Sealed
    ∧ t3.w = some { w := s, boundary := randomBoundary env, lastpart := none } := by
  unfold stagingSteps at h
  cases h2 : t1.CreateFormFile env "file" fileName with
  | mk t2 e2 =>
    rw [h2] at h
    cases e2 with
    | some err => simp at h
    | none =>
      simp only [] at h
      obtain ⟨w2, b2, r2⟩ := CreatePart_ok env t1 t2 _ _ hw hr h2
      cases h3 : t2.ioCopy env fileReader.chunks fileReader.err with
      | mk t3a e3 =>
        rw [h3] at h
        cases e3 with
        | some err => simp at h
        | none =>
          simp only [] at h
          obtain ⟨w3, b3, r3, _⟩ := ioCopy_ok env _ _ t2 t3a _ w2 rfl r2 h3
          cases h4 : t3a.CreateFormField env "folderId" with
          | mk t4 e4 =>
            rw [h4] at h
            cases e4 with
            | some err => simp at h
            | none =>
              simp only [] at h
              obtain ⟨w4, b4, r4⟩ := CreatePart_ok env t3a t4 _ _ w3 r3 h4
              cases h5 : t4.partWrite env (bytesOf folderId) with
              | mk t5 ne5 =>
                obtain ⟨n5, e5⟩ := ne5
                rw [h5] at h
                cases e5 with
                | some err => simp at h
                | none =>
                  simp only [] at h
                  obtain ⟨w5, b5, r5, _⟩ := partWrite_ok env t4 t5 _ _ n5 w4 rfl r4 h5
                  cases h6 : t5.CreateFormField env "token" with
                  | mk t6 e6 =>
                    rw [h6] at h
                    cases e6 with
                    | some err => simp at h
                    | none =>
                      simp only [] at h
                      obtain ⟨w6, b6, r6⟩ := CreatePart_ok env t5 t6 _ _ w5 r5 h6
                      cases h7 : t6.partWrite env (bytesOf c.Token) with
                      | mk t7 ne7 =>
                        obtain ⟨n7, e7⟩ := ne7
                        rw [h7] at h
                        cases e7 with
                        | some err => simp at h
                        | none =>
                          simp only [] at h
                          obtain ⟨w7, b7, r7, _⟩ := partWrite_ok env t6 t7 _ _ n7 w6 rfl r6 h7
                          have hm7 : t7.Matches s := by
                            have f2 := CreatePart_frame env t1
                              [("Content-Disposition",
                                  "form-data; name=\"" ++ escapeQuotes "file" ++ "\"; filename=\""
                                    ++ escapeQuotes fileName ++ "\""),
                               ("Content-Type", "application/octet-stream")]
                            have f3 := ioCopy_frame env fileReader.chunks fileReader.err t2
                            have f4 := CreatePart_frame env t3a
                              [("Content-Disposition",
                                  "form-data; name=\"" ++ escapeQuotes "folderId" ++ "\"")]
                            have f5 := partWrite_frame env t4 (bytesOf folderId)
                            have f6 := CreatePart_frame env t5
                              [("Content-Disposition",
                                  "form-data; name=\"" ++ escapeQuotes "token" ++ "\"")]
                            have f7 := partWrite_frame env t6 (bytesOf c.Token)
                            unfold tmp.CreateFormFile at h2
                            unfold tmp.CreateFormField at h4 h6
                            rw [h2] at f2
                            rw [h3] at f3
                            rw [h4] at f4
                            rw [h5] at f5
                            rw [h6] at f6
                            rw [h7] at f7
                            exact matches_of_frame t1 t7 s
                              (f7.trans (f6.trans (f5.trans (f4.trans (f3.trans f2))))) hm
                          obtain ⟨g1, g2, g3, g4, _, _, _, g8, _⟩ :=
                            flip_ok env t7 _ t3 w7 hm7 r7 h
                          refine ⟨?_, ?_, g4, g8⟩
                          · rw [g3, g1, b7, b6, b5, b4, b3, b2, hb]
                            simp only [multipartMessage, delimited, uploadPartsSpec, FormPart.bytes,
                              filePart, fieldPart, partHeader, Reader.bytes, bytesOf_append,
                              escapeQuotes_eq,
                              Option.isNone_none, Option.isNone_some, if_true, Bool.false_eq_true,
                              if_false, List.nil_append, List.append_assoc]
                            rfl
                          · rw [g3, g2]

/-- The request of an upload whose staging does not fail, when
`http.NewRequest` accepts the URL. -/
theorem UploadFile_sent {U : Type} (decode : U → Json → Except String U) (zero : U)
    (env : Env) (c : Client) (server folderId fileName : String) (fileReader : Reader)
    (tempBuffer : TempBuffer) (onSend : Bool) (w : World)
    (hstage : firstStagingError env c folderId fileName fileReader tempBuffer onSend w = none)
    (hurl : env.urlError "POST" ("https://" ++ server ++ ".gofile.io/uploadFile") = none) :
    ∃ t3 : tmp,
      (Client.UploadFile decode zero env c server folderId fileName fileReader tempBuffer onSend
        w).2.sent
        = w.sent ++ [{ method := "POST", url := "https://" ++ server ++ ".gofile.io/uploadFile",
                       rawQuery := rawQueryOf ("https://" ++ server ++ ".gofile.io/uploadFile"),
                       header := [("Content-Type",
                                   "multipart/form-data; boundary=" ++ randomBoundary env)],
                       body := Body.staged t3 }]
      ∧ t3.pending
          = multipartMessage (randomBoundary env) (uploadPartsSpec c folderId fileName fileReader)
      ∧ t3.total = (t3.pending.length : Int)
      ∧ t3.Sealed := by
  rw [UploadFile_eq]
  unfold firstStagingError at hstage
  have hs := init_sent env (tmp.new tempBuffer onSend) w
  cases hi : (tmp.new tempBuffer onSend).init env w with
  | mk t1 ew =>
    obtain ⟨e1, w1⟩ := ew
    rw [hi] at hstage hs
    simp only [] at hs
    cases e1 with
    | some err => simp at hstage
    | none =>
      simp only [] at hstage ⊢
      obtain ⟨s, hw, hm, hr, hb, _⟩ := init_ok env tempBuffer onSend w w1 t1 hi
      have ha := (sealParts_agrees env c folderId fileName fileReader t1).2 hstage
      cases hst : stagingSteps env c folderId fileName fileReader t1 with
      | mk t3 e3 =>
        rw [hst] at hstage ha
        simp only [] at hstage
        subst hstage
        obtain ⟨c1, c2, c3, c4⟩ :=
          stagingSteps_content env c folderId fileName fileReader t1 t3 s hw hm hr hb hst
        rw [ha]
        simp only [hurl]
        refine ⟨t3, ?_, c1, c2, c3⟩
        rw [close_sent]
        simp only [uploadRequest, c4, Option.map_some', Option.getD_some,
          FormDataContentType_random, hs]

/-- C4: when no staging step fails and the URL is accepted, `UploadFile` hands
the transport one POST request to `https://<server>.gofile.io/uploadFile`
whose body, read to the end of file, is the multipart message of exactly
three parts in this order (the file part `file` with the given file name and
the bytes of the input, the field `folderId` with the folder id, the field
`token` with the client's token) ended by the closing boundary, and whose
`Content-Type` names the boundary of that message.  The file name stands in
the content disposition of the file part as `mime/multipart` writes it: a
backslash before each backslash and quote, a carriage return as `%0D` and a
line feed as `%0A`; a file name with none of these four characters stands
there unchanged. -/
theorem upload_body {U : Type} (decode : U → Json → Except String U) (zero : U)
    (env : Env) (c : Client) (server folderId fileName : String) (fileReader : Reader)
    (tempBuffer : TempBuffer) (onSend : Bool) (w : World)
    (hstage : firstStagingError env c folderId fileName fileReader tempBuffer onSend w = none)
    (hurl : env.urlError "POST" ("https://" ++ server ++ ".gofile.io/uploadFile") = none) :
    (∃ req : Request,
      (Client.UploadFile decode zero env c server folderId fileName fileReader tempBuffer onSend
        w).2.sent = w.sent ++ [req]
      ∧ req.method = "POST"
      ∧ req.url = "https://" ++ server ++ ".gofile.io/uploadFile"
      ∧ req.header = [("Content-Type", "multipart/form-data; boundary=" ++ randomBoundary env)]
      ∧ req.bodyBytes
          = multipartMessage (randomBoundary env)
              [filePart "file" fileName fileReader.bytes,
               fieldPart "folderId" (bytesOf folderId),
               fieldPart "token" (bytesOf c.Token)]
      ∧ ∃ t3, req.body = Body.staged t3
          ∧ (∀ ks, reachedEOF (t3.reads ks) = true → bytesRead (t3.reads ks) = req.bodyBytes)
          ∧ reachedEOF (t3.reads [req.bodyBytes.length + 1, 1]) = true)
    ∧ (filePart "file" fileName fileReader.bytes).header
        = [("Content-Disposition",
              "form-data; name=\"file\"; filename=\"" ++ quotedName fileName ++ "\""),
           ("Content-Type", "application/octet-stream")]
    ∧ ((∀ ch ∈ fileName.toList, ch ≠ '\\' ∧ ch ≠ '"' ∧ ch ≠ '\r' ∧ ch ≠ '\n') →
        (filePart "file" fileName fileReader.bytes).header
          = [("Content-Disposition", "form-data; name=\"file\"; filename=\"" ++ fileName ++ "\""),
             ("Content-Type", "application/octet-stream")]) := by
  obtain ⟨t3, h1, h2, _, h4⟩ := UploadFile_sent decode zero env c server folderId fileName
    fileReader tempBuffer onSend w hstage hurl
  have hname : quotedName "file" = "file" := by decide
  have hpre : "form-data; name=\"" ++ "file" ++ "\"; filename=\""
      = "form-data; name=\"file\"; filename=\"" := by decide
  refine ⟨⟨_, h1, rfl, rfl, rfl, h2, t3, rfl, ?_, ?_⟩, ?_, ?_⟩
  · intro ks he
    exact reads_bytes ks t3 h4 he
  · exact reads_reach_end t3 h4
  · simp only [filePart, hname]
    rw [hpre]
  · intro hplain
    simp only [filePart, hname, quotedName_plain fileName hplain]
    rw [hpre]

/-- C4, at an input of ten bytes staged in memory under a file name with a
line break in it: the one request sent has the three parts as its body, byte
for byte, the file name written `a%0D%0Ab.txt`. -/
theorem upload_body_witness :
    (∃ req : Request,
      (Client.UploadFile (fun (_ : Unit) _ => .ok ()) () sampleEnv { Token := "t" } "store3" "f"
        "a\r\nb.txt" tenBytes { TempBufferType := Ram, SpecifyTmpFolder := "" } false
        emptyWorld).2.sent = [req]
      ∧ req.bodyBytes
          = multipartMessage (randomBoundary sampleEnv)
              [filePart "file" "a\r\nb.txt" [1, 2, 3, 4, 5, 6, 7, 8, 9, 10],
               fieldPart "folderId" (bytesOf "f"),
               fieldPart "token" (bytesOf "t")])
    ∧ (Client.UploadFile (fun (_ : Unit) _ => .ok ()) () sampleEnv { Token := "t" } "store3" "f"
        "a\r\nb.txt" tenBytes { TempBufferType := Ram, SpecifyTmpFolder := "" } false
        emptyWorld).2.sent.map Request.bodyBytes
        = [bytesOf ("--1fa007\r\n"
              ++ "Content-Disposition: form-data; name=\"file\"; filename=\"a%0D%0Ab.txt\"\r\n"
              ++ "Content-Type: application/octet-stream\r\n\r\n")
            ++ [1, 2, 3, 4, 5, 6, 7, 8, 9, 10]
            ++ bytesOf ("\r\n--1fa007\r\nContent-Disposition: form-data; name=\"folderId\"\r\n\r\nf"
              ++ "\r\n--1fa007\r\nContent-Disposition: form-data; name=\"token\"\r\n\r\nt"
              ++ "\r\n--1fa007--\r\n")] := by
  obtain ⟨⟨req, h1, _, _, _, h5, _⟩, _⟩ := upload_body (fun (_ : Unit) _ => .ok ()) () sampleEnv
    { Token := "t" } "store3" "f" "a\r\nb.txt" tenBytes
    { TempBufferType := Ram, SpecifyTmpFolder := "" } false emptyWorld (by decide) rfl
  exact ⟨⟨req, h1, h5⟩, by decide⟩

/-- An upload sends nothing, or one request whose body is the staged
message. -/
theorem UploadFile_sent_cases {U : Type} (decode : U → Json → Except String U) (zero : U)
    (env : Env) (c : Client) (server folderId fileName : String) (fileReader : Reader)
    (tempBuffer : TempBuffer) (onSend : Bool) (w : World) :
    (Client.UploadFile decode zero env c server folderId fileName fileReader tempBuffer onSend
        w).2.sent = w.sent
    ∨ ∃ t3 : tmp,
        (Client.UploadFile decode zero env c server folderId fileName fileReader tempBuffer onSend
          w).2.sent = w.sent ++ [uploadRequest server t3]
        ∧ t3.pending
            = multipartMessage (randomBoundary env)
                (uploadPartsSpec c folderId fileName fileReader) := by
  rw [UploadFile_eq]
  have hs := init_sent env (tmp.new tempBuffer onSend) w
  cases hi : (tmp.new tempBuffer onSend).init env w with
  | mk t1 ew =>
    obtain ⟨e1, w1⟩ := ew
    rw [hi] at hs
    simp only [] at hs
    cases e1 with
    | some err => exact Or.inl hs
    | none =>
      simp only []
      obtain ⟨s, hw, hm, hr, hb, _⟩ := init_ok env tempBuffer onSend w w1 t1 hi
      have ha := sealParts_agrees env c folderId fileName fileReader t1
      cases hsp : sealParts env c folderId fileName fileReader t1 with
      | mk t3 e3 =>
        rw [hsp] at ha
        cases e3 with
        | some err =>
          left
          simp only []
          rw [close_sent]
          exact hs
        | none =>
          simp only [] at ha ⊢
          cases env.urlError "POST" ("https://" ++ server ++ ".gofile.io/uploadFile") with
          | some err =>
            left
            simp only []
            rw [close_sent]
            exact hs
          | none =>
            right
            have hst := (ha.2 ha.1.symm).symm
            obtain ⟨c1, _⟩ :=
              stagingSteps_content env c folderId fileName fileReader t1 t3 s hw hm hr hb hst
            refine ⟨t3, ?_, c1⟩
            simp only []
            rw [close_sent, hs]

/-! ## C5: the temp file after `UploadFile` -/

theorem close_removes (env : Env) (t : tmp) (f : File) (w : World)
    (hty : t.tempBuffer.TempBufferType = FileInTempDir) (hf : t.file = some f)
    (hclose : env.closeErr = none) (hremove : env.removeErr = none) :
    (t.close env w).2.files = w.files.filter (· != f.name) := by
  unfold tmp.close
  have hne : ¬ (t.tempBuffer.TempBufferType = Ram) := by
    rw [hty]
    exact fileInTempDir_ne_ram
  rw [if_neg hne, if_pos hty, hf]
  simp only [hclose, hremove]

/-- With the temp-file strategy, once `init` has created the file, on every
way `UploadFile` ends the file is gone when it returns if `file.Close()` and
`os.Remove` both succeed; the other files are as they were. -/
theorem temp_file_removed {U : Type} (decode : U → Json → Except String U) (zero : U)
    (env : Env) (c : Client) (server folderId fileName : String) (fileReader : Reader)
    (tempBuffer : TempBuffer) (onSend : Bool) (w : World) (name : String)
    (hty : tempBuffer.TempBufferType = FileInTempDir)
    (hcreate : env.CreateTemp tempBuffer.SpecifyTmpFolder "GO_FILE_TMP_" = .ok name)
    (hclose : env.closeErr = none) (hremove : env.removeErr = none) :
    name ∉ (Client.UploadFile decode zero env c server folderId fileName fileReader tempBuffer
              onSend w).2.files
    ∧ (Client.UploadFile decode zero env c server folderId fileName fileReader tempBuffer onSend
        w).2.files = w.files.filter (· != name) := by
  have hne : ¬ (tempBuffer.TempBufferType = Ram) := by
    rw [hty]
    exact fileInTempDir_ne_ram
  have hfiles : (Client.UploadFile decode zero env c server folderId fileName fileReader
      tempBuffer onSend w).2.files = w.files.filter (· != name) := by
    rw [UploadFile_eq]
    have hi : (tmp.new tempBuffer onSend).init env w
        = ({ tmp.new tempBuffer onSend with
              file := some { name := name, data := [], pos := 0, writes := 0 },
              w := some (NewWriter env .file) },
            none, { w with files := w.files ++ [name] }) := by
      unfold tmp.init
      simp only [tmp.new, hne, hty, if_false, if_true, hcreate]
      rw [if_neg fileInTempDir_ne_ram]
    rw [hi]
    simp only []
    have hc : ∀ w2 : World, w2.files = w.files ++ [name] →
        (tmp.close env { tmp.new tempBuffer onSend with
              file := some { name := name, data := [], pos := 0, writes := 0 },
              w := some (NewWriter env .file) } w2).2.files = w.files.filter (· != name) := by
      intro w2 hw2
      rw [close_removes env _ { name := name, data := [], pos := 0, writes := 0 } w2 hty rfl
        hclose hremove, hw2]
      simp
    cases sealParts env c folderId fileName fileReader _ with
    | mk t3 e3 =>
      cases e3 with
      | some err => exact hc _ rfl
      | none =>
        simp only []
        cases env.urlError "POST" ("https://" ++ server ++ ".gofile.io/uploadFile") with
        | some err => exact hc _ rfl
        | none => exact hc _ rfl
  refine ⟨?_, hfiles⟩
  rw [hfiles]
  simp

/-- When `file.Close()` fails, `close` leaves the files as they are: it
returns before `os.Remove`. -/
theorem close_keeps (env : Env) (t : tmp) (w : World) (err : String)
    (hclose : env.closeErr = some err) : (t.close env w).2 = w := by
  unfold tmp.close
  split
  · rfl
  · split
    · cases t.file with
      | none => rfl
      | some f => simp only [hclose]
    · rfl

/-- C5: the temp file is left behind when `file.Close()` fails.  With the
temp-file strategy, once `init` has created the file, if closing the handle
returns an error then on every way `UploadFile` ends (a staging error, a
request-construction error, a transport failure, a status other than `ok`,
or success) the file is still there when `UploadFile` returns: `close`
returns the error of `file.Close()` before it reaches `os.Remove`, and the
deferred call drops that error. -/
theorem temp_file_left_when_close_fails {U : Type} (decode : U → Json → Except String U)
    (zero : U) (env : Env) (c : Client) (server folderId fileName : String)
    (fileReader : Reader) (tempBuffer : TempBuffer) (onSend : Bool) (w : World)
    (name err : String)
    (hty : tempBuffer.TempBufferType = FileInTempDir)
    (hcreate : env.CreateTemp tempBuffer.SpecifyTmpFolder "GO_FILE_TMP_" = .ok name)
    (hclose : env.closeErr = some err) :
    (Client.UploadFile decode zero env c server folderId fileName fileReader tempBuffer onSend
        w).2.files = w.files ++ [name]
    ∧ name ∈ (Client.UploadFile decode zero env c server folderId fileName fileReader tempBuffer
                onSend w).2.files := by
  have hne : ¬ (tempBuffer.TempBufferType = Ram) := by
    rw [hty]
    exact fileInTempDir_ne_ram
  have hfiles : (Client.UploadFile decode zero env c server folderId fileName fileReader
      tempBuffer onSend w).2.files = w.files ++ [name] := by
    rw [UploadFile_eq]
    have hi : (tmp.new tempBuffer onSend).init env w
        = ({ tmp.new tempBuffer onSend with
              file := some { name := name, data := [], pos := 0, writes := 0 },
              w := some (NewWriter env .file) },
            none, { w with files := w.files ++ [name] }) := by
      unfold tmp.init
      simp only [tmp.new, hne, hty, if_false, if_true, hcreate]
      rw [if_neg fileInTempDir_ne_ram]
    rw [hi]
    simp only []
    cases sealParts env c folderId fileName fileReader _ with
    | mk t3 e3 =>
      cases e3 with
      | some e =>
        simp only []
        rw [close_keeps env _ _ err hclose]
      | none =>
        simp only []
        cases env.urlError "POST" ("https://" ++ server ++ ".gofile.io/uploadFile") with
        | some e =>
          simp only []
          rw [close_keeps env _ _ err hclose]
        | none =>
          simp only []
          rw [close_keeps env _ _ err hclose]
  refine ⟨hfiles, ?_⟩
  rw [hfiles]
  simp

/-- C5, at an upload of ten bytes that the service answers with status `ok`
while closing the temp file fails with an input/output error: `UploadFile`
returns no error and the file `/tmp/GO_FILE_TMP_1` that `init` created is
still there; the same upload with nothing failing leaves no file. -/
theorem temp_file_left_when_close_fails_witness :
    errorOf (Client.UploadFile (fun (_ : Unit) _ => .ok ()) () closeFailsEnv { Token := "t" }
        "store3" "f" "a.txt" tenBytes { TempBufferType := FileInTempDir, SpecifyTmpFolder := "/tmp" }
        false emptyWorld).1 = none
    ∧ (Client.UploadFile (fun (_ : Unit) _ => .ok ()) () closeFailsEnv { Token := "t" } "store3"
        "f" "a.txt" tenBytes { TempBufferType := FileInTempDir, SpecifyTmpFolder := "/tmp" } false
        emptyWorld).2.files = ["/tmp/GO_FILE_TMP_1"]
    ∧ (Client.UploadFile (fun (_ : Unit) _ => .ok ()) () okEnv { Token := "t" } "store3" "f"
        "a.txt" tenBytes { TempBufferType := FileInTempDir, SpecifyTmpFolder := "/tmp" } false
        emptyWorld).2.files = [] :=
  ⟨by decide,
   (temp_file_left_when_close_fails (fun (_ : Unit) _ => .ok ()) () closeFailsEnv { Token := "t" }
      "store3" "f" "a.txt" tenBytes { TempBufferType := FileInTempDir, SpecifyTmpFolder := "/tmp" }
      false emptyWorld "/tmp/GO_FILE_TMP_1" "input/output error" rfl rfl rfl).1,
   by decide⟩

/-! ## C8: the token parameter -/

theorem mem_insertByKey {α : Type} (e x : String × α) (l : List (String × α)) :
    x ∈ insertByKey e l ↔ x = e ∨ x ∈ l := by
  induction l with
  | nil => simp [insertByKey]
  | cons y ys ih =>
    unfold insertByKey
    split
    · simp
    · simp only [List.mem_cons, ih]
      tauto

theorem mem_sortByKey {α : Type} (x : String × α) (m : List (String × α)) :
    x ∈ sortByKey m ↔ x ∈ m := by
  induction m with
  | nil => simp [sortByKey]
  | cons y ys ih =>
    have : sortByKey (y :: ys) = insertByKey y (sortByKey ys) := rfl
    rw [this, mem_insertByKey, ih]
    simp

theorem go_length_acc (s : String) (l : List String) (acc : String) :
    acc.length ≤ (String.intercalate.go acc s l).length := by
  induction l generalizing acc with
  | nil => simp [String.intercalate.go]
  | cons a as ih =>
    simp only [String.intercalate.go]
    refine Nat.le_trans ?_ (ih _)
    simp only [String.length_append]
    omega

theorem go_length_mem (s : String) (l : List String) (acc p : String) (hp : p ∈ l) :
    p.length ≤ (String.intercalate.go acc s l).length := by
  induction l generalizing acc with
  | nil => simp at hp
  | cons a as ih =>
    simp only [String.intercalate.go]
    rcases List.mem_cons.mp hp with rfl | h
    · refine Nat.le_trans ?_ (go_length_acc s as _)
      simp only [String.length_append]
      omega
    · exact ih _ h

theorem intercalate_length_mem (s : String) (l : List String) (p : String) (hp : p ∈ l) :
    p.length ≤ (s.intercalate l).length := by
  cases l with
  | nil => simp at hp
  | cons a as =>
    simp only [String.intercalate]
    rcases List.mem_cons.mp hp with rfl | h
    · exact go_length_acc s as _
    · exact go_length_mem s as _ p h

/-- The encoding of a parameter map with a parameter set is not empty. -/
theorem Encode_ne_empty (v : Values) (key value : String) (h : (key, [value]) ∈ v) :
    v.Encode ≠ "" := by
  intro he
  have hmem : (QueryEscape key ++ "=" ++ QueryEscape value)
      ∈ (sortByKey v).flatMap (fun kv =>
          kv.2.map fun value => QueryEscape kv.1 ++ "=" ++ QueryEscape value) := by
    rw [List.mem_flatMap]
    exact ⟨(key, [value]), (mem_sortByKey _ v).mpr h, by simp⟩
  have hl := intercalate_length_mem "&" _ _ hmem
  unfold Values.Encode at he
  rw [he] at hl
  simp only [String.length_append] at hl
  have : ("=" : String).length = 1 := rfl
  have h0 : ("" : String).length = 0 := rfl
  omega

theorem GetServer_world (env : Env) (c : Client) (w : World) :
    (Client.GetServer env c w).2
      = (ReqResponse (Unmarshal env decodeServerResult { Server := "" }) env "GET" "getServer"
          none none w).2 := by
  unfold Client.GetServer
  split <;> simp_all

/-- What `ReqResponse` sends: nothing, or the request it built. -/
theorem ReqResponse_sent_cases {T : Type} (unmarshal : List UInt8 → Except String (Response T))
    (env : Env) (method path : String) (query params : Option (List (String × String)))
    (w : World) :
    (ReqResponse unmarshal env method path query params w).2.sent = w.sent
    ∨ (ReqResponse unmarshal env method path query params w).2.sent
        = w.sent ++ [builtRequest env method path query params] := by
  cases h : env.urlError method (ApiUri ++ "/" ++ path) with
  | some e =>
    left
    rw [ReqResponse_refused unmarshal env method path query params w e h]
  | none =>
    right
    rw [ReqResponse_built unmarshal env method path query params w h, RequestResponse_world]

theorem ReqResponse_sent_length {T : Type}
    (unmarshal : List UInt8 → Except String (Response T)) (env : Env) (method path : String)
    (query params : Option (List (String × String))) (w : World)
    (h : ∀ m u, env.urlError m u = none) :
    (ReqResponse unmarshal env method path query params w).2.sent.length = w.sent.length + 1 := by
  rw [ReqResponse_built unmarshal env method path query params w (h _ _), RequestResponse_world]
  simp

theorem carries_of_cases (c : Client) (sent0 sent1 : List Request) (req : Request)
    (h : sent1 = sent0 ∨ sent1 = sent0 ++ [req]) (hc : carriesToken c req) :
    ∀ r ∈ sent1, r ∈ sent0 ∨ carriesToken c r := by
  intro r hr
  rcases h with h | h
  · rw [h] at hr
    exact Or.inl hr
  · rw [h] at hr
    rcases List.mem_append.mp hr with h1 | h1
    · exact Or.inl h1
    · rw [List.mem_singleton] at h1
      rw [h1]
      exact Or.inr hc

/-- A request with an empty query and no body carries no token. -/
theorem bare_request_no_token (c : Client) (method url : String)
    (header : List (String × String)) :
    ¬ carriesToken c
        { method := method, url := url, rawQuery := "", header := header, body := Body.none } := by
  rintro (⟨v, hv, hm⟩ | ⟨v, hv, _⟩ | ⟨t, _, _, hb, _⟩)
  · exact Encode_ne_empty v "token" c.Token hm hv.symm
  · cases hv
  · cases hb

/-- What `GetServer` sends: nothing, or a GET request for `getServer` with an
empty query, no header and no body. -/
theorem GetServer_sent_cases (env : Env) (c : Client) (w : World) :
    (env.urlError "GET" "https://api.gofile.io/getServer" = none →
      (Client.GetServer env c w).2.sent
        = w.sent ++ [{ method := "GET", url := "https://api.gofile.io/getServer", rawQuery := "",
                       header := [], body := Body.none }])
    ∧ (∀ e, env.urlError "GET" "https://api.gofile.io/getServer" = some e →
        (Client.GetServer env c w).2.sent = w.sent) := by
  have hu : ApiUri ++ "/" ++ "getServer" = "https://api.gofile.io/getServer" := by decide
  constructor
  · intro h
    rw [GetServer_world, ReqResponse_built _ env "GET" "getServer" none none w (by rw [hu]; exact h),
      RequestResponse_world]
    rfl
  · intro e h
    rw [GetServer_world,
      ReqResponse_refused _ env "GET" "getServer" none none w e (by rw [hu]; exact h)]

/-- C8, as amended: every request sent by `GetAccountDetails`, `CreateFolder`,
`CopyContent`, `DeleteContent`, `SetFolderOption`, `GetContent` and
`UploadFile` carries a parameter `token` whose value is the client's token, as
a query parameter, a form-body parameter or a multipart field, and each of the
first six sends exactly one request when `http.NewRequest` accepts its URL;
`GetServer` is not among them: for every client, the one request it sends
when `http.NewRequest` accepts its URL is a GET for `getServer` with an empty
query, no header and no body, which carries no token, and it sends no other
request. -/
theorem requests_carry_token {A F C U : Type}
    (decA : A → Json → Except String A) (zeroA : A)
    (decF : F → Json → Except String F) (zeroF : F)
    (decC : C → Json → Except String C) (zeroC : C)
    (decU : U → Json → Except String U) (zeroU : U)
    (env : Env) (c : Client) (w : World) (a b d : String) (ids : List String)
    (fileReader : Reader) (tempBuffer : TempBuffer) (onSend : Bool) :
    (∀ r ∈ (Client.GetAccountDetails decA zeroA env c w).2.sent, r ∈ w.sent ∨ carriesToken c r)
    ∧ (∀ r ∈ (Client.CreateFolder decF zeroF env c a b w).2.sent, r ∈ w.sent ∨ carriesToken c r)
    ∧ (∀ r ∈ (Client.CopyContent env c a ids w).2.sent, r ∈ w.sent ∨ carriesToken c r)
    ∧ (∀ r ∈ (Client.DeleteContent env c ids w).2.sent, r ∈ w.sent ∨ carriesToken c r)
    ∧ (∀ r ∈ (Client.SetFolderOption env c a b d w).2.sent, r ∈ w.sent ∨ carriesToken c r)
    ∧ (∀ r ∈ (Client.GetContent decC zeroC env c a w).2.sent, r ∈ w.sent ∨ carriesToken c r)
    ∧ (∀ r ∈ (Client.UploadFile decU zeroU env c a b d fileReader tempBuffer onSend w).2.sent,
        r ∈ w.sent ∨ carriesToken c r)
    ∧ ((∀ m u, env.urlError m u = none) →
        (Client.GetAccountDetails decA zeroA env c w).2.sent.length = w.sent.length + 1
        ∧ (Client.CreateFolder decF zeroF env c a b w).2.sent.length = w.sent.length + 1
        ∧ (Client.CopyContent env c a ids w).2.sent.length = w.sent.length + 1
        ∧ (Client.DeleteContent env c ids w).2.sent.length = w.sent.length + 1
        ∧ (Client.SetFolderOption env c a b d w).2.sent.length = w.sent.length + 1
        ∧ (Client.GetContent decC zeroC env c a w).2.sent.length = w.sent.length + 1)
    ∧ (env.urlError "GET" "https://api.gofile.io/getServer" = none →
        (Client.GetServer env c w).2.sent
          = w.sent ++ [{ method := "GET", url := "https://api.gofile.io/getServer",
                         rawQuery := "", header := [], body := Body.none }])
    ∧ (∀ r ∈ (Client.GetServer env c w).2.sent, r ∈ w.sent
        ∨ r = { method := "GET", url := "https://api.gofile.io/getServer", rawQuery := "",
                header := [], body := Body.none })
    ∧ ¬ carriesToken c
          { method := "GET", url := "https://api.gofile.io/getServer", rawQuery := "",
            header := [], body := Body.none } := by
  refine ⟨?_, ?_, ?_, ?_, ?_, ?_, ?_, fun h =>
    ⟨ReqResponse_sent_length _ env _ _ _ _ w h, ReqResponse_sent_length _ env _ _ _ _ w h,
     ReqResponse_sent_length _ env _ _ _ _ w h, ReqResponse_sent_length _ env _ _ _ _ w h,
     ReqResponse_sent_length _ env _ _ _ _ w h, ReqResponse_sent_length _ env _ _ _ _ w h⟩,
    (GetServer_sent_cases env c w).1, ?_, bare_request_no_token c _ _ _⟩
  · exact carries_of_cases c _ _ _ (ReqResponse_sent_cases _ env _ _ _ _ w)
      (Or.inl ⟨[("allDetails", ["true"]), ("token", [c.Token])], rfl, by simp⟩)
  · exact carries_of_cases c _ _ _ (ReqResponse_sent_cases _ env _ _ _ _ w)
      (Or.inr (Or.inl ⟨[("parentFolderId", [a]), ("folderName", [b]), ("token", [c.Token])],
        rfl, by simp⟩))
  · exact carries_of_cases c _ _ _ (ReqResponse_sent_cases _ env _ _ _ _ w)
      (Or.inr (Or.inl ⟨[("folderIdDest", [a]), ("contentsId", [Join ids ","]),
        ("token", [c.Token])], rfl, by simp⟩))
  · exact carries_of_cases c _ _ _ (ReqResponse_sent_cases _ env _ _ _ _ w)
      (Or.inr (Or.inl ⟨[("contentsId", [Join ids ","]), ("token", [c.Token])], rfl, by simp⟩))
  · exact carries_of_cases c _ _ _ (ReqResponse_sent_cases _ env _ _ _ _ w)
      (Or.inr (Or.inl ⟨[("folderId", [a]), ("option", [b]), ("value", [d]),
        ("token", [c.Token])], rfl, by simp⟩))
  · exact carries_of_cases c _ _ _ (ReqResponse_sent_cases _ env _ _ _ _ w)
      (Or.inl ⟨[("contentId", [a]), ("token", [c.Token])], rfl, by simp⟩)
  · rcases UploadFile_sent_cases decU zeroU env c a b d fileReader tempBuffer onSend w with h | h
    · intro r hr
      rw [h] at hr
      exact Or.inl hr
    · obtain ⟨t3, h1, h2⟩ := h
      refine carries_of_cases c _ _ (uploadRequest a t3) (Or.inr h1) ?_
      exact Or.inr (Or.inr ⟨t3, randomBoundary env, uploadPartsSpec c b d fileReader, rfl, h2,
        by simp [uploadPartsSpec]⟩)
  · intro r hr
    cases hu : env.urlError "GET" "https://api.gofile.io/getServer" with
    | none =>
      rw [(GetServer_sent_cases env c w).1 hu] at hr
      rcases List.mem_append.mp hr with h1 | h1
      · exact Or.inl h1
      · exact Or.inr (List.mem_singleton.mp h1)
    | some e =>
      rw [(GetServer_sent_cases env c w).2 e hu] at hr
      exact Or.inl hr

/-- C8 as stated fails: the request `GetServer` sends has an empty query, no
body and no header, so it carries no token. -/
theorem GetServer_sends_no_token :
    (Client.GetServer sampleEnv { Token := "t" } emptyWorld).2.sent
      = [{ method := "GET", url := "https://api.gofile.io/getServer", rawQuery := "",
           header := [], body := Body.none }]
    ∧ ¬ carriesToken { Token := "t" }
        { method := "GET", url := "https://api.gofile.io/getServer", rawQuery := "",
          header := [], body := Body.none } := by
  constructor
  · rw [GetServer_world, ReqResponse_built _ sampleEnv "GET" "getServer" none none emptyWorld rfl,
      RequestResponse_world]
    rfl
  · rintro (⟨v, hv, hm⟩ | ⟨v, hv, _⟩ | ⟨t, _, _, hb, _⟩)
    · exact Encode_ne_empty v "token" "t" hm hv.symm
    · cases hv
    · cases hb

end Gofile
